import Mathlib

/-!
Shallow embedding of `src/source/trader/matching/order_book.cpp` from the
CppTrader repository: the price-level bookkeeping core of a limit order book.

Only `order_book.cpp` is in the source tree.  The declarations it relies on
(`order_book.h`, `level.h`, the intrusive AVL ladder container `Levels` and
the level pool) are modelled from the specification; every such definition is
marked `Modelled from the spec`.  Each ladder is represented by its in-order
traversal: a list of levels in strictly ascending price order.  Level nodes
are identified by their price within a ladder (prices are unique per ladder
per the spec, section 3 invariant 1), so the pointer comparisons of the
source (`level_ptr == _best_bid`, `order_ptr->Level == _best_bid`) become
comparisons of optional prices.  Prices and quantities are `Nat`: the caller
contract (spec sections 6 and 7) excludes `uint64_t` wrap-around, so plain
`Nat` arithmetic coincides with the machine arithmetic on the
defined-behaviour envelope.
-/

/-- Modelled from the spec: the `LevelType` tag of a price level
(`level.h`, not under `src/`). -/
inductive LevelType where
  | BID
  | ASK
deriving DecidableEq, Repr

/-- Modelled from the spec: the `UpdateType` kind of a `LevelUpdate`
(`update.h`, not under `src/`). -/
inductive UpdateType where
  | ADD
  | UPDATE
  | DELETE
deriving DecidableEq, Repr

/-- Modelled from the spec: a price level (`level.h`, not under `src/`):
type tag, price, aggregated volumes, order count and the FIFO queue of
resting orders, stored as the list of their order ids. -/
structure Level where
  type : LevelType
  price : Nat
  totalVolume : Nat
  hiddenVolume : Nat
  visibleVolume : Nat
  orders : Nat
  orderList : List Nat
deriving DecidableEq, Repr

/-- Modelled from the spec: the order fields the book reads (`order.h`, not
under `src/`): unique id, side (`IsBuy()`), price, remaining quantity, its
hidden and visible parts (`HiddenQuantity()` / `VisibleQuantity()`, with
`quantity = hidden + visible` per the caller contract), and the mutable
back-reference `Level`, identified here by the price of the level on the
order's side (`none` when unlinked). -/
structure OrderNode where
  id : Nat
  isBuy : Bool
  price : Nat
  quantity : Nat
  hidden : Nat
  visible : Nat
  level : Option Nat
deriving DecidableEq, Repr

/-- Modelled from the spec: the `LevelUpdate` event record (section 4.6):
kind, a by-value snapshot of the affected level, and the top-of-book flag. -/
structure LevelUpdate where
  kind : UpdateType
  snapshot : Level
  top : Bool
deriving DecidableEq, Repr

/-- Modelled from the spec: the `OrderBook` state (`order_book.h`, not under
`src/`): the four ladders `_bids`, `_asks`, `_buy_stop`, `_sell_stop`, each
as its in-order (ascending-price) traversal, and the cached best pointers
`_best_bid`, `_best_ask` as optional prices. -/
structure OrderBook where
  bids : List Level
  asks : List Level
  buyStop : List Level
  sellStop : List Level
  bestBid : Option Nat
  bestAsk : Option Nat
deriving DecidableEq, Repr

/-- Price projection of a ladder (its in-order key sequence). -/
def prices (ls : List Level) : List Nat := ls.map (·.price)

/-- Modelled from the spec: ordered-container insertion (`Levels::insert`,
section 4.2) on the in-order traversal, keeping ascending price order. -/
def insertLevel (lvl : Level) : List Level → List Level
  | [] => [lvl]
  | x :: xs => if lvl.price < x.price then lvl :: x :: xs else x :: insertLevel lvl xs

/-- Modelled from the spec: ordered-container erase by node handle
(`Levels::erase`, section 4.2); the handle is the (per-ladder unique) price. -/
def eraseLevel (p : Nat) : List Level → List Level
  | [] => []
  | x :: xs => if x.price == p then xs else x :: eraseLevel p xs

/-- In-place mutation of the ladder node at price `p` through the node
pointer, as the source does via `level_ptr->...`. -/
def updateLevelAt (p : Nat) (f : Level → Level) : List Level → List Level
  | [] => []
  | x :: xs => if x.price == p then f x :: xs else x :: updateLevelAt p f xs

/-- Modelled from the spec (section 4.5): the price of the in-order successor
of the deleted best bid in the bid ladder, i.e. the next-lower price, `none`
if no level with a lower price remains.  The source computes this with the
`left child else parent` step on the AVL node; `stepBid_eq_nextLower` below
proves that step equal to this definition on every AVL tree shape. -/
def nextLowerPrice (ls : List Level) (p : Nat) : Option Nat :=
  ((ls.filter (fun l => l.price < p)).getLast?).map (·.price)

/-- Modelled from the spec (section 4.5): the price of the in-order successor
of the deleted best ask in the ask ladder, i.e. the next-higher price. -/
def nextHigherPrice (ls : List Level) (p : Nat) : Option Nat :=
  ((ls.filter (fun l => p < l.price)).head?).map (·.price)

/-- Modelled from the spec: `LevelPool::Create` (section 4.1) as used by
`OrderBook::AddLevel`: a freshly initialized level with zeroed counters, an
empty queue, the order's price, and tag `BID` for a buy order, `ASK` for a
sell order (`order_book.cpp` lines 44 and 56). -/
def freshLimitLevel (o : OrderNode) : Level :=
  { type := if o.isBuy then LevelType.BID else LevelType.ASK
    price := o.price
    totalVolume := 0
    hiddenVolume := 0
    visibleVolume := 0
    orders := 0
    orderList := [] }

/-- Modelled from the spec: `GetBid(price)` exact-match lookup in the bid
ladder (`order_book.h`, not under `src/`). -/
def GetBid (b : OrderBook) (p : Nat) : Option Level :=
  b.bids.find? (·.price == p)

/-- Modelled from the spec: `GetAsk(price)` exact-match lookup in the ask
ladder (`order_book.h`, not under `src/`). -/
def GetAsk (b : OrderBook) (p : Nat) : Option Level :=
  b.asks.find? (·.price == p)

/-- Modelled from the spec: `GetBuyStopLevel(price)` exact-match lookup in
the buy-stop ladder (`order_book.h`, not under `src/`). -/
def GetBuyStopLevel (b : OrderBook) (p : Nat) : Option Level :=
  b.buyStop.find? (·.price == p)

/-- Modelled from the spec: `GetSellStopLevel(price)` exact-match lookup in
the sell-stop ladder (`order_book.h`, not under `src/`). -/
def GetSellStopLevel (b : OrderBook) (p : Nat) : Option Level :=
  b.sellStop.find? (·.price == p)

/-- The best pointer of the side a buy (`true`) or sell (`false`) order
trades on; used for the `top` flags of `order_book.cpp` lines 125, 157, 186. -/
def bestOf (isBuy : Bool) (b : OrderBook) : Option Nat :=
  if isBuy then b.bestBid else b.bestAsk

/-- `OrderBook::AddLevel` (`order_book.cpp` lines 37-67): create a fresh
level for the order, insert it into the bid (resp. ask) ladder, and update
`_best_bid` (resp. `_best_ask`) when the new price is better.  Ladder keys
are unique (spec section 4.2: duplicate insertion is a programming error),
so inserting an already-present price is modelled as failure. -/
def AddLevel (o : OrderNode) (b : OrderBook) : Option (Level × OrderBook) :=
  if o.isBuy then
    if o.price ∈ prices b.bids then none
    else
      let lvl := freshLimitLevel o
      some (lvl,
        { b with
            bids := insertLevel lvl b.bids
            bestBid :=
              match b.bestBid with
              | none => some lvl.price
              | some bp => if bp < lvl.price then some lvl.price else some bp })
  else
    if o.price ∈ prices b.asks then none
    else
      let lvl := freshLimitLevel o
      some (lvl,
        { b with
            asks := insertLevel lvl b.asks
            bestAsk :=
              match b.bestAsk with
              | none => some lvl.price
              | some ap => if lvl.price < ap then some lvl.price else some ap })

/-- `OrderBook::DeleteLevel` (`order_book.cpp` lines 69-97): if the erased
level is the side's best, advance the best pointer to the in-order successor
(the source's `left child else parent` / `right child else parent` AVL step,
modelled per spec section 4.5 as the next-lower / next-higher price), then
erase the level from the ladder.  `lp` is the price held in
`order_ptr->Level`, resolved by the caller's match. -/
def DeleteLevel (o : OrderNode) (lp : Nat) (b : OrderBook) : OrderBook :=
  if o.isBuy then
    { b with
        bids := eraseLevel lp b.bids
        bestBid := if b.bestBid == some lp then nextLowerPrice b.bids lp else b.bestBid }
  else
    { b with
        asks := eraseLevel lp b.asks
        bestAsk := if b.bestAsk == some lp then nextHigherPrice b.asks lp else b.bestAsk }

/-- The level mutation of `order_book.cpp` lines 112-119 and 244-251: add the
order's quantities to the level counters and append the order to the FIFO
queue. -/
def orderAdded (o : OrderNode) (l : Level) : Level :=
  { l with
      totalVolume := l.totalVolume + o.quantity
      hiddenVolume := l.hiddenVolume + o.hidden
      visibleVolume := l.visibleVolume + o.visible
      orderList := l.orderList ++ [o.id]
      orders := l.orders + 1 }

/-- The volume subtraction of `order_book.cpp` lines 133-136, 165-168,
262-265 and 289-292. -/
def reduceLevel (q h v : Nat) (l : Level) : Level :=
  { l with
      totalVolume := l.totalVolume - q
      hiddenVolume := l.hiddenVolume - h
      visibleVolume := l.visibleVolume - v }

/-- The unlink of `order_book.cpp` lines 139-143, 170-172, 267-272 and
294-296: pop the order from the FIFO queue and decrement the order count. -/
def unlinkOrder (i : Nat) (l : Level) : Level :=
  { l with
      orderList := l.orderList.erase i
      orders := l.orders - 1 }

/-- `OrderBook::AddOrder` (`order_book.cpp` lines 99-126). -/
def AddOrder (o : OrderNode) (b : OrderBook) : Option (LevelUpdate × OrderBook × OrderNode) :=
  match (if o.isBuy then GetBid b o.price else GetAsk b o.price) with
  | some lvl =>
      let b2 :=
        if o.isBuy then { b with bids := updateLevelAt o.price (orderAdded o) b.bids }
        else { b with asks := updateLevelAt o.price (orderAdded o) b.asks }
      let o' := { o with level := some o.price }
      some (⟨UpdateType.UPDATE, orderAdded o lvl, o'.level == bestOf o.isBuy b2⟩, b2, o')
  | none =>
      match AddLevel o b with
      | none => none
      | some (lvl0, b1) =>
          let b2 :=
            if o.isBuy then { b1 with bids := updateLevelAt o.price (orderAdded o) b1.bids }
            else { b1 with asks := updateLevelAt o.price (orderAdded o) b1.asks }
          let o' := { o with level := some o.price }
          some (⟨UpdateType.ADD, orderAdded o lvl0, o'.level == bestOf o.isBuy b2⟩, b2, o')

/-- `OrderBook::ReduceOrder` (`order_book.cpp` lines 128-158): subtract the
deltas, pop the order when its own quantity has reached zero, snapshot the
level, delete the level when its total volume reached zero, and report the
update with the `top` flag comparing `order_ptr->Level` (cleared to null by a
deletion) against the side's best pointer. -/
def ReduceOrder (o : OrderNode) (quantity hidden visible : Nat) (b : OrderBook) :
    Option (LevelUpdate × OrderBook × OrderNode) :=
  match o.level with
  | none => none
  | some lp =>
      match (if o.isBuy then GetBid b lp else GetAsk b lp) with
      | none => none
      | some lvl =>
          let lvl1 := reduceLevel quantity hidden visible lvl
          let lvl2 := if o.quantity == 0 then unlinkOrder o.id lvl1 else lvl1
          let b1 :=
            if o.isBuy then { b with bids := updateLevelAt lp (fun _ => lvl2) b.bids }
            else { b with asks := updateLevelAt lp (fun _ => lvl2) b.asks }
          if lvl2.totalVolume == 0 then
            let b2 := DeleteLevel o lp b1
            let o' := { o with level := none }
            some (⟨UpdateType.DELETE, lvl2, o'.level == bestOf o.isBuy b2⟩, b2, o')
          else
            some (⟨UpdateType.UPDATE, lvl2, o.level == bestOf o.isBuy b1⟩, b1, o)

/-- `OrderBook::DeleteOrder` (`order_book.cpp` lines 160-187): subtract the
order's own quantities, pop it unconditionally, snapshot the level, delete
the level when its total volume reached zero, and report the update. -/
def DeleteOrder (o : OrderNode) (b : OrderBook) : Option (LevelUpdate × OrderBook × OrderNode) :=
  match o.level with
  | none => none
  | some lp =>
      match (if o.isBuy then GetBid b lp else GetAsk b lp) with
      | none => none
      | some lvl =>
          let lvl1 := unlinkOrder o.id (reduceLevel o.quantity o.hidden o.visible lvl)
          let b1 :=
            if o.isBuy then { b with bids := updateLevelAt lp (fun _ => lvl1) b.bids }
            else { b with asks := updateLevelAt lp (fun _ => lvl1) b.asks }
          if lvl1.totalVolume == 0 then
            let b2 := DeleteLevel o lp b1
            let o' := { o with level := none }
            some (⟨UpdateType.DELETE, lvl1, o'.level == bestOf o.isBuy b2⟩, b2, o')
          else
            some (⟨UpdateType.UPDATE, lvl1, o.level == bestOf o.isBuy b1⟩, b1, o)

/-- `OrderBook::AddStopLevel` (`order_book.cpp` lines 189-211): create a
level with the inverted type tag (`ASK` for a buy stop, `BID` for a sell
stop) and insert it into the matching stop ladder.  This helper is defined by
the source but never called by it. -/
def AddStopLevel (o : OrderNode) (b : OrderBook) : Option (Level × OrderBook) :=
  if o.isBuy then
    if o.price ∈ prices b.buyStop then none
    else
      let lvl :=
        { type := LevelType.ASK, price := o.price, totalVolume := 0, hiddenVolume := 0
          visibleVolume := 0, orders := 0, orderList := ([] : List Nat) }
      some (lvl, { b with buyStop := insertLevel lvl b.buyStop })
  else
    if o.price ∈ prices b.sellStop then none
    else
      let lvl :=
        { type := LevelType.BID, price := o.price, totalVolume := 0, hiddenVolume := 0
          visibleVolume := 0, orders := 0, orderList := ([] : List Nat) }
      some (lvl, { b with sellStop := insertLevel lvl b.sellStop })

/-- `OrderBook::DeleteStopLevel` (`order_book.cpp` lines 213-233): erase the
order's level from the matching stop ladder.  This helper is defined by the
source but never called by it. -/
def DeleteStopLevel (o : OrderNode) (lp : Nat) (b : OrderBook) : OrderBook :=
  if o.isBuy then { b with buyStop := eraseLevel lp b.buyStop }
  else { b with sellStop := eraseLevel lp b.sellStop }

/-- `OrderBook::AddStopOrder` (`order_book.cpp` lines 235-255): look the
price up in the stop ladder; when absent the source calls `AddLevel` (line
242) -- not `AddStopLevel` -- so the created level goes into the bid or ask
ladder and moves the best pointers; the subsequent counter/queue mutation
happens through the node pointer, i.e. on whichever ladder holds the level. -/
def AddStopOrder (o : OrderNode) (b : OrderBook) : Option (OrderBook × OrderNode) :=
  match (if o.isBuy then GetBuyStopLevel b o.price else GetSellStopLevel b o.price) with
  | some _ =>
      let b2 :=
        if o.isBuy then { b with buyStop := updateLevelAt o.price (orderAdded o) b.buyStop }
        else { b with sellStop := updateLevelAt o.price (orderAdded o) b.sellStop }
      some (b2, { o with level := some o.price })
  | none =>
      match AddLevel o b with
      | none => none
      | some (_, b1) =>
          let b2 :=
            if o.isBuy then { b1 with bids := updateLevelAt o.price (orderAdded o) b1.bids }
            else { b1 with asks := updateLevelAt o.price (orderAdded o) b1.asks }
          some (b2, { o with level := some o.price })

/-- `OrderBook::ReduceStopOrder` (`order_book.cpp` lines 257-282): same
mutations as `ReduceOrder` but with no `LevelUpdate` result; the empty-level
cleanup calls `DeleteLevel` (line 280) -- not `DeleteStopLevel` -- so it
erases from the bid or ask ladder and touches the best pointers. -/
def ReduceStopOrder (o : OrderNode) (quantity hidden visible : Nat) (b : OrderBook) :
    Option (OrderBook × OrderNode) :=
  match o.level with
  | none => none
  | some lp =>
      match (if o.isBuy then GetBid b lp else GetAsk b lp) with
      | none => none
      | some lvl =>
          let lvl1 := reduceLevel quantity hidden visible lvl
          let lvl2 := if o.quantity == 0 then unlinkOrder o.id lvl1 else lvl1
          let b1 :=
            if o.isBuy then { b with bids := updateLevelAt lp (fun _ => lvl2) b.bids }
            else { b with asks := updateLevelAt lp (fun _ => lvl2) b.asks }
          if lvl2.totalVolume == 0 then
            some (DeleteLevel o lp b1, { o with level := none })
          else
            some (b1, o)

/-- `OrderBook::DeleteStopOrder` (`order_book.cpp` lines 284-306): same
mutations as `DeleteOrder` but with no `LevelUpdate` result; the empty-level
cleanup calls `DeleteLevel` (line 304) -- not `DeleteStopLevel`. -/
def DeleteStopOrder (o : OrderNode) (b : OrderBook) : Option (OrderBook × OrderNode) :=
  match o.level with
  | none => none
  | some lp =>
      match (if o.isBuy then GetBid b lp else GetAsk b lp) with
      | none => none
      | some lvl =>
          let lvl1 := unlinkOrder o.id (reduceLevel o.quantity o.hidden o.visible lvl)
          let b1 :=
            if o.isBuy then { b with bids := updateLevelAt lp (fun _ => lvl1) b.bids }
            else { b with asks := updateLevelAt lp (fun _ => lvl1) b.asks }
          if lvl1.totalVolume == 0 then
            some (DeleteLevel o lp b1, { o with level := none })
          else
            some (b1, o)

/-- Modelled from the spec: the freshly constructed order book
(`order_book.h` constructor, not under `src/`): all four ladders empty and
both best pointers null. -/
def emptyBook : OrderBook :=
  { bids := [], asks := [], buyStop := [], sellStop := [], bestBid := none, bestAsk := none }

/-!
Intrusive tree shape of a ladder.  The ladder container (`BinTreeAVL` from
the support library, not under `src/`) is an intrusive AVL tree whose
in-order traversal is the ascending price sequence.  The best-pointer
maintenance of `OrderBook::DeleteLevel` reads the raw node links: line 78
takes `left child else parent` of the deleted best bid (the rightmost node),
line 87 takes `right child else parent` of the deleted best ask (the
leftmost node).  The tree shape is modelled here to settle that step against
the in-order successor demanded by the spec (section 4.5).
-/

/-- Modelled from the spec: the shape of an intrusive ladder tree, each node
carrying its level's price.  Parent pointers are implicit: walking down to
the rightmost (resp. leftmost) node tracks the node from which the walk last
descended, which is exactly the parent read by `DeleteLevel`. -/
inductive PriceTree where
  | leaf
  | node (l : PriceTree) (p : Nat) (r : PriceTree)
deriving DecidableEq, Repr

/-- In-order key sequence of a ladder tree. -/
def PriceTree.keys : PriceTree → List Nat
  | .leaf => []
  | .node l p r => keys l ++ p :: keys r

/-- Height of a ladder tree (`leaf` has height 0). -/
def PriceTree.height : PriceTree → Nat
  | .leaf => 0
  | .node l _ r => max l.height r.height + 1

/-- Modelled from the spec: the AVL balance condition the repository's
ladder container maintains at every node. -/
def PriceTree.avl : PriceTree → Bool
  | .leaf => true
  | .node l _ r =>
      (l.height ≤ r.height + 1 && r.height ≤ l.height + 1) && l.avl && r.avl

/-- Search-tree property: the in-order key sequence is strictly ascending. -/
def PriceTree.bst (t : PriceTree) : Prop := List.Pairwise (· < ·) t.keys

/-- Walk to the rightmost node (the best bid) remembering the parent's key,
then apply the source's step `(_best_bid->left != nullptr) ? _best_bid->left
: _best_bid->parent` (`order_book.cpp` line 78): the result is the key of
the left child if present, else the key of the parent, else `none`. -/
def stepBidGo : PriceTree → Option Nat → Option Nat
  | .leaf, _ => none
  | .node l v r, parent =>
      match r with
      | .node rl rv rr => stepBidGo (.node rl rv rr) (some v)
      | .leaf =>
          match l with
          | .node _ lv _ => some lv
          | .leaf => parent

/-- Walk to the leftmost node (the best ask) remembering the parent's key,
then apply the source's step `(_best_ask->right != nullptr) ?
_best_ask->right : _best_ask->parent` (`order_book.cpp` line 87). -/
def stepAskGo : PriceTree → Option Nat → Option Nat
  | .leaf, _ => none
  | .node l v r, parent =>
      match l with
      | .node ll lv lr => stepAskGo (.node ll lv lr) (some v)
      | .leaf =>
          match r with
          | .node _ rv _ => some rv
          | .leaf => parent

/-- The new `_best_bid` computed by `DeleteLevel` when the deleted bid level
is the best: the rightmost node's left child if present, else its parent. -/
def bestBidStep (t : PriceTree) : Option Nat := stepBidGo t none

/-- The new `_best_ask` computed by `DeleteLevel` when the deleted ask level
is the best: the leftmost node's right child if present, else its parent. -/
def bestAskStep (t : PriceTree) : Option Nat := stepAskGo t none

/-- Option fallback, used to state the spine walks. -/
def orElseO (a p : Option Nat) : Option Nat :=
  match a with
  | some x => some x
  | none => p

/-!
Invariants of the book (spec section 3), stated on the model.
-/

/-- Strictly ascending price order of a ladder's in-order traversal
(spec section 3, invariant 1). -/
def sortedLadder (ls : List Level) : Prop := List.Pairwise (· < ·) (prices ls)

/-- All four ladders are sorted. -/
def BookSorted (b : OrderBook) : Prop :=
  sortedLadder b.bids ∧ sortedLadder b.asks ∧ sortedLadder b.buyStop ∧ sortedLadder b.sellStop

/-- Maximum price of a ladder (its last in-order key), `none` when empty. -/
def maxPrice (ls : List Level) : Option Nat := (prices ls).getLast?

/-- Minimum price of a ladder (its first in-order key), `none` when empty. -/
def minPrice (ls : List Level) : Option Nat := (prices ls).head?

/-- Best-pointer invariant (spec section 3, invariant 5): `_best_bid` is the
maximum bid price iff bids are non-empty, else null; `_best_ask` is the
minimum ask price iff asks are non-empty, else null. -/
def BestOK (b : OrderBook) : Prop :=
  b.bestBid = maxPrice b.bids ∧ b.bestAsk = minPrice b.asks

/-- Per-level aggregate invariant (spec section 3, invariants 2 and 3)
relative to an environment giving each order id its current record. -/
def levelOk (env : Nat → OrderNode) (l : Level) : Prop :=
  l.totalVolume = (l.orderList.map (fun i => (env i).quantity)).sum ∧
  l.hiddenVolume = (l.orderList.map (fun i => (env i).hidden)).sum ∧
  l.visibleVolume = (l.orderList.map (fun i => (env i).visible)).sum ∧
  l.orders = l.orderList.length ∧
  l.totalVolume = l.hiddenVolume + l.visibleVolume ∧
  0 < l.totalVolume

/-- Every level of a ladder satisfies `levelOk`. -/
def ladderOk (env : Nat → OrderNode) (ls : List Level) : Prop := ∀ l ∈ ls, levelOk env l

/-- Every level in any of the four ladders satisfies `levelOk`
(spec section 3, invariants 2 and 3, and section 8). -/
def VolInv (env : Nat → OrderNode) (b : OrderBook) : Prop :=
  ladderOk env b.bids ∧ ladderOk env b.asks ∧ ladderOk env b.buyStop ∧ ladderOk env b.sellStop

/-- The four ladders in one list, for stating book-wide conditions. -/
def allLevels (b : OrderBook) : List Level := b.bids ++ b.asks ++ b.buyStop ++ b.sellStop

/-!
Concrete orders, levels and books used by the witness and counterexample
theorems at the end of the file.  They replay the spec's S1/S2 scenario
(buy orders at 100, 101, 99, then delete the order at 101) and the stop
scenario (buy stop at 110, sell stop at 90).
-/

def wBuy : OrderNode :=
  { id := 1, isBuy := true, price := 100, quantity := 5, hidden := 0, visible := 5,
    level := none }

def wBuy2 : OrderNode :=
  { id := 2, isBuy := true, price := 101, quantity := 3, hidden := 0, visible := 3,
    level := none }

def wBuy3 : OrderNode :=
  { id := 3, isBuy := true, price := 99, quantity := 10, hidden := 0, visible := 10,
    level := none }

def wSell : OrderNode :=
  { id := 4, isBuy := false, price := 50, quantity := 10, hidden := 0, visible := 10,
    level := none }

def wBuyStop : OrderNode :=
  { id := 5, isBuy := true, price := 110, quantity := 5, hidden := 0, visible := 5,
    level := none }

def wSellStop : OrderNode :=
  { id := 6, isBuy := false, price := 90, quantity := 7, hidden := 0, visible := 7,
    level := none }

def wBuyL : OrderNode := { wBuy with level := some 100 }

def wBuy2L : OrderNode := { wBuy2 with level := some 101 }

def wBuy3L : OrderNode := { wBuy3 with level := some 99 }

def wLvl100 : Level :=
  { type := LevelType.BID, price := 100, totalVolume := 5, hiddenVolume := 0,
    visibleVolume := 5, orders := 1, orderList := [1] }

def wLvl101 : Level :=
  { type := LevelType.BID, price := 101, totalVolume := 3, hiddenVolume := 0,
    visibleVolume := 3, orders := 1, orderList := [2] }

def wLvl99 : Level :=
  { type := LevelType.BID, price := 99, totalVolume := 10, hiddenVolume := 0,
    visibleVolume := 10, orders := 1, orderList := [3] }

def wBook1 : OrderBook :=
  { bids := [wLvl100], asks := [], buyStop := [], sellStop := [],
    bestBid := some 100, bestAsk := none }

def wBook12 : OrderBook :=
  { bids := [wLvl100, wLvl101], asks := [], buyStop := [], sellStop := [],
    bestBid := some 101, bestAsk := none }

def wBook123 : OrderBook :=
  { bids := [wLvl99, wLvl100, wLvl101], asks := [], buyStop := [], sellStop := [],
    bestBid := some 101, bestAsk := none }

def wBook13 : OrderBook :=
  { bids := [wLvl99, wLvl100], asks := [], buyStop := [], sellStop := [],
    bestBid := some 100, bestAsk := none }

def wUpd1 : LevelUpdate := { kind := UpdateType.ADD, snapshot := wLvl100, top := true }

def wUpd2 : LevelUpdate := { kind := UpdateType.ADD, snapshot := wLvl101, top := true }

def wUpd3 : LevelUpdate := { kind := UpdateType.ADD, snapshot := wLvl99, top := false }

def wUpdDel : LevelUpdate :=
  { kind := UpdateType.DELETE
    snapshot := { type := LevelType.BID, price := 101, totalVolume := 0,
                  hiddenVolume := 0, visibleVolume := 0, orders := 0, orderList := [] }
    top := false }

def wStopLvl110 : Level :=
  { type := LevelType.BID, price := 110, totalVolume := 5, hiddenVolume := 0,
    visibleVolume := 5, orders := 1, orderList := [5] }

def wStopLvl90 : Level :=
  { type := LevelType.ASK, price := 90, totalVolume := 7, hiddenVolume := 0,
    visibleVolume := 7, orders := 1, orderList := [6] }

def wStopBook1 : OrderBook :=
  { bids := [wStopLvl110], asks := [], buyStop := [], sellStop := [],
    bestBid := some 110, bestAsk := none }

def wStopBook2 : OrderBook :=
  { bids := [wStopLvl110], asks := [wStopLvl90], buyStop := [], sellStop := [],
    bestBid := some 110, bestAsk := some 90 }

def wStopBook3 : OrderBook :=
  { bids := [], asks := [wStopLvl90], buyStop := [], sellStop := [],
    bestBid := none, bestAsk := some 90 }

/-- A three-node balanced tree with keys 3 < 5 < 7, used to witness the
AVL successor-step lemmas on a non-trivial shape. -/
def wTree : PriceTree :=
  PriceTree.node (PriceTree.node PriceTree.leaf 3 PriceTree.leaf) 5
    (PriceTree.node PriceTree.leaf 7 PriceTree.leaf)

/-- An order environment for the volume-invariant witness: every id maps to
the one resting order of the witness scenario. -/
def wEnv : Nat → OrderNode := fun _ => wBuyL

def wAsk50 : Level :=
  { type := LevelType.ASK, price := 50, totalVolume := 10, hiddenVolume := 0,
    visibleVolume := 10, orders := 1, orderList := [4] }

def wAsk50r : Level :=
  { type := LevelType.ASK, price := 50, totalVolume := 6, hiddenVolume := 0,
    visibleVolume := 6, orders := 1, orderList := [4] }

def wBookS : OrderBook :=
  { bids := [], asks := [wAsk50], buyStop := [], sellStop := [],
    bestBid := none, bestAsk := some 50 }

def wBookSr : OrderBook :=
  { bids := [], asks := [wAsk50r], buyStop := [], sellStop := [],
    bestBid := none, bestAsk := some 50 }

/-- The resting sell order of `wBookS` after the caller reduced its quantity
from 10 to 6, about to be passed to `ReduceOrder` with deltas 4/0/4. -/
def wSellR : OrderNode :=
  { id := 4, isBuy := false, price := 50, quantity := 6, hidden := 0, visible := 6,
    level := some 50 }

def wUpdR : LevelUpdate := { kind := UpdateType.UPDATE, snapshot := wAsk50r, top := true }

/-!
Helper lemmas: options and list ends.
-/

theorem orElseO_orElseO_some (a : Option Nat) (x : Nat) (p : Option Nat) :
    orElseO (orElseO a (some x)) p = orElseO a (some x) := by
  cases a <;> rfl

theorem getLast?_cons_orElse (v : Nat) (zs : List Nat) :
    (v :: zs).getLast? = orElseO zs.getLast? (some v) := by
  cases zs with
  | nil => rfl
  | cons z zt =>
      rw [List.getLast?_cons_cons]
      have hz : (z :: zt).getLast? = some ((z :: zt).getLast (by simp)) :=
        List.getLast?_eq_getLast _ _
      rw [hz]
      rfl

theorem head?_append_cons (xs : List Nat) (v : Nat) (ys : List Nat) :
    (xs ++ v :: ys).head? = orElseO xs.head? (some v) := by
  cases xs <;> rfl

theorem tail_append_of_ne_nil (xs ys : List Nat) (h : xs ≠ []) :
    (xs ++ ys).tail = xs.tail ++ ys := by
  cases xs with
  | nil => exact absurd rfl h
  | cons x xt => rfl

/-!
The AVL successor step of `DeleteLevel`.
-/

theorem height_eq_zero_iff (t : PriceTree) : t.height = 0 ↔ t = .leaf := by
  cases t with
  | leaf => simp [PriceTree.height]
  | node l v r => simp [PriceTree.height]

theorem keys_node_ne_nil (l : PriceTree) (v : Nat) (r : PriceTree) :
    (PriceTree.node l v r).keys ≠ [] := by
  simp [PriceTree.keys]

/-- On every AVL-balanced tree shape, the walk to the rightmost node followed
by the source's `left child else parent` step yields the next-to-last
in-order key, falling back to the accumulated parent key when the tree is a
right spine of one node. -/
theorem stepBidGo_eq (t : PriceTree) (havl : t.avl = true) (hne : t ≠ .leaf)
    (p : Option Nat) : stepBidGo t p = orElseO t.keys.dropLast.getLast? p := by
  induction t generalizing p with
  | leaf => exact absurd rfl hne
  | node l v r ihl ihr =>
      simp only [PriceTree.avl, Bool.and_eq_true, decide_eq_true_eq] at havl
      obtain ⟨⟨⟨hlr, hrl⟩, hal⟩, har⟩ := havl
      cases r with
      | leaf =>
          have hkeys : (PriceTree.node l v .leaf).keys = l.keys ++ [v] := by
            simp [PriceTree.keys]
          cases l with
          | leaf =>
              simp [stepBidGo, hkeys, PriceTree.keys, orElseO]
          | node l1 lv l2 =>
              have h1 : l1.height = 0 ∧ l2.height = 0 := by
                simp only [PriceTree.height] at hlr
                omega
              have hl1 : l1 = .leaf := (height_eq_zero_iff l1).mp h1.1
              have hl2 : l2 = .leaf := (height_eq_zero_iff l2).mp h1.2
              subst hl1; subst hl2
              simp [stepBidGo, hkeys, PriceTree.keys, List.dropLast_concat, orElseO]
      | node rl rv rr =>
          have hstep : stepBidGo (PriceTree.node l v (.node rl rv rr)) p =
              stepBidGo (PriceTree.node rl rv rr) (some v) := rfl
          rw [hstep, ihr har (by simp) (some v)]
          have hrne : (PriceTree.node rl rv rr).keys ≠ [] := keys_node_ne_nil rl rv rr
          have hkeys : (PriceTree.node l v (.node rl rv rr)).keys =
              l.keys ++ (v :: (PriceTree.node rl rv rr).keys) := by
            simp [PriceTree.keys]
          rw [hkeys]
          rw [List.dropLast_append_of_ne_nil l.keys (by simp)]
          have hdc : (v :: (PriceTree.node rl rv rr).keys).dropLast =
              v :: (PriceTree.node rl rv rr).keys.dropLast := by
            have := List.dropLast_append_of_ne_nil [v] hrne
            simpa using this
          rw [hdc]
          rw [List.getLast?_append_of_ne_nil l.keys (by simp)]
          rw [getLast?_cons_orElse]
          rw [orElseO_orElseO_some]

/-- Mirror of `stepBidGo_eq`: the walk to the leftmost node followed by the
source's `right child else parent` step yields the second in-order key,
falling back to the accumulated parent key. -/
theorem stepAskGo_eq (t : PriceTree) (havl : t.avl = true) (hne : t ≠ .leaf)
    (p : Option Nat) : stepAskGo t p = orElseO t.keys.tail.head? p := by
  induction t generalizing p with
  | leaf => exact absurd rfl hne
  | node l v r ihl ihr =>
      simp only [PriceTree.avl, Bool.and_eq_true, decide_eq_true_eq] at havl
      obtain ⟨⟨⟨hlr, hrl⟩, hal⟩, har⟩ := havl
      cases l with
      | leaf =>
          have hkeys : (PriceTree.node .leaf v r).keys = v :: r.keys := by
            simp [PriceTree.keys]
          cases r with
          | leaf =>
              simp [stepAskGo, hkeys, PriceTree.keys, orElseO]
          | node r1 rv r2 =>
              have h1 : r1.height = 0 ∧ r2.height = 0 := by
                simp only [PriceTree.height] at hrl
                omega
              have hr1 : r1 = .leaf := (height_eq_zero_iff r1).mp h1.1
              have hr2 : r2 = .leaf := (height_eq_zero_iff r2).mp h1.2
              subst hr1; subst hr2
              simp [stepAskGo, hkeys, PriceTree.keys, orElseO]
      | node ll lv lr =>
          have hstep : stepAskGo (PriceTree.node (.node ll lv lr) v r) p =
              stepAskGo (PriceTree.node ll lv lr) (some v) := rfl
          rw [hstep, ihl hal (by simp) (some v)]
          have hlne : (PriceTree.node ll lv lr).keys ≠ [] := keys_node_ne_nil ll lv lr
          have hkeys : (PriceTree.node (.node ll lv lr) v r).keys =
              (PriceTree.node ll lv lr).keys ++ (v :: r.keys) := by
            simp [PriceTree.keys]
          rw [hkeys]
          rw [tail_append_of_ne_nil _ _ hlne]
          rw [head?_append_cons]
          rw [orElseO_orElseO_some]

/-!
Key-sequence layer: the effect of the ladder operations on the in-order
price sequence.
-/

/-- Sorted insertion on a key sequence, the image of `insertLevel`. -/
def insertKey (p : Nat) : List Nat → List Nat
  | [] => [p]
  | x :: xs => if p < x then p :: x :: xs else x :: insertKey p xs

theorem prices_insertLevel (lvl : Level) (ls : List Level) :
    prices (insertLevel lvl ls) = insertKey lvl.price (prices ls) := by
  induction ls with
  | nil => rfl
  | cons x xs ih =>
      simp only [insertLevel, insertKey, prices, List.map_cons]
      by_cases h : lvl.price < x.price
      · simp [h, prices]
      · simp only [h, if_neg, List.map_cons, ite_false]
        simpa [prices] using ih

theorem prices_eraseLevel (p : Nat) (ls : List Level) :
    prices (eraseLevel p ls) = (prices ls).erase p := by
  induction ls with
  | nil => rfl
  | cons x xs ih =>
      simp only [eraseLevel, prices, List.map_cons]
      by_cases h : x.price == p
      · have hp : x.price = p := by exact beq_iff_eq.mp h
        simp [h, List.erase_cons, hp, prices]
      · have hp : ¬ x.price = p := by
          intro hc
          exact h (beq_iff_eq.mpr hc)
        simp only [h, ite_false, List.map_cons]
        rw [List.erase_cons_tail]
        · simpa [prices] using ih
        · simpa using hp

theorem prices_updateLevelAt (p : Nat) (f : Level → Level) (ls : List Level)
    (hf : ∀ l : Level, l.price = p → (f l).price = p) :
    prices (updateLevelAt p f ls) = prices ls := by
  induction ls with
  | nil => rfl
  | cons x xs ih =>
      simp only [updateLevelAt, prices, List.map_cons]
      by_cases h : x.price == p
      · have hp : x.price = p := beq_iff_eq.mp h
        simp [h, prices, hf x hp, hp]
      · simp only [h, ite_false, List.map_cons]
        simpa [prices] using ih

theorem mem_insertKey (y p : Nat) (ks : List Nat) :
    y ∈ insertKey p ks ↔ y = p ∨ y ∈ ks := by
  induction ks with
  | nil => simp [insertKey]
  | cons x xs ih =>
      simp only [insertKey]
      by_cases h : p < x
      · rw [if_pos h]
        simp [List.mem_cons]
      · rw [if_neg h]
        simp only [List.mem_cons, ih]
        tauto

theorem insertKey_sorted (p : Nat) (ks : List Nat) (hs : List.Pairwise (· < ·) ks)
    (hnin : p ∉ ks) : List.Pairwise (· < ·) (insertKey p ks) := by
  induction ks with
  | nil => simp [insertKey]
  | cons x xs ih =>
      rcases List.pairwise_cons.mp hs with ⟨hx, hxs⟩
      simp only [insertKey]
      by_cases h : p < x
      · rw [if_pos h]
        refine List.pairwise_cons.mpr ⟨?_, hs⟩
        intro y hy
        rcases List.mem_cons.mp hy with hy | hy
        · omega
        · have := hx y hy
          omega
      · rw [if_neg h]
        have hne : p ≠ x := fun hc => hnin (by simp [hc])
        have hxp : x < p := by omega
        refine List.pairwise_cons.mpr
          ⟨?_, ih hxs (fun hc => hnin (List.mem_cons_of_mem x hc))⟩
        intro y hy
        rcases (mem_insertKey y p xs).mp hy with hy | hy
        · omega
        · exact hx y hy

theorem insertKey_getLast (p : Nat) (ks : List Nat) (hs : List.Pairwise (· < ·) ks) :
    (insertKey p ks).getLast? =
      match ks.getLast? with
      | none => some p
      | some m => if m < p then some p else some m := by
  induction ks with
  | nil => simp [insertKey]
  | cons x xs ih =>
      rcases List.pairwise_cons.mp hs with ⟨hx, hxs⟩
      simp only [insertKey]
      by_cases h : p < x
      · rw [if_pos h]
        rw [List.getLast?_cons_cons]
        obtain ⟨M, hM⟩ : ∃ M, (x :: xs).getLast? = some M :=
          ⟨_, List.getLast?_eq_getLast _ (by simp)⟩
        have hMmem : M ∈ x :: xs := List.mem_of_mem_getLast? (by simp [hM])
        have hxM : x ≤ M := by
          rcases List.mem_cons.mp hMmem with hMx | hMx
          · omega
          · have := hx M hMx
            omega
        rw [hM]
        have hnlt : ¬ M < p := by omega
        simp [hnlt]
      · rw [if_neg h]
        rw [getLast?_cons_orElse]
        rw [ih hxs]
        cases hxl : xs.getLast? with
        | none =>
            have hxs0 : xs = [] := List.getLast?_eq_none_iff.mp hxl
            subst hxs0
            have hxle : x ≤ p := by omega
            by_cases hxp : x < p
            · simp [orElseO, List.getLast?_singleton, hxp]
            · have hxeq : x = p := by omega
              simp [orElseO, List.getLast?_singleton, hxp, hxeq]
        | some Mx =>
            have hks : (x :: xs).getLast? = some Mx := by
              rw [getLast?_cons_orElse, hxl]
              rfl
            rw [hks]
            by_cases hMp : Mx < p
            · simp [orElseO, hMp]
            · simp [orElseO, hMp]

theorem insertKey_head (p : Nat) (ks : List Nat) :
    (insertKey p ks).head? =
      match ks.head? with
      | none => some p
      | some m => if p < m then some p else some m := by
  cases ks with
  | nil => simp [insertKey]
  | cons x xs =>
      simp only [insertKey]
      by_cases h : p < x
      · simp [h]
      · simp [h]

theorem erase_getLast (p : Nat) (ks : List Nat) (hs : List.Pairwise (· < ·) ks)
    (hmem : p ∈ ks) :
    (ks.erase p).getLast? =
      if ks.getLast? = some p then (ks.filter (fun x => x < p)).getLast?
      else ks.getLast? := by
  induction ks with
  | nil => exact absurd hmem (by simp)
  | cons x xs ih =>
      rcases List.pairwise_cons.mp hs with ⟨hx, hxs⟩
      by_cases hxp : x = p
      · subst hxp
        rw [List.erase_cons_head]
        cases hxl : xs.getLast? with
        | none =>
            have hxs0 : xs = [] := List.getLast?_eq_none_iff.mp hxl
            subst hxs0
            simp [List.getLast?_singleton, List.filter]
        | some Mx =>
            have hMx : Mx ∈ xs := List.mem_of_mem_getLast? (by simp [hxl])
            have hlt : x < Mx := hx Mx hMx
            have hks : (x :: xs).getLast? = some Mx := by
              rw [getLast?_cons_orElse, hxl]
              rfl
            rw [hks]
            have hne : ¬ (some Mx = some x) := by
              intro hc
              have : Mx = x := by simpa using hc
              omega
            simp [hne]
      · have hmem' : p ∈ xs := by
          rcases List.mem_cons.mp hmem with hc | hc
          · exact absurd hc.symm hxp
          · exact hc
        have hxltp : x < p := hx p hmem'
        rw [List.erase_cons_tail (by simpa using hxp)]
        rw [getLast?_cons_orElse, ih hxs hmem']
        obtain ⟨Mx, hMx⟩ : ∃ M, xs.getLast? = some M :=
          ⟨_, List.getLast?_eq_getLast _ (List.ne_nil_of_mem hmem')⟩
        have hks : (x :: xs).getLast? = some Mx := by
          rw [getLast?_cons_orElse, hMx]
          rfl
        have hfilter : (x :: xs).filter (fun y => y < p) =
            x :: xs.filter (fun y => y < p) := by
          simp [List.filter, hxltp]
        by_cases hMp : Mx = p
        · rw [hks, hMx, hMp]
          rw [hfilter]
          simp [getLast?_cons_orElse]
        · rw [hks, hMx]
          have h1 : ¬ (some Mx = some p) := by simp [hMp]
          rw [if_neg h1, if_neg h1]
          simp [orElseO]

theorem erase_head (p : Nat) (ks : List Nat) (hs : List.Pairwise (· < ·) ks)
    (hmem : p ∈ ks) :
    (ks.erase p).head? =
      if ks.head? = some p then (ks.filter (fun x => p < x)).head?
      else ks.head? := by
  cases ks with
  | nil => exact absurd hmem (by simp)
  | cons x xs =>
      rcases List.pairwise_cons.mp hs with ⟨hx, hxs⟩
      by_cases hxp : x = p
      · subst hxp
        rw [List.erase_cons_head]
        have hfx : ¬ x < x := by omega
        have hfilter : (x :: xs).filter (fun y => x < y) = xs := by
          have h1 : (x :: xs).filter (fun y => x < y) = xs.filter (fun y => x < y) := by
            simp [List.filter_cons, hfx]
          rw [h1]
          exact List.filter_eq_self.mpr (fun a ha => by simpa using hx a ha)
        simp [hfilter]
      · rw [List.erase_cons_tail (by simpa using hxp)]
        have hne : ¬ ((x :: xs).head? = some p) := by simp [hxp]
        simp [hne, hxp]

theorem nextLowerPrice_eq (ls : List Level) (p : Nat) :
    nextLowerPrice ls p = ((prices ls).filter (fun x => x < p)).getLast? := by
  unfold nextLowerPrice prices
  rw [List.filter_map _ _]
  rw [List.getLast?_map]
  rfl

theorem nextHigherPrice_eq (ls : List Level) (p : Nat) :
    nextHigherPrice ls p = ((prices ls).filter (fun x => p < x)).head? := by
  unfold nextHigherPrice prices
  rw [List.filter_map _ _]
  rw [List.head?_map]
  rfl

theorem orElseO_none_right (a : Option Nat) : orElseO a none = a := by
  cases a <;> rfl

theorem sorted_dropLast_getLast (ks : List Nat) (hs : List.Pairwise (· < ·) ks)
    (m : Nat) (hm : ks.getLast? = some m) :
    ks.dropLast.getLast? = (ks.filter (fun x => x < m)).getLast? := by
  have hne : ks ≠ [] := by
    intro hc
    rw [hc] at hm
    simp at hm
  have hdecomp : ks.dropLast ++ [ks.getLast hne] = ks := List.dropLast_append_getLast hne
  have hmlast : ks.getLast hne = m := by
    have := List.getLast?_eq_getLast ks hne
    rw [this] at hm
    simpa using hm
  rw [hmlast] at hdecomp
  have hlt : ∀ x ∈ ks.dropLast, x < m := by
    have hpw : List.Pairwise (· < ·) (ks.dropLast ++ [m]) := by
      rw [hdecomp]
      exact hs
    rcases List.pairwise_append.mp hpw with ⟨_, _, hrel⟩
    intro x hx
    exact hrel x hx m (by simp)
  have hfe : ks.filter (fun x => x < m) = ks.dropLast := by
    conv_lhs => rw [← hdecomp]
    rw [List.filter_append _ _]
    have h1 : (ks.dropLast).filter (fun x => x < m) = ks.dropLast :=
      List.filter_eq_self.mpr (fun a ha => by simpa using hlt a ha)
    have h2 : [m].filter (fun x => x < m) = [] := by
      simp
    rw [h1, h2, List.append_nil]
  rw [hfe]

theorem sorted_tail_head (ks : List Nat) (hs : List.Pairwise (· < ·) ks)
    (m : Nat) (hm : ks.head? = some m) :
    ks.tail.head? = (ks.filter (fun x => m < x)).head? := by
  cases ks with
  | nil => simp at hm
  | cons x xs =>
      have hx : x = m := by simpa using hm
      subst hx
      rcases List.pairwise_cons.mp hs with ⟨hlt, _⟩
      have hfx : ¬ x < x := by omega
      have hfe : (x :: xs).filter (fun y => x < y) = xs := by
        have h1 : (x :: xs).filter (fun y => x < y) = xs.filter (fun y => x < y) := by
          simp [List.filter_cons, hfx]
        rw [h1]
        exact List.filter_eq_self.mpr (fun a ha => by simpa using hlt a ha)
      rw [hfe]
      rfl

/-- Combined with `stepBidGo_eq`: on every AVL search-tree shape, the
source's best-bid successor step computes the next-lower price. -/
theorem bestBidStep_eq (t : PriceTree) (hb : t.bst) (ha : t.avl = true)
    (m : Nat) (hm : t.keys.getLast? = some m) :
    bestBidStep t = (t.keys.filter (fun x => x < m)).getLast? := by
  have hne : t ≠ .leaf := by
    intro hc
    rw [hc] at hm
    simp [PriceTree.keys] at hm
  rw [bestBidStep, stepBidGo_eq t ha hne none, orElseO_none_right]
  exact sorted_dropLast_getLast t.keys hb m hm

/-- Combined with `stepAskGo_eq`: on every AVL search-tree shape, the
source's best-ask successor step computes the next-higher price. -/
theorem bestAskStep_eq (t : PriceTree) (hb : t.bst) (ha : t.avl = true)
    (m : Nat) (hm : t.keys.head? = some m) :
    bestAskStep t = (t.keys.filter (fun x => m < x)).head? := by
  have hne : t ≠ .leaf := by
    intro hc
    rw [hc] at hm
    simp [PriceTree.keys] at hm
  rw [bestAskStep, stepAskGo_eq t ha hne none, orElseO_none_right]
  exact sorted_tail_head t.keys hb m hm

/-!
Lookup, insertion, update and erasure interplay on ladders.
-/

theorem find_price_none (ls : List Level) (p : Nat) :
    ls.find? (·.price == p) = none ↔ p ∉ prices ls := by
  rw [List.find?_eq_none]
  constructor
  · intro h hp
    rcases List.mem_map.mp hp with ⟨l, hl, hpl⟩
    exact absurd (beq_iff_eq.mpr hpl) (h l hl)
  · intro h l hl hb
    exact h (List.mem_map.mpr ⟨l, hl, beq_iff_eq.mp hb⟩)

theorem not_mem_prices_cons {p : Nat} {x : Level} {xs : List Level}
    (h : p ∉ prices (x :: xs)) : p ∉ prices xs ∧ x.price ≠ p := by
  simp [prices] at h ⊢
  tauto

theorem find_price_some (ls : List Level) (p : Nat) (lvl : Level)
    (h : ls.find? (·.price == p) = some lvl) : lvl.price = p ∧ lvl ∈ ls := by
  have hb : (lvl.price == p) = true := by
    have := List.find?_some h
    simpa using this
  exact ⟨beq_iff_eq.mp hb, List.mem_of_find?_eq_some h⟩

theorem find_insertLevel (lvl : Level) (ls : List Level)
    (hnin : lvl.price ∉ prices ls) :
    (insertLevel lvl ls).find? (·.price == lvl.price) = some lvl := by
  induction ls with
  | nil => simp [insertLevel, List.find?]
  | cons x xs ih =>
      obtain ⟨hnin2, hxne⟩ := not_mem_prices_cons hnin
      have hxb : (x.price == lvl.price) = false := by
        simpa using hxne
      simp only [insertLevel]
      by_cases h : lvl.price < x.price
      · rw [if_pos h]
        simp [List.find?]
      · rw [if_neg h]
        simp [List.find?_cons, hxb, ih hnin2]

theorem find_updateLevelAt (p : Nat) (f : Level → Level) (ls : List Level)
    (hf : ∀ l : Level, l.price = p → (f l).price = p) :
    (updateLevelAt p f ls).find? (·.price == p) = (ls.find? (·.price == p)).map f := by
  induction ls with
  | nil => simp [updateLevelAt]
  | cons x xs ih =>
      by_cases hx : (x.price == p) = true
      · have hfx : ((f x).price == p) = true := beq_iff_eq.mpr (hf x (beq_iff_eq.mp hx))
        simp [updateLevelAt, List.find?_cons, hx, hfx]
      · have hxf : (x.price == p) = false := by simpa using hx
        simp [updateLevelAt, List.find?_cons, hxf, ih]

theorem updateLevelAt_const_self (p : Nat) (ls : List Level) (lvl : Level)
    (h : ls.find? (·.price == p) = some lvl) :
    updateLevelAt p (fun _ => lvl) ls = ls := by
  induction ls with
  | nil => rfl
  | cons x xs ih =>
      by_cases hx : (x.price == p) = true
      · have hxl : x = lvl := by
          simp only [List.find?_cons, hx] at h
          simpa using h
        subst hxl
        simp [updateLevelAt, hx]
      · have hxf : (x.price == p) = false := by simpa using hx
        have h2 : xs.find? (·.price == p) = some lvl := by
          simpa only [List.find?_cons, hxf] using h
        simp [updateLevelAt, hxf, ih h2]

theorem updateLevelAt_updateLevelAt (p : Nat) (f g : Level → Level) (ls : List Level)
    (hf : ∀ l : Level, l.price = p → (f l).price = p) :
    updateLevelAt p g (updateLevelAt p f ls) = updateLevelAt p (fun l => g (f l)) ls := by
  induction ls with
  | nil => rfl
  | cons x xs ih =>
      by_cases hx : (x.price == p) = true
      · have hfx : ((f x).price == p) = true := beq_iff_eq.mpr (hf x (beq_iff_eq.mp hx))
        simp [updateLevelAt, hx, hfx]
      · have hxf : (x.price == p) = false := by simpa using hx
        simp [updateLevelAt, hxf, ih]

theorem updateLevelAt_insertLevel (lvl : Level) (ls : List Level) (f : Level → Level)
    (hnin : lvl.price ∉ prices ls) (hf : (f lvl).price = lvl.price) :
    updateLevelAt lvl.price f (insertLevel lvl ls) = insertLevel (f lvl) ls := by
  induction ls with
  | nil => simp [insertLevel, updateLevelAt]
  | cons x xs ih =>
      obtain ⟨hnin2, hxne⟩ := not_mem_prices_cons hnin
      have hxb : (x.price == lvl.price) = false := by simpa using hxne
      by_cases h : lvl.price < x.price
      · simp [insertLevel, updateLevelAt, h, hf]
      · simp [insertLevel, updateLevelAt, h, hf, hxb, ih hnin2]

theorem eraseLevel_insertLevel (lvl : Level) (ls : List Level)
    (hnin : lvl.price ∉ prices ls) :
    eraseLevel lvl.price (insertLevel lvl ls) = ls := by
  induction ls with
  | nil => simp [insertLevel, eraseLevel]
  | cons x xs ih =>
      obtain ⟨hnin2, hxne⟩ := not_mem_prices_cons hnin
      have hxb : (x.price == lvl.price) = false := by simpa using hxne
      by_cases h : lvl.price < x.price
      · simp [insertLevel, eraseLevel, h]
      · simp [insertLevel, eraseLevel, h, hxb, ih hnin2]

/-!
Structural lemmas for the book operations.
-/

theorem AddLevel_eq_buy (o : OrderNode) (b : OrderBook) (ho : o.isBuy = true)
    (hnin : o.price ∉ prices b.bids) :
    AddLevel o b = some (freshLimitLevel o,
      { b with
          bids := insertLevel (freshLimitLevel o) b.bids
          bestBid :=
            match b.bestBid with
            | none => some o.price
            | some bp => if bp < o.price then some o.price else some bp }) := by
  simp [AddLevel, ho, hnin, freshLimitLevel]

theorem AddLevel_eq_sell (o : OrderNode) (b : OrderBook) (ho : o.isBuy = false)
    (hnin : o.price ∉ prices b.asks) :
    AddLevel o b = some (freshLimitLevel o,
      { b with
          asks := insertLevel (freshLimitLevel o) b.asks
          bestAsk :=
            match b.bestAsk with
            | none => some o.price
            | some ap => if o.price < ap then some o.price else some ap }) := by
  simp [AddLevel, ho, hnin, freshLimitLevel]

theorem DeleteLevel_eq_buy (o : OrderNode) (lp : Nat) (b : OrderBook) (ho : o.isBuy = true) :
    DeleteLevel o lp b =
      { b with
          bids := eraseLevel lp b.bids
          bestBid := if b.bestBid == some lp then nextLowerPrice b.bids lp else b.bestBid } := by
  simp [DeleteLevel, ho]

theorem DeleteLevel_eq_sell (o : OrderNode) (lp : Nat) (b : OrderBook) (ho : o.isBuy = false) :
    DeleteLevel o lp b =
      { b with
          asks := eraseLevel lp b.asks
          bestAsk := if b.bestAsk == some lp then nextHigherPrice b.asks lp else b.bestAsk } := by
  simp [DeleteLevel, ho]

/-- After deleting the level at `lp` from the bid ladder, the conditional
successor step of `DeleteLevel` re-establishes `_best_bid` as the maximum of
the remaining bid prices. -/
theorem DeleteLevel_bestBid (b : OrderBook) (lp : Nat)
    (hs : sortedLadder b.bids) (hbest : b.bestBid = maxPrice b.bids)
    (hmem : lp ∈ prices b.bids) :
    (if b.bestBid == some lp then nextLowerPrice b.bids lp else b.bestBid) =
      maxPrice (eraseLevel lp b.bids) := by
  have hmax : maxPrice (eraseLevel lp b.bids) =
      if (prices b.bids).getLast? = some lp then
        ((prices b.bids).filter (fun x => x < lp)).getLast?
      else (prices b.bids).getLast? := by
    rw [maxPrice, prices_eraseLevel]
    exact erase_getLast lp (prices b.bids) hs hmem
  rw [hmax]
  by_cases hc : b.bestBid = some lp
  · have hc2 : (prices b.bids).getLast? = some lp := by
      rw [← hc]
      exact hbest.symm
    rw [if_pos (by simpa using hc), if_pos hc2, nextLowerPrice_eq]
  · have hc2 : ¬ (prices b.bids).getLast? = some lp := by
      rw [← maxPrice, ← hbest]
      exact hc
    rw [if_neg (by simpa using hc), if_neg hc2, hbest, maxPrice]

/-- Mirror of `DeleteLevel_bestBid` for the ask ladder. -/
theorem DeleteLevel_bestAsk (b : OrderBook) (lp : Nat)
    (hs : sortedLadder b.asks) (hbest : b.bestAsk = minPrice b.asks)
    (hmem : lp ∈ prices b.asks) :
    (if b.bestAsk == some lp then nextHigherPrice b.asks lp else b.bestAsk) =
      minPrice (eraseLevel lp b.asks) := by
  have hmin : minPrice (eraseLevel lp b.asks) =
      if (prices b.asks).head? = some lp then
        ((prices b.asks).filter (fun x => lp < x)).head?
      else (prices b.asks).head? := by
    rw [minPrice, prices_eraseLevel]
    exact erase_head lp (prices b.asks) hs hmem
  rw [hmin]
  by_cases hc : b.bestAsk = some lp
  · have hc2 : (prices b.asks).head? = some lp := by
      rw [← hc]
      exact hbest.symm
    rw [if_pos (by simpa using hc), if_pos hc2, nextHigherPrice_eq]
  · have hc2 : ¬ (prices b.asks).head? = some lp := by
      rw [← minPrice, ← hbest]
      exact hc
    rw [if_neg (by simpa using hc), if_neg hc2, hbest, minPrice]

/-- Case analysis of `AddOrder` (`order_book.cpp` lines 99-126): the returned
order caches the level, the top flag compares the cached level against the
side's best pointer, and the update is `UPDATE` on an existing level and
`ADD` (with ladder insertion and best-pointer promotion) on a fresh one. -/
theorem AddOrder_cases (o : OrderNode) (b : OrderBook) (u : LevelUpdate)
    (b' : OrderBook) (o' : OrderNode) (h : AddOrder o b = some (u, b', o')) :
    o' = { o with level := some o.price } ∧
    u.top = (some o.price == bestOf o.isBuy b') ∧
    ((∃ lvl, (if o.isBuy then GetBid b o.price else GetAsk b o.price) = some lvl ∧
        u.kind = UpdateType.UPDATE ∧ u.snapshot = orderAdded o lvl ∧
        b' = (if o.isBuy then { b with bids := updateLevelAt o.price (orderAdded o) b.bids }
              else { b with asks := updateLevelAt o.price (orderAdded o) b.asks })) ∨
     ((if o.isBuy then GetBid b o.price else GetAsk b o.price) = none ∧
        u.kind = UpdateType.ADD ∧ u.snapshot = orderAdded o (freshLimitLevel o) ∧
        (o.isBuy = true →
          o.price ∉ prices b.bids ∧
          b' = { b with
                   bids := updateLevelAt o.price (orderAdded o)
                     (insertLevel (freshLimitLevel o) b.bids)
                   bestBid :=
                     match b.bestBid with
                     | none => some o.price
                     | some bp => if bp < o.price then some o.price else some bp }) ∧
        (o.isBuy = false →
          o.price ∉ prices b.asks ∧
          b' = { b with
                   asks := updateLevelAt o.price (orderAdded o)
                     (insertLevel (freshLimitLevel o) b.asks)
                   bestAsk :=
                     match b.bestAsk with
                     | none => some o.price
                     | some ap => if o.price < ap then some o.price else some ap }))) := by
  unfold AddOrder at h
  cases hbuy : o.isBuy with
  | true =>
      rw [hbuy] at h
      simp only [reduceIte] at h ⊢
      split at h
      case h_1 lvl heq =>
          simp only [Option.some.injEq, Prod.mk.injEq] at h
          obtain ⟨hu, hb', ho'⟩ := h
          subst hu; subst hb'; subst ho'
          exact ⟨rfl, rfl, Or.inl ⟨lvl, heq, rfl, rfl, rfl⟩⟩
      case h_2 heq =>
          split at h
          case h_1 heq2 => exact absurd h (by simp)
          case h_2 lvl0 b1 heq2 =>
              have hnin : o.price ∉ prices b.bids :=
                (find_price_none b.bids o.price).mp (by simpa [GetBid] using heq)
              rw [AddLevel_eq_buy o b hbuy hnin] at heq2
              simp only [Option.some.injEq, Prod.mk.injEq] at heq2
              obtain ⟨hlvl0, hb1⟩ := heq2
              subst hlvl0; subst hb1
              simp only [Option.some.injEq, Prod.mk.injEq] at h
              obtain ⟨hu, hb', ho'⟩ := h
              subst hu; subst hb'; subst ho'
              refine ⟨rfl, rfl, Or.inr ⟨heq, rfl, rfl, fun _ => ⟨hnin, rfl⟩,
                fun hc => absurd hc (by simp)⟩⟩
  | false =>
      rw [hbuy] at h
      simp only [Bool.false_eq_true, reduceIte] at h ⊢
      split at h
      case h_1 lvl heq =>
          simp only [Option.some.injEq, Prod.mk.injEq] at h
          obtain ⟨hu, hb', ho'⟩ := h
          subst hu; subst hb'; subst ho'
          exact ⟨rfl, rfl, Or.inl ⟨lvl, heq, rfl, rfl, rfl⟩⟩
      case h_2 heq =>
          split at h
          case h_1 heq2 => exact absurd h (by simp)
          case h_2 lvl0 b1 heq2 =>
              have hnin : o.price ∉ prices b.asks :=
                (find_price_none b.asks o.price).mp (by simpa [GetAsk] using heq)
              rw [AddLevel_eq_sell o b hbuy hnin] at heq2
              simp only [Option.some.injEq, Prod.mk.injEq] at heq2
              obtain ⟨hlvl0, hb1⟩ := heq2
              subst hlvl0; subst hb1
              simp only [Option.some.injEq, Prod.mk.injEq] at h
              obtain ⟨hu, hb', ho'⟩ := h
              subst hu; subst hb'; subst ho'
              refine ⟨rfl, rfl, Or.inr ⟨heq, rfl, rfl,
                fun hc => absurd hc (by simp), fun _ => ⟨hnin, rfl⟩⟩⟩

theorem ReduceOrder_cases (o : OrderNode) (q hq vq : Nat) (b : OrderBook)
    (u : LevelUpdate) (b' : OrderBook) (o' : OrderNode)
    (h : ReduceOrder o q hq vq b = some (u, b', o')) :
    ∃ lp lvl lvl2 b1,
      o.level = some lp ∧
      (if o.isBuy then GetBid b lp else GetAsk b lp) = some lvl ∧
      lvl2 = (if o.quantity == 0 then unlinkOrder o.id (reduceLevel q hq vq lvl)
              else reduceLevel q hq vq lvl) ∧
      b1 = (if o.isBuy then { b with bids := updateLevelAt lp (fun _ => lvl2) b.bids }
            else { b with asks := updateLevelAt lp (fun _ => lvl2) b.asks }) ∧
      u.snapshot = lvl2 ∧
      ((lvl2.totalVolume = 0 ∧ u.kind = UpdateType.DELETE ∧
          b' = DeleteLevel o lp b1 ∧ o' = { o with level := none } ∧
          u.top = ((none : Option Nat) == bestOf o.isBuy b')) ∨
       (lvl2.totalVolume ≠ 0 ∧ u.kind = UpdateType.UPDATE ∧
          b' = b1 ∧ o' = o ∧ u.top = (some lp == bestOf o.isBuy b'))) := by
  unfold ReduceOrder at h
  split at h
  case h_1 => exact absurd h (by simp)
  case h_2 lp heqlp =>
    split at h
    case h_1 => exact absurd h (by simp)
    case h_2 lvl heqf =>
      by_cases hq0 : (o.quantity == 0) = true
      · simp only [hq0, reduceIte] at h
        by_cases hvol :
            ((unlinkOrder o.id (reduceLevel q hq vq lvl)).totalVolume == 0) = true
        · simp only [hvol, reduceIte] at h
          simp only [Option.some.injEq, Prod.mk.injEq] at h
          obtain ⟨hu, hb', ho'⟩ := h
          subst hu; subst hb'; subst ho'
          exact ⟨lp, lvl, _, _, heqlp, heqf, by simp [hq0], rfl, rfl,
            Or.inl ⟨by simpa using hvol, rfl, rfl, rfl, rfl⟩⟩
        · have hvolf :
              ((unlinkOrder o.id (reduceLevel q hq vq lvl)).totalVolume == 0) = false := by
            simpa using hvol
          simp only [hvolf, Bool.false_eq_true, reduceIte] at h
          simp only [Option.some.injEq, Prod.mk.injEq] at h
          obtain ⟨hu, hb', ho'⟩ := h
          subst hu; subst hb'; subst ho'
          exact ⟨lp, lvl, _, _, heqlp, heqf, by simp [hq0], rfl, rfl,
            Or.inr ⟨by simpa using hvol, rfl, rfl, rfl, by simp [heqlp]⟩⟩
      · have hq0f : (o.quantity == 0) = false := by simpa using hq0
        simp only [hq0f, Bool.false_eq_true, reduceIte] at h
        by_cases hvol : ((reduceLevel q hq vq lvl).totalVolume == 0) = true
        · simp only [hvol, reduceIte] at h
          simp only [Option.some.injEq, Prod.mk.injEq] at h
          obtain ⟨hu, hb', ho'⟩ := h
          subst hu; subst hb'; subst ho'
          exact ⟨lp, lvl, _, _, heqlp, heqf, by simp [hq0f], rfl, rfl,
            Or.inl ⟨by simpa using hvol, rfl, rfl, rfl, rfl⟩⟩
        · have hvolf : ((reduceLevel q hq vq lvl).totalVolume == 0) = false := by
            simpa using hvol
          simp only [hvolf, Bool.false_eq_true, reduceIte] at h
          simp only [Option.some.injEq, Prod.mk.injEq] at h
          obtain ⟨hu, hb', ho'⟩ := h
          subst hu; subst hb'; subst ho'
          exact ⟨lp, lvl, _, _, heqlp, heqf, by simp [hq0f], rfl, rfl,
            Or.inr ⟨by simpa using hvol, rfl, rfl, rfl, by simp [heqlp]⟩⟩

theorem DeleteOrder_cases (o : OrderNode) (b : OrderBook)
    (u : LevelUpdate) (b' : OrderBook) (o' : OrderNode)
    (h : DeleteOrder o b = some (u, b', o')) :
    ∃ lp lvl lvl1 b1,
      o.level = some lp ∧
      (if o.isBuy then GetBid b lp else GetAsk b lp) = some lvl ∧
      lvl1 = unlinkOrder o.id (reduceLevel o.quantity o.hidden o.visible lvl) ∧
      b1 = (if o.isBuy then { b with bids := updateLevelAt lp (fun _ => lvl1) b.bids }
            else { b with asks := updateLevelAt lp (fun _ => lvl1) b.asks }) ∧
      u.snapshot = lvl1 ∧
      ((lvl1.totalVolume = 0 ∧ u.kind = UpdateType.DELETE ∧
          b' = DeleteLevel o lp b1 ∧ o' = { o with level := none } ∧
          u.top = ((none : Option Nat) == bestOf o.isBuy b')) ∨
       (lvl1.totalVolume ≠ 0 ∧ u.kind = UpdateType.UPDATE ∧
          b' = b1 ∧ o' = o ∧ u.top = (some lp == bestOf o.isBuy b'))) := by
  unfold DeleteOrder at h
  split at h
  case h_1 => exact absurd h (by simp)
  case h_2 lp heqlp =>
    split at h
    case h_1 => exact absurd h (by simp)
    case h_2 lvl heqf =>
      by_cases hvol :
          ((unlinkOrder o.id (reduceLevel o.quantity o.hidden o.visible lvl)).totalVolume
            == 0) = true
      · simp only [hvol, reduceIte] at h
        simp only [Option.some.injEq, Prod.mk.injEq] at h
        obtain ⟨hu, hb', ho'⟩ := h
        subst hu; subst hb'; subst ho'
        exact ⟨lp, lvl, _, _, heqlp, heqf, rfl, rfl, rfl,
          Or.inl ⟨by simpa using hvol, rfl, rfl, rfl, rfl⟩⟩
      · have hvolf :
            ((unlinkOrder o.id (reduceLevel o.quantity o.hidden o.visible lvl)).totalVolume
              == 0) = false := by
          simpa using hvol
        simp only [hvolf, Bool.false_eq_true, reduceIte] at h
        simp only [Option.some.injEq, Prod.mk.injEq] at h
        obtain ⟨hu, hb', ho'⟩ := h
        subst hu; subst hb'; subst ho'
        exact ⟨lp, lvl, _, _, heqlp, heqf, rfl, rfl, rfl,
          Or.inr ⟨by simpa using hvol, rfl, rfl, rfl, by simp [heqlp]⟩⟩


/-- `ReduceStopOrder` performs exactly the book mutations of `ReduceOrder`
(including the `DeleteLevel` call of `order_book.cpp` line 280), merely
dropping the `LevelUpdate` result. -/
theorem ReduceStopOrder_eq (o : OrderNode) (q hq vq : Nat) (b : OrderBook) :
    ReduceStopOrder o q hq vq b =
      (ReduceOrder o q hq vq b).map (fun r => (r.2.1, r.2.2)) := by
  unfold ReduceStopOrder ReduceOrder
  dsimp only
  repeat' split
  all_goals rfl

/-- `DeleteStopOrder` performs exactly the book mutations of `DeleteOrder`
(including the `DeleteLevel` call of `order_book.cpp` line 304), merely
dropping the `LevelUpdate` result. -/
theorem DeleteStopOrder_eq (o : OrderNode) (b : OrderBook) :
    DeleteStopOrder o b = (DeleteOrder o b).map (fun r => (r.2.1, r.2.2)) := by
  unfold DeleteStopOrder DeleteOrder
  dsimp only
  repeat' split
  all_goals rfl

/-- Case analysis of `AddStopOrder` (`order_book.cpp` lines 235-255): on a
fresh price the source calls `AddLevel`, so the level is created in the bid
or ask ladder (with the limit-side type tag) and the best pointer moves. -/
theorem AddStopOrder_cases (o : OrderNode) (b : OrderBook)
    (b' : OrderBook) (o' : OrderNode) (h : AddStopOrder o b = some (b', o')) :
    o' = { o with level := some o.price } ∧
    ((∃ lvl, (if o.isBuy then GetBuyStopLevel b o.price
                else GetSellStopLevel b o.price) = some lvl ∧
        b' = (if o.isBuy then
                { b with buyStop := updateLevelAt o.price (orderAdded o) b.buyStop }
              else
                { b with sellStop := updateLevelAt o.price (orderAdded o) b.sellStop })) ∨
     ((if o.isBuy then GetBuyStopLevel b o.price else GetSellStopLevel b o.price) = none ∧
        (o.isBuy = true →
          o.price ∉ prices b.bids ∧
          b' = { b with
                   bids := updateLevelAt o.price (orderAdded o)
                     (insertLevel (freshLimitLevel o) b.bids)
                   bestBid :=
                     match b.bestBid with
                     | none => some o.price
                     | some bp => if bp < o.price then some o.price else some bp }) ∧
        (o.isBuy = false →
          o.price ∉ prices b.asks ∧
          b' = { b with
                   asks := updateLevelAt o.price (orderAdded o)
                     (insertLevel (freshLimitLevel o) b.asks)
                   bestAsk :=
                     match b.bestAsk with
                     | none => some o.price
                     | some ap => if o.price < ap then some o.price else some ap }))) := by
  unfold AddStopOrder at h
  cases hbuy : o.isBuy with
  | true =>
      rw [hbuy] at h
      simp only [reduceIte] at h ⊢
      split at h
      case h_1 lvl heq =>
          simp only [Option.some.injEq, Prod.mk.injEq] at h
          obtain ⟨hb', ho'⟩ := h
          subst hb'; subst ho'
          exact ⟨rfl, Or.inl ⟨lvl, heq, rfl⟩⟩
      case h_2 heq =>
          split at h
          case h_1 heq2 => exact absurd h (by simp)
          case h_2 lvl0 b1 heq2 =>
              have hnin : o.price ∉ prices b.bids := by
                unfold AddLevel at heq2
                rw [hbuy] at heq2
                simp only [reduceIte] at heq2
                by_cases hin : o.price ∈ prices b.bids
                · rw [if_pos hin] at heq2
                  exact absurd heq2 (by simp)
                · exact hin
              rw [AddLevel_eq_buy o b hbuy hnin] at heq2
              simp only [Option.some.injEq, Prod.mk.injEq] at heq2
              obtain ⟨hlvl0, hb1⟩ := heq2
              subst hlvl0; subst hb1
              simp only [Option.some.injEq, Prod.mk.injEq] at h
              obtain ⟨hb', ho'⟩ := h
              subst hb'; subst ho'
              exact ⟨rfl, Or.inr ⟨heq, fun _ => ⟨hnin, rfl⟩,
                fun hc => absurd hc (by simp)⟩⟩
  | false =>
      rw [hbuy] at h
      simp only [Bool.false_eq_true, reduceIte] at h ⊢
      split at h
      case h_1 lvl heq =>
          simp only [Option.some.injEq, Prod.mk.injEq] at h
          obtain ⟨hb', ho'⟩ := h
          subst hb'; subst ho'
          exact ⟨rfl, Or.inl ⟨lvl, heq, rfl⟩⟩
      case h_2 heq =>
          split at h
          case h_1 heq2 => exact absurd h (by simp)
          case h_2 lvl0 b1 heq2 =>
              have hnin : o.price ∉ prices b.asks := by
                unfold AddLevel at heq2
                rw [hbuy] at heq2
                simp only [Bool.false_eq_true, reduceIte] at heq2
                by_cases hin : o.price ∈ prices b.asks
                · rw [if_pos hin] at heq2
                  exact absurd heq2 (by simp)
                · exact hin
              rw [AddLevel_eq_sell o b hbuy hnin] at heq2
              simp only [Option.some.injEq, Prod.mk.injEq] at heq2
              obtain ⟨hlvl0, hb1⟩ := heq2
              subst hlvl0; subst hb1
              simp only [Option.some.injEq, Prod.mk.injEq] at h
              obtain ⟨hb', ho'⟩ := h
              subst hb'; subst ho'
              exact ⟨rfl, Or.inr ⟨heq, fun hc => absurd hc (by simp),
                fun _ => ⟨hnin, rfl⟩⟩⟩

/-!
Preservation of ladder sorting and of the best-pointer invariant by the
limit-side operations.
-/

theorem orderAdded_price (o : OrderNode) (l : Level) : (orderAdded o l).price = l.price := rfl

theorem reduceLevel_price (q hq vq : Nat) (l : Level) :
    (reduceLevel q hq vq l).price = l.price := rfl

theorem unlinkOrder_price (i : Nat) (l : Level) : (unlinkOrder i l).price = l.price := rfl

theorem addOrder_inv (o : OrderNode) (b : OrderBook) (u : LevelUpdate)
    (b' : OrderBook) (o' : OrderNode) (hs : BookSorted b) (hbest : BestOK b)
    (h : AddOrder o b = some (u, b', o')) : BookSorted b' ∧ BestOK b' := by
  obtain ⟨ho', htop, hcase⟩ := AddOrder_cases o b u b' o' h
  obtain ⟨hsb, hsa, hsbs, hsss⟩ := hs
  obtain ⟨hmaxb, hmina⟩ := hbest
  rcases hcase with ⟨lvl, hfound, _, _, hb'⟩ | ⟨hfound, _, _, hbuyimp, hsellimp⟩
  · cases hbuy : o.isBuy with
    | false =>
        rw [hbuy] at hb'
        simp only [Bool.false_eq_true, reduceIte] at hb'
        subst hb'
        have hpr : prices (updateLevelAt o.price (orderAdded o) b.asks) = prices b.asks :=
          prices_updateLevelAt _ _ _ (fun l hl => by rw [orderAdded_price, hl])
        refine ⟨⟨hsb, ?_, hsbs, hsss⟩, hmaxb, ?_⟩
        · show List.Pairwise (· < ·) (prices (updateLevelAt o.price (orderAdded o) b.asks))
          rw [hpr]
          exact hsa
        · show b.bestAsk = (prices (updateLevelAt o.price (orderAdded o) b.asks)).head?
          rw [hpr]
          exact hmina
    | true =>
        rw [hbuy] at hb'
        simp only [reduceIte] at hb'
        subst hb'
        have hpr : prices (updateLevelAt o.price (orderAdded o) b.bids) = prices b.bids :=
          prices_updateLevelAt _ _ _ (fun l hl => by rw [orderAdded_price, hl])
        refine ⟨⟨?_, hsa, hsbs, hsss⟩, ?_, hmina⟩
        · show List.Pairwise (· < ·) (prices (updateLevelAt o.price (orderAdded o) b.bids))
          rw [hpr]
          exact hsb
        · show b.bestBid = (prices (updateLevelAt o.price (orderAdded o) b.bids)).getLast?
          rw [hpr]
          exact hmaxb
  · cases hbuy : o.isBuy with
    | false =>
        obtain ⟨hnin, hb'⟩ := hsellimp hbuy
        subst hb'
        have hpr : prices (updateLevelAt o.price (orderAdded o)
            (insertLevel (freshLimitLevel o) b.asks)) =
            insertKey o.price (prices b.asks) := by
          rw [prices_updateLevelAt _ _ _ (fun l hl => by rw [orderAdded_price, hl])]
          exact prices_insertLevel (freshLimitLevel o) b.asks
        refine ⟨⟨hsb, ?_, hsbs, hsss⟩, hmaxb, ?_⟩
        · show List.Pairwise (· < ·) (prices (updateLevelAt o.price (orderAdded o)
            (insertLevel (freshLimitLevel o) b.asks)))
          rw [hpr]
          exact insertKey_sorted o.price (prices b.asks) hsa hnin
        · show (match b.bestAsk with
              | none => some o.price
              | some ap => if o.price < ap then some o.price else some ap) =
            (prices (updateLevelAt o.price (orderAdded o)
              (insertLevel (freshLimitLevel o) b.asks))).head?
          rw [hpr, insertKey_head o.price (prices b.asks), hmina, minPrice]
    | true =>
        obtain ⟨hnin, hb'⟩ := hbuyimp hbuy
        subst hb'
        have hpr : prices (updateLevelAt o.price (orderAdded o)
            (insertLevel (freshLimitLevel o) b.bids)) =
            insertKey o.price (prices b.bids) := by
          rw [prices_updateLevelAt _ _ _ (fun l hl => by rw [orderAdded_price, hl])]
          exact prices_insertLevel (freshLimitLevel o) b.bids
        refine ⟨⟨?_, hsa, hsbs, hsss⟩, ?_, hmina⟩
        · show List.Pairwise (· < ·) (prices (updateLevelAt o.price (orderAdded o)
            (insertLevel (freshLimitLevel o) b.bids)))
          rw [hpr]
          exact insertKey_sorted o.price (prices b.bids) hsb hnin
        · show (match b.bestBid with
              | none => some o.price
              | some bp => if bp < o.price then some o.price else some bp) =
            (prices (updateLevelAt o.price (orderAdded o)
              (insertLevel (freshLimitLevel o) b.bids))).getLast?
          rw [hpr, insertKey_getLast o.price (prices b.bids) hsb, hmaxb, maxPrice]

theorem reduceOrder_inv (o : OrderNode) (q hq vq : Nat) (b : OrderBook)
    (u : LevelUpdate) (b' : OrderBook) (o' : OrderNode)
    (hs : BookSorted b) (hbest : BestOK b)
    (h : ReduceOrder o q hq vq b = some (u, b', o')) : BookSorted b' ∧ BestOK b' := by
  obtain ⟨lp, lvl, lvl2, b1, hlp, hfound, hlvl2, hb1, hsnap, hcase⟩ :=
    ReduceOrder_cases o q hq vq b u b' o' h
  obtain ⟨hsb, hsa, hsbs, hsss⟩ := hs
  obtain ⟨hmaxb, hmina⟩ := hbest
  have hlvl2p : lvl2.price = lvl.price := by
    rw [hlvl2]
    by_cases hq0 : (o.quantity == 0) = true
    · simp [hq0, unlinkOrder_price, reduceLevel_price]
    · have : (o.quantity == 0) = false := by simpa using hq0
      simp [this, reduceLevel_price]
  cases hbuy : o.isBuy with
  | true =>
      rw [hbuy] at hfound hb1
      simp only [reduceIte] at hfound hb1
      obtain ⟨hlvlp, hlvlmem⟩ := find_price_some b.bids lp lvl hfound
      have hlpmem : lp ∈ prices b.bids := List.mem_map.mpr ⟨lvl, hlvlmem, hlvlp⟩
      have hpr1 : prices b1.bids = prices b.bids := by
        rw [hb1]
        exact prices_updateLevelAt _ _ _ (fun l hl => by rw [hlvl2p, hlvlp])
      have hb1asks : b1.asks = b.asks := by rw [hb1]
      have hb1bb : b1.bestBid = b.bestBid := by rw [hb1]
      have hb1ba : b1.bestAsk = b.bestAsk := by rw [hb1]
      have hb1bs : b1.buyStop = b.buyStop := by rw [hb1]
      have hb1ss : b1.sellStop = b.sellStop := by rw [hb1]
      have hsb1 : List.Pairwise (· < ·) (prices b1.bids) := by rw [hpr1]; exact hsb
      have hmaxb1 : b1.bestBid = maxPrice b1.bids := by
        rw [hb1bb, hmaxb, maxPrice, maxPrice, hpr1]
      rcases hcase with ⟨hv0, _, hb', ho', _⟩ | ⟨hvne, _, hb', ho', _⟩
      · rw [DeleteLevel_eq_buy o lp b1 hbuy] at hb'
        subst hb'
        have hlpmem1 : lp ∈ prices b1.bids := by rw [hpr1]; exact hlpmem
        have hprerase : prices (eraseLevel lp b1.bids) = (prices b1.bids).erase lp :=
          prices_eraseLevel lp b1.bids
        refine ⟨⟨?_, ?_, ?_, ?_⟩, ?_, ?_⟩
        · show List.Pairwise (· < ·) (prices (eraseLevel lp b1.bids))
          rw [hprerase]
          exact List.Pairwise.sublist (List.erase_sublist lp (prices b1.bids)) hsb1
        · show List.Pairwise (· < ·) (prices b1.asks)
          rw [hb1asks]
          exact hsa
        · show List.Pairwise (· < ·) (prices b1.buyStop)
          rw [hb1bs]
          exact hsbs
        · show List.Pairwise (· < ·) (prices b1.sellStop)
          rw [hb1ss]
          exact hsss
        · show (if b1.bestBid == some lp then nextLowerPrice b1.bids lp else b1.bestBid) =
            maxPrice (eraseLevel lp b1.bids)
          exact DeleteLevel_bestBid b1 lp hsb1 hmaxb1 hlpmem1
        · show b1.bestAsk = minPrice b1.asks
          rw [hb1ba, hb1asks, hmina]
      · rw [hb']
        refine ⟨⟨hsb1, ?_, ?_, ?_⟩, ?_, ?_⟩
        · show List.Pairwise (· < ·) (prices b1.asks)
          rw [hb1asks]
          exact hsa
        · show List.Pairwise (· < ·) (prices b1.buyStop)
          rw [hb1bs]
          exact hsbs
        · show List.Pairwise (· < ·) (prices b1.sellStop)
          rw [hb1ss]
          exact hsss
        · exact hmaxb1
        · show b1.bestAsk = minPrice b1.asks
          rw [hb1ba, hb1asks, hmina]
  | false =>
      rw [hbuy] at hfound hb1
      simp only [Bool.false_eq_true, reduceIte] at hfound hb1
      obtain ⟨hlvlp, hlvlmem⟩ := find_price_some b.asks lp lvl hfound
      have hlpmem : lp ∈ prices b.asks := List.mem_map.mpr ⟨lvl, hlvlmem, hlvlp⟩
      have hpr1 : prices b1.asks = prices b.asks := by
        rw [hb1]
        exact prices_updateLevelAt _ _ _ (fun l hl => by rw [hlvl2p, hlvlp])
      have hb1bids : b1.bids = b.bids := by rw [hb1]
      have hb1bb : b1.bestBid = b.bestBid := by rw [hb1]
      have hb1ba : b1.bestAsk = b.bestAsk := by rw [hb1]
      have hb1bs : b1.buyStop = b.buyStop := by rw [hb1]
      have hb1ss : b1.sellStop = b.sellStop := by rw [hb1]
      have hsa1 : List.Pairwise (· < ·) (prices b1.asks) := by rw [hpr1]; exact hsa
      have hmina1 : b1.bestAsk = minPrice b1.asks := by
        rw [hb1ba, hmina, minPrice, minPrice, hpr1]
      rcases hcase with ⟨hv0, _, hb', ho', _⟩ | ⟨hvne, _, hb', ho', _⟩
      · rw [DeleteLevel_eq_sell o lp b1 hbuy] at hb'
        subst hb'
        have hlpmem1 : lp ∈ prices b1.asks := by rw [hpr1]; exact hlpmem
        have hprerase : prices (eraseLevel lp b1.asks) = (prices b1.asks).erase lp :=
          prices_eraseLevel lp b1.asks
        refine ⟨⟨?_, ?_, ?_, ?_⟩, ?_, ?_⟩
        · show List.Pairwise (· < ·) (prices b1.bids)
          rw [hb1bids]
          exact hsb
        · show List.Pairwise (· < ·) (prices (eraseLevel lp b1.asks))
          rw [hprerase]
          exact List.Pairwise.sublist (List.erase_sublist lp (prices b1.asks)) hsa1
        · show List.Pairwise (· < ·) (prices b1.buyStop)
          rw [hb1bs]
          exact hsbs
        · show List.Pairwise (· < ·) (prices b1.sellStop)
          rw [hb1ss]
          exact hsss
        · show b1.bestBid = maxPrice b1.bids
          rw [hb1bb, hb1bids, hmaxb]
        · show (if b1.bestAsk == some lp then nextHigherPrice b1.asks lp else b1.bestAsk) =
            minPrice (eraseLevel lp b1.asks)
          exact DeleteLevel_bestAsk b1 lp hsa1 hmina1 hlpmem1
      · rw [hb']
        refine ⟨⟨?_, hsa1, ?_, ?_⟩, ?_, ?_⟩
        · show List.Pairwise (· < ·) (prices b1.bids)
          rw [hb1bids]
          exact hsb
        · show List.Pairwise (· < ·) (prices b1.buyStop)
          rw [hb1bs]
          exact hsbs
        · show List.Pairwise (· < ·) (prices b1.sellStop)
          rw [hb1ss]
          exact hsss
        · show b1.bestBid = maxPrice b1.bids
          rw [hb1bb, hb1bids, hmaxb]
        · exact hmina1

theorem deleteOrder_inv (o : OrderNode) (b : OrderBook)
    (u : LevelUpdate) (b' : OrderBook) (o' : OrderNode)
    (hs : BookSorted b) (hbest : BestOK b)
    (h : DeleteOrder o b = some (u, b', o')) : BookSorted b' ∧ BestOK b' := by
  obtain ⟨lp, lvl, lvl1, b1, hlp, hfound, hlvl1, hb1, hsnap, hcase⟩ :=
    DeleteOrder_cases o b u b' o' h
  obtain ⟨hsb, hsa, hsbs, hsss⟩ := hs
  obtain ⟨hmaxb, hmina⟩ := hbest
  have hlvl1p : lvl1.price = lvl.price := by
    rw [hlvl1, unlinkOrder_price, reduceLevel_price]
  cases hbuy : o.isBuy with
  | true =>
      rw [hbuy] at hfound hb1
      simp only [reduceIte] at hfound hb1
      obtain ⟨hlvlp, hlvlmem⟩ := find_price_some b.bids lp lvl hfound
      have hlpmem : lp ∈ prices b.bids := List.mem_map.mpr ⟨lvl, hlvlmem, hlvlp⟩
      have hpr1 : prices b1.bids = prices b.bids := by
        rw [hb1]
        exact prices_updateLevelAt _ _ _ (fun l hl => by rw [hlvl1p, hlvlp])
      have hb1asks : b1.asks = b.asks := by rw [hb1]
      have hb1bb : b1.bestBid = b.bestBid := by rw [hb1]
      have hb1ba : b1.bestAsk = b.bestAsk := by rw [hb1]
      have hb1bs : b1.buyStop = b.buyStop := by rw [hb1]
      have hb1ss : b1.sellStop = b.sellStop := by rw [hb1]
      have hsb1 : List.Pairwise (· < ·) (prices b1.bids) := by rw [hpr1]; exact hsb
      have hmaxb1 : b1.bestBid = maxPrice b1.bids := by
        rw [hb1bb, hmaxb, maxPrice, maxPrice, hpr1]
      rcases hcase with ⟨hv0, _, hb', ho', _⟩ | ⟨hvne, _, hb', ho', _⟩
      · rw [DeleteLevel_eq_buy o lp b1 hbuy] at hb'
        subst hb'
        have hlpmem1 : lp ∈ prices b1.bids := by rw [hpr1]; exact hlpmem
        have hprerase : prices (eraseLevel lp b1.bids) = (prices b1.bids).erase lp :=
          prices_eraseLevel lp b1.bids
        refine ⟨⟨?_, ?_, ?_, ?_⟩, ?_, ?_⟩
        · show List.Pairwise (· < ·) (prices (eraseLevel lp b1.bids))
          rw [hprerase]
          exact List.Pairwise.sublist (List.erase_sublist lp (prices b1.bids)) hsb1
        · show List.Pairwise (· < ·) (prices b1.asks)
          rw [hb1asks]
          exact hsa
        · show List.Pairwise (· < ·) (prices b1.buyStop)
          rw [hb1bs]
          exact hsbs
        · show List.Pairwise (· < ·) (prices b1.sellStop)
          rw [hb1ss]
          exact hsss
        · show (if b1.bestBid == some lp then nextLowerPrice b1.bids lp else b1.bestBid) =
            maxPrice (eraseLevel lp b1.bids)
          exact DeleteLevel_bestBid b1 lp hsb1 hmaxb1 hlpmem1
        · show b1.bestAsk = minPrice b1.asks
          rw [hb1ba, hb1asks, hmina]
      · rw [hb']
        refine ⟨⟨hsb1, ?_, ?_, ?_⟩, ?_, ?_⟩
        · show List.Pairwise (· < ·) (prices b1.asks)
          rw [hb1asks]
          exact hsa
        · show List.Pairwise (· < ·) (prices b1.buyStop)
          rw [hb1bs]
          exact hsbs
        · show List.Pairwise (· < ·) (prices b1.sellStop)
          rw [hb1ss]
          exact hsss
        · exact hmaxb1
        · show b1.bestAsk = minPrice b1.asks
          rw [hb1ba, hb1asks, hmina]
  | false =>
      rw [hbuy] at hfound hb1
      simp only [Bool.false_eq_true, reduceIte] at hfound hb1
      obtain ⟨hlvlp, hlvlmem⟩ := find_price_some b.asks lp lvl hfound
      have hlpmem : lp ∈ prices b.asks := List.mem_map.mpr ⟨lvl, hlvlmem, hlvlp⟩
      have hpr1 : prices b1.asks = prices b.asks := by
        rw [hb1]
        exact prices_updateLevelAt _ _ _ (fun l hl => by rw [hlvl1p, hlvlp])
      have hb1bids : b1.bids = b.bids := by rw [hb1]
      have hb1bb : b1.bestBid = b.bestBid := by rw [hb1]
      have hb1ba : b1.bestAsk = b.bestAsk := by rw [hb1]
      have hb1bs : b1.buyStop = b.buyStop := by rw [hb1]
      have hb1ss : b1.sellStop = b.sellStop := by rw [hb1]
      have hsa1 : List.Pairwise (· < ·) (prices b1.asks) := by rw [hpr1]; exact hsa
      have hmina1 : b1.bestAsk = minPrice b1.asks := by
        rw [hb1ba, hmina, minPrice, minPrice, hpr1]
      rcases hcase with ⟨hv0, _, hb', ho', _⟩ | ⟨hvne, _, hb', ho', _⟩
      · rw [DeleteLevel_eq_sell o lp b1 hbuy] at hb'
        subst hb'
        have hlpmem1 : lp ∈ prices b1.asks := by rw [hpr1]; exact hlpmem
        have hprerase : prices (eraseLevel lp b1.asks) = (prices b1.asks).erase lp :=
          prices_eraseLevel lp b1.asks
        refine ⟨⟨?_, ?_, ?_, ?_⟩, ?_, ?_⟩
        · show List.Pairwise (· < ·) (prices b1.bids)
          rw [hb1bids]
          exact hsb
        · show List.Pairwise (· < ·) (prices (eraseLevel lp b1.asks))
          rw [hprerase]
          exact List.Pairwise.sublist (List.erase_sublist lp (prices b1.asks)) hsa1
        · show List.Pairwise (· < ·) (prices b1.buyStop)
          rw [hb1bs]
          exact hsbs
        · show List.Pairwise (· < ·) (prices b1.sellStop)
          rw [hb1ss]
          exact hsss
        · show b1.bestBid = maxPrice b1.bids
          rw [hb1bb, hb1bids, hmaxb]
        · show (if b1.bestAsk == some lp then nextHigherPrice b1.asks lp else b1.bestAsk) =
            minPrice (eraseLevel lp b1.asks)
          exact DeleteLevel_bestAsk b1 lp hsa1 hmina1 hlpmem1
      · rw [hb']
        refine ⟨⟨?_, hsa1, ?_, ?_⟩, ?_, ?_⟩
        · show List.Pairwise (· < ·) (prices b1.bids)
          rw [hb1bids]
          exact hsb
        · show List.Pairwise (· < ·) (prices b1.buyStop)
          rw [hb1bs]
          exact hsbs
        · show List.Pairwise (· < ·) (prices b1.sellStop)
          rw [hb1ss]
          exact hsss
        · show b1.bestBid = maxPrice b1.bids
          rw [hb1bb, hb1bids, hmaxb]
        · exact hmina1

/-!
Sum bookkeeping for the per-level aggregate invariant.
-/

theorem mem_le_sum_map (l : List Nat) (i : Nat) (hi : i ∈ l) (f : Nat → Nat) :
    f i ≤ (l.map f).sum :=
  List.single_le_sum (fun x _ => Nat.zero_le x) (f i) (List.mem_map_of_mem f hi)

theorem sum_map_congr_mem (l : List Nat) (f g : Nat → Nat) (h : ∀ i ∈ l, f i = g i) :
    (l.map f).sum = (l.map g).sum := by
  rw [List.map_congr_left h]

theorem sum_erase_mem (l : List Nat) (i : Nat) (hi : i ∈ l) (f : Nat → Nat) :
    ((l.erase i).map f).sum + f i = (l.map f).sum := by
  have hperm : List.Perm l (i :: l.erase i) := List.perm_cons_erase hi
  have hsum : (l.map f).sum = ((i :: l.erase i).map f).sum := (hperm.map f).sum_eq
  rw [hsum, List.map_cons, List.sum_cons]
  omega

theorem sum_update_mem (l : List Nat) (i : Nat) (hi : i ∈ l) (hnd : l.Nodup)
    (f g : Nat → Nat) (hfg : ∀ j ∈ l, j ≠ i → g j = f j) :
    (l.map g).sum + f i = (l.map f).sum + g i := by
  induction l with
  | nil => exact absurd hi (by simp)
  | cons x xs ih =>
      rcases List.nodup_cons.mp hnd with ⟨hxnin, hndxs⟩
      rcases List.mem_cons.mp hi with hxi | hixs
      · subst hxi
        have hcongr : (xs.map g).sum = (xs.map f).sum := by
          refine sum_map_congr_mem xs g f (fun j hj => ?_)
          exact hfg j (List.mem_cons_of_mem _ hj) (fun hc => hxnin (hc ▸ hj))
        simp only [List.map_cons, List.sum_cons]
        omega
      · have hxne : x ≠ i := fun hc => hxnin (hc ▸ hixs)
        have hgx : g x = f x := hfg x (by simp) hxne
        have := ih hixs hndxs (fun j hj hji => hfg j (List.mem_cons_of_mem _ hj) hji)
        simp only [List.map_cons, List.sum_cons, hgx]
        omega

theorem levelOk_congr (env env2 : Nat → OrderNode) (l : Level)
    (h : ∀ i ∈ l.orderList, env2 i = env i) (hok : levelOk env l) : levelOk env2 l := by
  obtain ⟨ht, hh, hv, hn, hsum, hpos⟩ := hok
  refine ⟨?_, ?_, ?_, hn, hsum, hpos⟩
  · rw [ht]
    exact (sum_map_congr_mem _ _ _ (fun i hi => by rw [h i hi])).symm
  · rw [hh]
    exact (sum_map_congr_mem _ _ _ (fun i hi => by rw [h i hi])).symm
  · rw [hv]
    exact (sum_map_congr_mem _ _ _ (fun i hi => by rw [h i hi])).symm

theorem levelOk_orderAdded (env : Nat → OrderNode) (o : OrderNode) (l : Level)
    (hok : levelOk env l)
    (henvq : (env o.id).quantity = o.quantity)
    (henvh : (env o.id).hidden = o.hidden)
    (henvv : (env o.id).visible = o.visible)
    (hqv : o.quantity = o.hidden + o.visible) :
    levelOk env (orderAdded o l) := by
  obtain ⟨ht, hh, hv, hn, hsum, hpos⟩ := hok
  refine ⟨?_, ?_, ?_, ?_, ?_, ?_⟩
  · simp only [orderAdded, List.map_append, List.sum_append, List.map_cons,
      List.map_nil, List.sum_cons, List.sum_nil, henvq]
    omega
  · simp only [orderAdded, List.map_append, List.sum_append, List.map_cons,
      List.map_nil, List.sum_cons, List.sum_nil, henvh]
    omega
  · simp only [orderAdded, List.map_append, List.sum_append, List.map_cons,
      List.map_nil, List.sum_cons, List.sum_nil, henvv]
    omega
  · simp only [orderAdded, List.length_append, List.length_cons, List.length_nil]
    omega
  · simp only [orderAdded]
    omega
  · simp only [orderAdded]
    omega

theorem levelOk_freshAdded (env : Nat → OrderNode) (o : OrderNode)
    (henvq : (env o.id).quantity = o.quantity)
    (henvh : (env o.id).hidden = o.hidden)
    (henvv : (env o.id).visible = o.visible)
    (hqv : o.quantity = o.hidden + o.visible)
    (hpos : 0 < o.quantity) :
    levelOk env (orderAdded o (freshLimitLevel o)) := by
  unfold levelOk
  simp only [orderAdded, freshLimitLevel, List.map_append, List.map_cons, List.map_nil,
    List.sum_append, List.sum_cons, List.sum_nil, List.length_append, List.length_cons,
    List.length_nil, List.nil_append, henvq, henvh, henvv]
  refine ⟨by omega, by omega, by omega, trivial, by omega, by omega⟩

/-- Aggregate bookkeeping of the pop path (`ReduceOrder` with the order's own
quantity at zero, and `DeleteOrder`): the order with id `i` is unlinked and
the deltas equal its booked quantities. -/
theorem levelOk_pop (env env2 : Nat → OrderNode) (i q hq vq : Nat) (lvl : Level)
    (hok : levelOk env lvl) (hnd : lvl.orderList.Nodup) (hin : i ∈ lvl.orderList)
    (hq' : (env i).quantity = q) (hh' : (env i).hidden = hq) (hv' : (env i).visible = vq)
    (hqv : q = hq + vq)
    (henv2 : ∀ j ∈ lvl.orderList, j ≠ i → env2 j = env j) :
    (unlinkOrder i (reduceLevel q hq vq lvl)).totalVolume =
      (((unlinkOrder i (reduceLevel q hq vq lvl)).orderList).map
        (fun j => (env2 j).quantity)).sum ∧
    (unlinkOrder i (reduceLevel q hq vq lvl)).hiddenVolume =
      (((unlinkOrder i (reduceLevel q hq vq lvl)).orderList).map
        (fun j => (env2 j).hidden)).sum ∧
    (unlinkOrder i (reduceLevel q hq vq lvl)).visibleVolume =
      (((unlinkOrder i (reduceLevel q hq vq lvl)).orderList).map
        (fun j => (env2 j).visible)).sum ∧
    (unlinkOrder i (reduceLevel q hq vq lvl)).orders =
      ((unlinkOrder i (reduceLevel q hq vq lvl)).orderList).length ∧
    (unlinkOrder i (reduceLevel q hq vq lvl)).totalVolume =
      (unlinkOrder i (reduceLevel q hq vq lvl)).hiddenVolume +
      (unlinkOrder i (reduceLevel q hq vq lvl)).visibleVolume := by
  obtain ⟨ht, hh, hv, hn, hsum, hpos⟩ := hok
  have hcongr : ∀ f : Nat → Nat, (∀ j ∈ lvl.orderList, j ≠ i →
      (fun j => f j) j = (fun j => f j) j) →
      True := fun _ _ => trivial
  have herase : ∀ f g : Nat → Nat, (∀ j, j ∈ lvl.orderList → j ≠ i → g j = f j) →
      ((lvl.orderList.erase i).map g).sum + f i = (lvl.orderList.map f).sum := by
    intro f g hfg
    have h1 : ((lvl.orderList.erase i).map g).sum = ((lvl.orderList.erase i).map f).sum := by
      refine sum_map_congr_mem _ _ _ (fun j hj => ?_)
      have hjmem : j ∈ lvl.orderList := List.mem_of_mem_erase hj
      have hjne : j ≠ i := by
        intro hc
        subst hc
        exact (List.Nodup.not_mem_erase hnd) hj
      exact hfg j hjmem hjne
    rw [h1]
    exact sum_erase_mem lvl.orderList i hin f
  have hqsum : ((lvl.orderList.erase i).map (fun j => (env2 j).quantity)).sum + q =
      lvl.totalVolume := by
    rw [ht, ← hq']
    exact herase _ _ (fun j hj hji => congrArg OrderNode.quantity (henv2 j hj hji))
  have hhsum : ((lvl.orderList.erase i).map (fun j => (env2 j).hidden)).sum + hq =
      lvl.hiddenVolume := by
    rw [hh, ← hh']
    exact herase _ _ (fun j hj hji => congrArg OrderNode.hidden (henv2 j hj hji))
  have hvsum : ((lvl.orderList.erase i).map (fun j => (env2 j).visible)).sum + vq =
      lvl.visibleVolume := by
    rw [hv, ← hv']
    exact herase _ _ (fun j hj hji => congrArg OrderNode.visible (henv2 j hj hji))
  have hlen : (lvl.orderList.erase i).length = lvl.orderList.length - 1 :=
    List.length_erase_of_mem hin
  have hlenpos : 0 < lvl.orderList.length := List.length_pos.mpr (List.ne_nil_of_mem hin)
  simp only [unlinkOrder, reduceLevel]
  refine ⟨by omega, by omega, by omega, by omega, by omega⟩

/-- Aggregate bookkeeping of the partial-reduce path (`ReduceOrder` with the
order's own quantity still positive): the order stays in the queue and the
environment entry for it shrinks by exactly the deltas. -/
theorem levelOk_keep (env env2 : Nat → OrderNode) (i q hq vq : Nat) (lvl : Level)
    (hok : levelOk env lvl) (hnd : lvl.orderList.Nodup) (hin : i ∈ lvl.orderList)
    (hq' : (env i).quantity = (env2 i).quantity + q)
    (hh' : (env i).hidden = (env2 i).hidden + hq)
    (hv' : (env i).visible = (env2 i).visible + vq)
    (hqv : q = hq + vq)
    (hqv2 : (env2 i).quantity = (env2 i).hidden + (env2 i).visible)
    (hpos2 : 0 < (env2 i).quantity)
    (henv2 : ∀ j ∈ lvl.orderList, j ≠ i → env2 j = env j) :
    levelOk env2 (reduceLevel q hq vq lvl) := by
  obtain ⟨ht, hh, hv, hn, hsum, hpos⟩ := hok
  have hqs := sum_update_mem lvl.orderList i hin hnd (fun j => (env j).quantity)
    (fun j => (env2 j).quantity)
    (fun j hj hji => congrArg OrderNode.quantity (henv2 j hj hji))
  have hhs := sum_update_mem lvl.orderList i hin hnd (fun j => (env j).hidden)
    (fun j => (env2 j).hidden)
    (fun j hj hji => congrArg OrderNode.hidden (henv2 j hj hji))
  have hvs := sum_update_mem lvl.orderList i hin hnd (fun j => (env j).visible)
    (fun j => (env2 j).visible)
    (fun j hj hji => congrArg OrderNode.visible (henv2 j hj hji))
  have hqle := mem_le_sum_map lvl.orderList i hin (fun j => (env j).quantity)
  have hhle := mem_le_sum_map lvl.orderList i hin (fun j => (env j).hidden)
  have hvle := mem_le_sum_map lvl.orderList i hin (fun j => (env j).visible)
  simp only [] at hqs hhs hvs hqle hhle hvle
  unfold levelOk
  simp only [reduceLevel]
  refine ⟨by omega, by omega, by omega, hn, by omega, by omega⟩

theorem mem_insertLevel (x : Level) (ls : List Level) (l' : Level) :
    l' ∈ insertLevel x ls ↔ l' = x ∨ l' ∈ ls := by
  induction ls with
  | nil => simp [insertLevel]
  | cons y ys ih =>
      simp only [insertLevel]
      by_cases h : x.price < y.price
      · rw [if_pos h]
        simp [List.mem_cons]
      · rw [if_neg h]
        simp only [List.mem_cons, ih]
        tauto

theorem mem_updateLevelAt (p : Nat) (f : Level → Level) (ls : List Level)
    (hs : List.Pairwise (· < ·) (prices ls)) (l' : Level)
    (h : l' ∈ updateLevelAt p f ls) :
    (∃ lvl, ls.find? (·.price == p) = some lvl ∧ l' = f lvl) ∨
    (l' ∈ ls ∧ l'.price ≠ p) := by
  induction ls with
  | nil => exact absurd h (by simp [updateLevelAt])
  | cons y ys ih =>
      have hy : ∀ z ∈ prices ys, y.price < z := (List.pairwise_cons.mp hs).1
      have hsy : List.Pairwise (· < ·) (prices ys) := (List.pairwise_cons.mp hs).2
      by_cases hyp : (y.price == p) = true
      · have hyp' : y.price = p := beq_iff_eq.mp hyp
        simp only [updateLevelAt, hyp, if_true] at h
        rcases List.mem_cons.mp h with hfy | hmem
        · exact Or.inl ⟨y, by simp [List.find?_cons, hyp], hfy⟩
        · refine Or.inr ⟨List.mem_cons_of_mem y hmem, ?_⟩
          have : y.price < l'.price := hy l'.price (List.mem_map_of_mem _ hmem)
          omega
      · have hypf : (y.price == p) = false := by simpa using hyp
        simp only [updateLevelAt, hypf, Bool.false_eq_true, if_false] at h
        rcases List.mem_cons.mp h with hfy | hmem
        · refine Or.inr ⟨by simp [hfy], ?_⟩
          subst hfy
          simpa using hypf
        · rcases ih hsy hmem with ⟨lvl, hfind, hl'⟩ | ⟨hmem2, hne⟩
          · exact Or.inl ⟨lvl, by simp [List.find?_cons, hypf, hfind], hl'⟩
          · exact Or.inr ⟨List.mem_cons_of_mem y hmem2, hne⟩

theorem mem_eraseLevel (p : Nat) (ls : List Level)
    (hs : List.Pairwise (· < ·) (prices ls)) (hp : p ∈ prices ls) (l' : Level)
    (h : l' ∈ eraseLevel p ls) : l' ∈ ls ∧ l'.price ≠ p := by
  induction ls with
  | nil => exact absurd h (by simp [eraseLevel])
  | cons y ys ih =>
      have hy : ∀ z ∈ prices ys, y.price < z := (List.pairwise_cons.mp hs).1
      have hsy : List.Pairwise (· < ·) (prices ys) := (List.pairwise_cons.mp hs).2
      by_cases hyp : (y.price == p) = true
      · have hyp' : y.price = p := beq_iff_eq.mp hyp
        simp only [eraseLevel, hyp, if_true] at h
        refine ⟨List.mem_cons_of_mem y h, ?_⟩
        have : y.price < l'.price := hy l'.price (List.mem_map_of_mem _ h)
        omega
      · have hypf : (y.price == p) = false := by simpa using hyp
        have hpys : p ∈ prices ys := by
          rcases List.mem_cons.mp hp with hc | hc
          · exact absurd hc.symm (by simpa using hypf)
          · exact hc
        simp only [eraseLevel, hypf, Bool.false_eq_true, if_false] at h
        rcases List.mem_cons.mp h with hfy | hmem
        · refine ⟨by simp [hfy], ?_⟩
          subst hfy
          simpa using hypf
        · rcases ih hsy hpys hmem with ⟨hmem2, hne⟩
          exact ⟨List.mem_cons_of_mem y hmem2, hne⟩

theorem ladderOk_congr (env env2 : Nat → OrderNode) (ls : List Level)
    (h : ∀ l ∈ ls, ∀ i ∈ l.orderList, env2 i = env i)
    (hok : ladderOk env ls) : ladderOk env2 ls :=
  fun l hl => levelOk_congr env env2 l (h l hl) (hok l hl)

theorem mem_allLevels_bids {b : OrderBook} {l : Level} (h : l ∈ b.bids) :
    l ∈ allLevels b := by simp [allLevels, h]

theorem mem_allLevels_asks {b : OrderBook} {l : Level} (h : l ∈ b.asks) :
    l ∈ allLevels b := by simp [allLevels, h]

theorem mem_allLevels_buyStop {b : OrderBook} {l : Level} (h : l ∈ b.buyStop) :
    l ∈ allLevels b := by simp [allLevels, h]

theorem mem_allLevels_sellStop {b : OrderBook} {l : Level} (h : l ∈ b.sellStop) :
    l ∈ allLevels b := by simp [allLevels, h]

theorem addOrder_volInv (env : Nat → OrderNode) (o : OrderNode) (b : OrderBook)
    (u : LevelUpdate) (b' : OrderBook) (o' : OrderNode)
    (hs : BookSorted b) (hvol : VolInv env b)
    (hfresh : ∀ l ∈ allLevels b, o.id ∉ l.orderList)
    (hqv : o.quantity = o.hidden + o.visible) (hpos : 0 < o.quantity)
    (h : AddOrder o b = some (u, b', o')) :
    VolInv (Function.update env o.id o') b' := by
  obtain ⟨ho', htop, hcase⟩ := AddOrder_cases o b u b' o' h
  obtain ⟨hsb, hsa, hsbs, hsss⟩ := hs
  obtain ⟨hvb, hva, hvbs, hvss⟩ := hvol
  have henv2q : ((Function.update env o.id o') o.id).quantity = o.quantity := by
    rw [Function.update_same, ho']
  have henv2h : ((Function.update env o.id o') o.id).hidden = o.hidden := by
    rw [Function.update_same, ho']
  have henv2v : ((Function.update env o.id o') o.id).visible = o.visible := by
    rw [Function.update_same, ho']
  have henv2other : ∀ l ∈ allLevels b, ∀ i ∈ l.orderList,
      (Function.update env o.id o') i = env i := by
    intro l hl i hi
    have hne : i ≠ o.id := fun hc => hfresh l hl (hc ▸ hi)
    exact Function.update_noteq hne _ _
  have hcb : ladderOk (Function.update env o.id o') b.bids :=
    ladderOk_congr env _ _ (fun l hl => henv2other l (mem_allLevels_bids hl)) hvb
  have hca : ladderOk (Function.update env o.id o') b.asks :=
    ladderOk_congr env _ _ (fun l hl => henv2other l (mem_allLevels_asks hl)) hva
  have hcbs : ladderOk (Function.update env o.id o') b.buyStop :=
    ladderOk_congr env _ _ (fun l hl => henv2other l (mem_allLevels_buyStop hl)) hvbs
  have hcss : ladderOk (Function.update env o.id o') b.sellStop :=
    ladderOk_congr env _ _ (fun l hl => henv2other l (mem_allLevels_sellStop hl)) hvss
  have hupdated : ∀ ls : List Level, List.Pairwise (· < ·) (prices ls) →
      ladderOk (Function.update env o.id o') ls →
      ladderOk (Function.update env o.id o') (updateLevelAt o.price (orderAdded o) ls) := by
    intro ls hsort hok l' hl'
    rcases mem_updateLevelAt o.price (orderAdded o) ls hsort l' hl' with
      ⟨lvl1, hfind1, hl'eq⟩ | ⟨hmem, hne⟩
    · subst hl'eq
      exact levelOk_orderAdded _ o lvl1 (hok lvl1 (find_price_some _ _ _ hfind1).2)
        henv2q henv2h henv2v hqv
    · exact hok l' hmem
  have hinserted : ∀ ls : List Level, o.price ∉ prices ls →
      ladderOk (Function.update env o.id o') ls →
      ladderOk (Function.update env o.id o')
        (updateLevelAt o.price (orderAdded o) (insertLevel (freshLimitLevel o) ls)) := by
    intro ls hnin hok
    rw [show updateLevelAt o.price (orderAdded o) (insertLevel (freshLimitLevel o) ls) =
        insertLevel (orderAdded o (freshLimitLevel o)) ls from
      updateLevelAt_insertLevel (freshLimitLevel o) ls (orderAdded o) hnin rfl]
    intro l' hl'
    rcases (mem_insertLevel _ ls l').mp hl' with hl'eq | hmem
    · subst hl'eq
      exact levelOk_freshAdded _ o henv2q henv2h henv2v hqv hpos
    · exact hok l' hmem
  rcases hcase with ⟨lvl, hfound, _, _, hb'⟩ | ⟨hfound, _, _, hbuyimp, hsellimp⟩
  · cases hbuy : o.isBuy with
    | true =>
        rw [hbuy] at hb'
        simp only [reduceIte] at hb'
        subst hb'
        exact ⟨hupdated b.bids hsb hcb, hca, hcbs, hcss⟩
    | false =>
        rw [hbuy] at hb'
        simp only [Bool.false_eq_true, reduceIte] at hb'
        subst hb'
        exact ⟨hcb, hupdated b.asks hsa hca, hcbs, hcss⟩
  · cases hbuy : o.isBuy with
    | true =>
        obtain ⟨hnin, hb'⟩ := hbuyimp hbuy
        subst hb'
        exact ⟨hinserted b.bids hnin hcb, hca, hcbs, hcss⟩
    | false =>
        obtain ⟨hnin, hb'⟩ := hsellimp hbuy
        subst hb'
        exact ⟨hcb, hinserted b.asks hnin hca, hcbs, hcss⟩


theorem reduceOrder_volInv (env : Nat → OrderNode) (o : OrderNode) (q hq vq : Nat)
    (b : OrderBook) (u : LevelUpdate) (b' : OrderBook) (o' : OrderNode)
    (lp : Nat) (lvl : Level)
    (hs : BookSorted b) (hvol : VolInv env b)
    (hlp : o.level = some lp)
    (hfound : (if o.isBuy then GetBid b lp else GetAsk b lp) = some lvl)
    (hin : o.id ∈ lvl.orderList) (hnd : lvl.orderList.Nodup)
    (hbuyside : o.isBuy = true →
      (∀ l ∈ b.bids, o.id ∈ l.orderList → l = lvl) ∧ ∀ l ∈ b.asks, o.id ∉ l.orderList)
    (hsellside : o.isBuy = false →
      (∀ l ∈ b.asks, o.id ∈ l.orderList → l = lvl) ∧ ∀ l ∈ b.bids, o.id ∉ l.orderList)
    (hnostop : ∀ l, (l ∈ b.buyStop ∨ l ∈ b.sellStop) → o.id ∉ l.orderList)
    (henvq : (env o.id).quantity = o.quantity + q)
    (henvh : (env o.id).hidden = o.hidden + hq)
    (henvv : (env o.id).visible = o.visible + vq)
    (hqv : q = hq + vq)
    (hoqv : o.quantity = o.hidden + o.visible)
    (h : ReduceOrder o q hq vq b = some (u, b', o')) :
    VolInv (Function.update env o.id o') b' := by
  obtain ⟨lp', lvl', lvl2, b1, hlp', hfound', hlvl2, hb1, hsnap, hcase⟩ :=
    ReduceOrder_cases o q hq vq b u b' o' h
  rw [hlp] at hlp'
  have hlpeq : lp' = lp := by simpa using hlp'.symm
  rw [hlpeq] at hfound' hb1 hcase
  rw [hfound] at hfound'
  have hlvleq : lvl' = lvl := by simpa using hfound'.symm
  rw [hlvleq] at hlvl2
  obtain ⟨hsb, hsa, hsbs, hsss⟩ := hs
  obtain ⟨hvb, hva, hvbs, hvss⟩ := hvol
  have hlvlfacts : lvl.price = lp ∧ levelOk env lvl := by
    cases hbuy : o.isBuy with
    | true =>
        rw [hbuy] at hfound
        simp only [reduceIte] at hfound
        exact ⟨(find_price_some _ _ _ hfound).1, hvb lvl (find_price_some _ _ _ hfound).2⟩
    | false =>
        rw [hbuy] at hfound
        simp only [Bool.false_eq_true, reduceIte] at hfound
        exact ⟨(find_price_some _ _ _ hfound).1, hva lvl (find_price_some _ _ _ hfound).2⟩
  obtain ⟨hlvlp, hlvlok⟩ := hlvlfacts
  have henv2mem : ∀ j ∈ lvl.orderList, j ≠ o.id →
      (Function.update env o.id o') j = env j :=
    fun j _ hjne => Function.update_noteq hjne _ _
  have ho'q : o'.quantity = o.quantity ∧ o'.hidden = o.hidden ∧ o'.visible = o.visible := by
    rcases hcase with ⟨_, _, _, ho', _⟩ | ⟨_, _, _, ho', _⟩ <;> rw [ho'] <;>
      exact ⟨rfl, rfl, rfl⟩
  have hE2q : ((Function.update env o.id o') o.id).quantity = o.quantity := by
    rw [Function.update_same]
    exact ho'q.1
  have hE2h : ((Function.update env o.id o') o.id).hidden = o.hidden := by
    rw [Function.update_same]
    exact ho'q.2.1
  have hE2v : ((Function.update env o.id o') o.id).visible = o.visible := by
    rw [Function.update_same]
    exact ho'q.2.2
  have hlvl2p : lvl2.price = lp := by
    rw [hlvl2]
    by_cases hq0 : (o.quantity == 0) = true
    · simp [hq0, unlinkOrder_price, reduceLevel_price, hlvlp]
    · have hq0f : (o.quantity == 0) = false := by simpa using hq0
      simp [hq0f, reduceLevel_price, hlvlp]
  have hkeepok : (o.quantity == 0) = false →
      levelOk (Function.update env o.id o') (reduceLevel q hq vq lvl) := by
    intro hq0f
    refine levelOk_keep env (Function.update env o.id o') o.id q hq vq lvl hlvlok hnd hin
      (by rw [hE2q]; omega) (by rw [hE2h]; omega) (by rw [hE2v]; omega) hqv
      (by rw [hE2q, hE2h, hE2v]; exact hoqv) ?_ henv2mem
    rw [hE2q]
    have : o.quantity ≠ 0 := by simpa using hq0f
    omega
  have hpopfive : (o.quantity == 0) = true →
      (unlinkOrder o.id (reduceLevel q hq vq lvl)).totalVolume =
        (((unlinkOrder o.id (reduceLevel q hq vq lvl)).orderList).map
          (fun j => ((Function.update env o.id o') j).quantity)).sum ∧
      (unlinkOrder o.id (reduceLevel q hq vq lvl)).hiddenVolume =
        (((unlinkOrder o.id (reduceLevel q hq vq lvl)).orderList).map
          (fun j => ((Function.update env o.id o') j).hidden)).sum ∧
      (unlinkOrder o.id (reduceLevel q hq vq lvl)).visibleVolume =
        (((unlinkOrder o.id (reduceLevel q hq vq lvl)).orderList).map
          (fun j => ((Function.update env o.id o') j).visible)).sum ∧
      (unlinkOrder o.id (reduceLevel q hq vq lvl)).orders =
        ((unlinkOrder o.id (reduceLevel q hq vq lvl)).orderList).length ∧
      (unlinkOrder o.id (reduceLevel q hq vq lvl)).totalVolume =
        (unlinkOrder o.id (reduceLevel q hq vq lvl)).hiddenVolume +
        (unlinkOrder o.id (reduceLevel q hq vq lvl)).visibleVolume := by
    intro hq0
    have hq0' : o.quantity = 0 := by simpa using hq0
    exact levelOk_pop env (Function.update env o.id o') o.id q hq vq lvl hlvlok hnd hin
      (by omega) (by omega) (by omega) hqv henv2mem
  have hlvl2ok : lvl2.totalVolume ≠ 0 →
      levelOk (Function.update env o.id o') lvl2 := by
    intro hvne
    by_cases hq0 : (o.quantity == 0) = true
    · have hl2 : lvl2 = unlinkOrder o.id (reduceLevel q hq vq lvl) := by
        rw [hlvl2, if_pos hq0]
      obtain ⟨h1, h2, h3, h4, h5⟩ := hpopfive hq0
      rw [hl2]
      rw [hl2] at hvne
      exact ⟨h1, h2, h3, h4, h5, Nat.pos_of_ne_zero hvne⟩
    · have hq0f : (o.quantity == 0) = false := by simpa using hq0
      have hl2 : lvl2 = reduceLevel q hq vq lvl := by
        rw [hlvl2, if_neg (by simp [hq0f])]
      rw [hl2]
      exact hkeepok hq0f
  have hcongrout : ∀ l : Level, o.id ∉ l.orderList → levelOk env l →
      levelOk (Function.update env o.id o') l := by
    intro l hni hok
    refine levelOk_congr env _ l (fun i hi => ?_) hok
    exact Function.update_noteq (fun hc => hni (by rw [← hc]; exact hi)) _ _
  have hstop1 : ladderOk (Function.update env o.id o') b.buyStop :=
    fun l hl => hcongrout l (hnostop l (Or.inl hl)) (hvbs l hl)
  have hstop2 : ladderOk (Function.update env o.id o') b.sellStop :=
    fun l hl => hcongrout l (hnostop l (Or.inr hl)) (hvss l hl)
  have hupd : ∀ ls : List Level, List.Pairwise (· < ·) (prices ls) →
      (∀ l ∈ ls, l.price ≠ lp → levelOk (Function.update env o.id o') l) →
      levelOk (Function.update env o.id o') lvl2 →
      ladderOk (Function.update env o.id o') (updateLevelAt lp (fun _ => lvl2) ls) := by
    intro ls hsort huntouch hok2 l' hl'
    rcases mem_updateLevelAt lp (fun _ => lvl2) ls hsort l' hl' with
      ⟨lvlf, _, hl'eq⟩ | ⟨hmem, hne⟩
    · rw [hl'eq]
      exact hok2
    · exact huntouch l' hmem hne
  have hupddel : ∀ ls : List Level, List.Pairwise (· < ·) (prices ls) →
      (∀ l ∈ ls, l.price ≠ lp → levelOk (Function.update env o.id o') l) →
      lp ∈ prices ls →
      ladderOk (Function.update env o.id o')
        (eraseLevel lp (updateLevelAt lp (fun _ => lvl2) ls)) := by
    intro ls hsort huntouch hlpmem l' hl'
    have hpr : prices (updateLevelAt lp (fun _ => lvl2) ls) = prices ls :=
      prices_updateLevelAt lp _ ls (fun l hl => by rw [hlvl2p])
    have hsort2 : List.Pairwise (· < ·) (prices (updateLevelAt lp (fun _ => lvl2) ls)) := by
      rw [hpr]
      exact hsort
    have hlpmem2 : lp ∈ prices (updateLevelAt lp (fun _ => lvl2) ls) := by
      rw [hpr]
      exact hlpmem
    obtain ⟨hmemu, hneu⟩ := mem_eraseLevel lp _ hsort2 hlpmem2 l' hl'
    rcases mem_updateLevelAt lp (fun _ => lvl2) ls hsort l' hmemu with
      ⟨lvlf, _, hl'eq⟩ | ⟨hmem, hne⟩
    · exact absurd (by rw [hl'eq, hlvl2p]) hneu
    · exact huntouch l' hmem hne
  cases hbuy : o.isBuy with
  | true =>
      obtain ⟨hbown, hbask⟩ := hbuyside hbuy
      rw [hbuy] at hfound hb1
      simp only [reduceIte] at hfound hb1
      have hlpmem : lp ∈ prices b.bids :=
        List.mem_map.mpr ⟨lvl, (find_price_some _ _ _ hfound).2, hlvlp⟩
      have huntouchb : ∀ l ∈ b.bids, l.price ≠ lp →
          levelOk (Function.update env o.id o') l := by
        intro l hl hne
        refine hcongrout l (fun hi => hne ?_) (hvb l hl)
        rw [hbown l hl hi, hlvlp]
      have haskok : ladderOk (Function.update env o.id o') b.asks :=
        fun l hl => hcongrout l (hbask l hl) (hva l hl)
      rcases hcase with ⟨hv0, _, hb', ho', _⟩ | ⟨hvne, _, hb', ho', _⟩
      · rw [DeleteLevel_eq_buy o lp b1 hbuy] at hb'
        subst hb'
        subst hb1
        exact ⟨hupddel b.bids hsb huntouchb hlpmem, haskok, hstop1, hstop2⟩
      · rw [hb']
        subst hb1
        exact ⟨hupd b.bids hsb huntouchb (hlvl2ok hvne), haskok, hstop1, hstop2⟩
  | false =>
      obtain ⟨hsown, hsbid⟩ := hsellside hbuy
      rw [hbuy] at hfound hb1
      simp only [Bool.false_eq_true, reduceIte] at hfound hb1
      have hlpmem : lp ∈ prices b.asks :=
        List.mem_map.mpr ⟨lvl, (find_price_some _ _ _ hfound).2, hlvlp⟩
      have huntoucha : ∀ l ∈ b.asks, l.price ≠ lp →
          levelOk (Function.update env o.id o') l := by
        intro l hl hne
        refine hcongrout l (fun hi => hne ?_) (hva l hl)
        rw [hsown l hl hi, hlvlp]
      have hbidok : ladderOk (Function.update env o.id o') b.bids :=
        fun l hl => hcongrout l (hsbid l hl) (hvb l hl)
      rcases hcase with ⟨hv0, _, hb', ho', _⟩ | ⟨hvne, _, hb', ho', _⟩
      · rw [DeleteLevel_eq_sell o lp b1 hbuy] at hb'
        subst hb'
        subst hb1
        exact ⟨hbidok, hupddel b.asks hsa huntoucha hlpmem, hstop1, hstop2⟩
      · rw [hb']
        subst hb1
        exact ⟨hbidok, hupd b.asks hsa huntoucha (hlvl2ok hvne), hstop1, hstop2⟩

theorem deleteOrder_volInv (env : Nat → OrderNode) (o : OrderNode)
    (b : OrderBook) (u : LevelUpdate) (b' : OrderBook) (o' : OrderNode)
    (lp : Nat) (lvl : Level)
    (hs : BookSorted b) (hvol : VolInv env b)
    (hlp : o.level = some lp)
    (hfound : (if o.isBuy then GetBid b lp else GetAsk b lp) = some lvl)
    (hin : o.id ∈ lvl.orderList) (hnd : lvl.orderList.Nodup)
    (hbuyside : o.isBuy = true →
      (∀ l ∈ b.bids, o.id ∈ l.orderList → l = lvl) ∧ ∀ l ∈ b.asks, o.id ∉ l.orderList)
    (hsellside : o.isBuy = false →
      (∀ l ∈ b.asks, o.id ∈ l.orderList → l = lvl) ∧ ∀ l ∈ b.bids, o.id ∉ l.orderList)
    (hnostop : ∀ l, (l ∈ b.buyStop ∨ l ∈ b.sellStop) → o.id ∉ l.orderList)
    (henvq : (env o.id).quantity = o.quantity)
    (henvh : (env o.id).hidden = o.hidden)
    (henvv : (env o.id).visible = o.visible)
    (hoqv : o.quantity = o.hidden + o.visible)
    (h : DeleteOrder o b = some (u, b', o')) :
    VolInv (Function.update env o.id o') b' := by
  obtain ⟨lp', lvl', lvl1, b1, hlp', hfound', hlvl1, hb1, hsnap, hcase⟩ :=
    DeleteOrder_cases o b u b' o' h
  rw [hlp] at hlp'
  have hlpeq : lp' = lp := by simpa using hlp'.symm
  rw [hlpeq] at hfound' hb1 hcase
  rw [hfound] at hfound'
  have hlvleq : lvl' = lvl := by simpa using hfound'.symm
  rw [hlvleq] at hlvl1
  obtain ⟨hsb, hsa, hsbs, hsss⟩ := hs
  obtain ⟨hvb, hva, hvbs, hvss⟩ := hvol
  have hlvlfacts : lvl.price = lp ∧ levelOk env lvl := by
    cases hbuy : o.isBuy with
    | true =>
        rw [hbuy] at hfound
        simp only [reduceIte] at hfound
        exact ⟨(find_price_some _ _ _ hfound).1, hvb lvl (find_price_some _ _ _ hfound).2⟩
    | false =>
        rw [hbuy] at hfound
        simp only [Bool.false_eq_true, reduceIte] at hfound
        exact ⟨(find_price_some _ _ _ hfound).1, hva lvl (find_price_some _ _ _ hfound).2⟩
  obtain ⟨hlvlp, hlvlok⟩ := hlvlfacts
  have henv2mem : ∀ j ∈ lvl.orderList, j ≠ o.id →
      (Function.update env o.id o') j = env j :=
    fun j _ hjne => Function.update_noteq hjne _ _
  have hlvl1p : lvl1.price = lp := by
    rw [hlvl1, unlinkOrder_price, reduceLevel_price, hlvlp]
  have hpopfive := levelOk_pop env (Function.update env o.id o') o.id
    o.quantity o.hidden o.visible lvl hlvlok hnd hin henvq henvh henvv hoqv henv2mem
  have hlvl1ok : lvl1.totalVolume ≠ 0 →
      levelOk (Function.update env o.id o') lvl1 := by
    intro hvne
    obtain ⟨h1, h2, h3, h4, h5⟩ := hpopfive
    rw [hlvl1]
    rw [hlvl1] at hvne
    exact ⟨h1, h2, h3, h4, h5, Nat.pos_of_ne_zero hvne⟩
  have hcongrout : ∀ l : Level, o.id ∉ l.orderList → levelOk env l →
      levelOk (Function.update env o.id o') l := by
    intro l hni hok
    refine levelOk_congr env _ l (fun i hi => ?_) hok
    exact Function.update_noteq (fun hc => hni (by rw [← hc]; exact hi)) _ _
  have hstop1 : ladderOk (Function.update env o.id o') b.buyStop :=
    fun l hl => hcongrout l (hnostop l (Or.inl hl)) (hvbs l hl)
  have hstop2 : ladderOk (Function.update env o.id o') b.sellStop :=
    fun l hl => hcongrout l (hnostop l (Or.inr hl)) (hvss l hl)
  have hupd : ∀ ls : List Level, List.Pairwise (· < ·) (prices ls) →
      (∀ l ∈ ls, l.price ≠ lp → levelOk (Function.update env o.id o') l) →
      levelOk (Function.update env o.id o') lvl1 →
      ladderOk (Function.update env o.id o') (updateLevelAt lp (fun _ => lvl1) ls) := by
    intro ls hsort huntouch hok1 l' hl'
    rcases mem_updateLevelAt lp (fun _ => lvl1) ls hsort l' hl' with
      ⟨lvlf, _, hl'eq⟩ | ⟨hmem, hne⟩
    · rw [hl'eq]
      exact hok1
    · exact huntouch l' hmem hne
  have hupddel : ∀ ls : List Level, List.Pairwise (· < ·) (prices ls) →
      (∀ l ∈ ls, l.price ≠ lp → levelOk (Function.update env o.id o') l) →
      lp ∈ prices ls →
      ladderOk (Function.update env o.id o')
        (eraseLevel lp (updateLevelAt lp (fun _ => lvl1) ls)) := by
    intro ls hsort huntouch hlpmem l' hl'
    have hpr : prices (updateLevelAt lp (fun _ => lvl1) ls) = prices ls :=
      prices_updateLevelAt lp _ ls (fun l hl => by rw [hlvl1p])
    have hsort2 : List.Pairwise (· < ·) (prices (updateLevelAt lp (fun _ => lvl1) ls)) := by
      rw [hpr]
      exact hsort
    have hlpmem2 : lp ∈ prices (updateLevelAt lp (fun _ => lvl1) ls) := by
      rw [hpr]
      exact hlpmem
    obtain ⟨hmemu, hneu⟩ := mem_eraseLevel lp _ hsort2 hlpmem2 l' hl'
    rcases mem_updateLevelAt lp (fun _ => lvl1) ls hsort l' hmemu with
      ⟨lvlf, _, hl'eq⟩ | ⟨hmem, hne⟩
    · exact absurd (by rw [hl'eq, hlvl1p]) hneu
    · exact huntouch l' hmem hne
  cases hbuy : o.isBuy with
  | true =>
      obtain ⟨hbown, hbask⟩ := hbuyside hbuy
      rw [hbuy] at hfound hb1
      simp only [reduceIte] at hfound hb1
      have hlpmem : lp ∈ prices b.bids :=
        List.mem_map.mpr ⟨lvl, (find_price_some _ _ _ hfound).2, hlvlp⟩
      have huntouchb : ∀ l ∈ b.bids, l.price ≠ lp →
          levelOk (Function.update env o.id o') l := by
        intro l hl hne
        refine hcongrout l (fun hi => hne ?_) (hvb l hl)
        rw [hbown l hl hi, hlvlp]
      have haskok : ladderOk (Function.update env o.id o') b.asks :=
        fun l hl => hcongrout l (hbask l hl) (hva l hl)
      rcases hcase with ⟨hv0, _, hb', ho', _⟩ | ⟨hvne, _, hb', ho', _⟩
      · rw [DeleteLevel_eq_buy o lp b1 hbuy] at hb'
        subst hb'
        subst hb1
        exact ⟨hupddel b.bids hsb huntouchb hlpmem, haskok, hstop1, hstop2⟩
      · rw [hb']
        subst hb1
        exact ⟨hupd b.bids hsb huntouchb (hlvl1ok hvne), haskok, hstop1, hstop2⟩
  | false =>
      obtain ⟨hsown, hsbid⟩ := hsellside hbuy
      rw [hbuy] at hfound hb1
      simp only [Bool.false_eq_true, reduceIte] at hfound hb1
      have hlpmem : lp ∈ prices b.asks :=
        List.mem_map.mpr ⟨lvl, (find_price_some _ _ _ hfound).2, hlvlp⟩
      have huntoucha : ∀ l ∈ b.asks, l.price ≠ lp →
          levelOk (Function.update env o.id o') l := by
        intro l hl hne
        refine hcongrout l (fun hi => hne ?_) (hva l hl)
        rw [hsown l hl hi, hlvlp]
      have hbidok : ladderOk (Function.update env o.id o') b.bids :=
        fun l hl => hcongrout l (hsbid l hl) (hvb l hl)
      rcases hcase with ⟨hv0, _, hb', ho', _⟩ | ⟨hvne, _, hb', ho', _⟩
      · rw [DeleteLevel_eq_sell o lp b1 hbuy] at hb'
        subst hb'
        subst hb1
        exact ⟨hbidok, hupddel b.asks hsa huntoucha hlpmem, hstop1, hstop2⟩
      · rw [hb']
        subst hb1
        exact ⟨hbidok, hupd b.asks hsa huntoucha (hlvl1ok hvne), hstop1, hstop2⟩

theorem addStopOrder_volInv (env : Nat → OrderNode) (o : OrderNode) (b : OrderBook)
    (b' : OrderBook) (o' : OrderNode)
    (hs : BookSorted b) (hvol : VolInv env b)
    (hfresh : ∀ l ∈ allLevels b, o.id ∉ l.orderList)
    (hqv : o.quantity = o.hidden + o.visible) (hpos : 0 < o.quantity)
    (h : AddStopOrder o b = some (b', o')) :
    VolInv (Function.update env o.id o') b' := by
  obtain ⟨ho', hcase⟩ := AddStopOrder_cases o b b' o' h
  obtain ⟨hsb, hsa, hsbs, hsss⟩ := hs
  obtain ⟨hvb, hva, hvbs, hvss⟩ := hvol
  have henv2q : ((Function.update env o.id o') o.id).quantity = o.quantity := by
    rw [Function.update_same, ho']
  have henv2h : ((Function.update env o.id o') o.id).hidden = o.hidden := by
    rw [Function.update_same, ho']
  have henv2v : ((Function.update env o.id o') o.id).visible = o.visible := by
    rw [Function.update_same, ho']
  have henv2other : ∀ l ∈ allLevels b, ∀ i ∈ l.orderList,
      (Function.update env o.id o') i = env i := by
    intro l hl i hi
    have hne : i ≠ o.id := fun hc => hfresh l hl (hc ▸ hi)
    exact Function.update_noteq hne _ _
  have hcb : ladderOk (Function.update env o.id o') b.bids :=
    ladderOk_congr env _ _ (fun l hl => henv2other l (mem_allLevels_bids hl)) hvb
  have hca : ladderOk (Function.update env o.id o') b.asks :=
    ladderOk_congr env _ _ (fun l hl => henv2other l (mem_allLevels_asks hl)) hva
  have hcbs : ladderOk (Function.update env o.id o') b.buyStop :=
    ladderOk_congr env _ _ (fun l hl => henv2other l (mem_allLevels_buyStop hl)) hvbs
  have hcss : ladderOk (Function.update env o.id o') b.sellStop :=
    ladderOk_congr env _ _ (fun l hl => henv2other l (mem_allLevels_sellStop hl)) hvss
  have hupdated : ∀ ls : List Level, List.Pairwise (· < ·) (prices ls) →
      ladderOk (Function.update env o.id o') ls →
      ladderOk (Function.update env o.id o') (updateLevelAt o.price (orderAdded o) ls) := by
    intro ls hsort hok l' hl'
    rcases mem_updateLevelAt o.price (orderAdded o) ls hsort l' hl' with
      ⟨lvl1, hfind1, hl'eq⟩ | ⟨hmem, hne⟩
    · subst hl'eq
      exact levelOk_orderAdded _ o lvl1 (hok lvl1 (find_price_some _ _ _ hfind1).2)
        henv2q henv2h henv2v hqv
    · exact hok l' hmem
  have hinserted : ∀ ls : List Level, o.price ∉ prices ls →
      ladderOk (Function.update env o.id o') ls →
      ladderOk (Function.update env o.id o')
        (updateLevelAt o.price (orderAdded o) (insertLevel (freshLimitLevel o) ls)) := by
    intro ls hnin hok
    rw [show updateLevelAt o.price (orderAdded o) (insertLevel (freshLimitLevel o) ls) =
        insertLevel (orderAdded o (freshLimitLevel o)) ls from
      updateLevelAt_insertLevel (freshLimitLevel o) ls (orderAdded o) hnin rfl]
    intro l' hl'
    rcases (mem_insertLevel _ ls l').mp hl' with hl'eq | hmem
    · subst hl'eq
      exact levelOk_freshAdded _ o henv2q henv2h henv2v hqv hpos
    · exact hok l' hmem
  rcases hcase with ⟨lvl, hfound, hb'⟩ | ⟨hfound, hbuyimp, hsellimp⟩
  · cases hbuy : o.isBuy with
    | true =>
        rw [hbuy] at hb'
        simp only [reduceIte] at hb'
        subst hb'
        exact ⟨hcb, hca, hupdated b.buyStop hsbs hcbs, hcss⟩
    | false =>
        rw [hbuy] at hb'
        simp only [Bool.false_eq_true, reduceIte] at hb'
        subst hb'
        exact ⟨hcb, hca, hcbs, hupdated b.sellStop hsss hcss⟩
  · cases hbuy : o.isBuy with
    | true =>
        obtain ⟨hnin, hb'⟩ := hbuyimp hbuy
        subst hb'
        exact ⟨hinserted b.bids hnin hcb, hca, hcbs, hcss⟩
    | false =>
        obtain ⟨hnin, hb'⟩ := hsellimp hbuy
        subst hb'
        exact ⟨hcb, hinserted b.asks hnin hca, hcbs, hcss⟩

/-!
Computation lemmas: the value of an operation under branch hypotheses.
-/

theorem sorted_le_getLast (ks : List Nat) (hs : List.Pairwise (· < ·) ks) (m : Nat)
    (hm : ks.getLast? = some m) : ∀ x ∈ ks, x ≤ m := by
  intro x hx
  have hne : ks ≠ [] := List.ne_nil_of_mem hx
  have hdecomp : ks.dropLast ++ [ks.getLast hne] = ks := List.dropLast_append_getLast hne
  have hmlast : ks.getLast hne = m := by
    have := List.getLast?_eq_getLast ks hne
    rw [this] at hm
    simpa using hm
  rw [hmlast] at hdecomp
  have hx2 : x ∈ ks.dropLast ++ [m] := by rw [hdecomp]; exact hx
  rcases List.mem_append.mp hx2 with hx3 | hx3
  · have hpw : List.Pairwise (· < ·) (ks.dropLast ++ [m]) := by rw [hdecomp]; exact hs
    rcases List.pairwise_append.mp hpw with ⟨_, _, hrel⟩
    have := hrel x hx3 m (by simp)
    omega
  · have : x = m := by simpa using hx3
    omega

theorem sorted_ge_head (ks : List Nat) (hs : List.Pairwise (· < ·) ks) (m : Nat)
    (hm : ks.head? = some m) : ∀ x ∈ ks, m ≤ x := by
  intro x hx
  cases ks with
  | nil => exact absurd hx (by simp)
  | cons y ys =>
      have hy : y = m := by simpa using hm
      subst hy
      rcases List.mem_cons.mp hx with hx2 | hx2
      · omega
      · have := (List.pairwise_cons.mp hs).1 x hx2
        omega

theorem filter_insertLevel (x : Level) (ls : List Level) (pred : Level → Bool)
    (hx : pred x = false) : (insertLevel x ls).filter pred = ls.filter pred := by
  induction ls with
  | nil => simp [insertLevel, List.filter, hx]
  | cons y ys ih =>
      simp only [insertLevel]
      by_cases h : x.price < y.price
      · rw [if_pos h]
        simp [List.filter_cons, hx]
      · rw [if_neg h]
        simp [List.filter_cons, ih]

theorem maxPrice_none_iff (ls : List Level) : maxPrice ls = none ↔ ls = [] := by
  rw [maxPrice, List.getLast?_eq_none_iff]
  simp [prices]

theorem minPrice_none_iff (ls : List Level) : minPrice ls = none ↔ ls = [] := by
  rw [minPrice]
  cases ls <;> simp [prices]

theorem AddOrder_run_buy_update (o : OrderNode) (b : OrderBook) (lvl : Level)
    (hbuy : o.isBuy = true) (hfound : GetBid b o.price = some lvl) :
    AddOrder o b = some
      (⟨UpdateType.UPDATE, orderAdded o lvl, some o.price == b.bestBid⟩,
       { b with bids := updateLevelAt o.price (orderAdded o) b.bids },
       { o with level := some o.price }) := by
  unfold AddOrder
  rw [hbuy]
  simp only [reduceIte]
  rw [hfound]
  rfl

theorem AddOrder_run_sell_update (o : OrderNode) (b : OrderBook) (lvl : Level)
    (hbuy : o.isBuy = false) (hfound : GetAsk b o.price = some lvl) :
    AddOrder o b = some
      (⟨UpdateType.UPDATE, orderAdded o lvl, some o.price == b.bestAsk⟩,
       { b with asks := updateLevelAt o.price (orderAdded o) b.asks },
       { o with level := some o.price }) := by
  unfold AddOrder
  rw [hbuy]
  simp only [Bool.false_eq_true, reduceIte]
  rw [hfound]
  rfl

theorem AddOrder_run_buy_add (o : OrderNode) (b : OrderBook)
    (hbuy : o.isBuy = true) (hfound : GetBid b o.price = none) :
    AddOrder o b = some
      (⟨UpdateType.ADD, orderAdded o (freshLimitLevel o),
        some o.price ==
          (match b.bestBid with
           | none => some o.price
           | some bp => if bp < o.price then some o.price else some bp)⟩,
       { b with
           bids := updateLevelAt o.price (orderAdded o)
             (insertLevel (freshLimitLevel o) b.bids)
           bestBid :=
             match b.bestBid with
             | none => some o.price
             | some bp => if bp < o.price then some o.price else some bp },
       { o with level := some o.price }) := by
  have hnin : o.price ∉ prices b.bids :=
    (find_price_none b.bids o.price).mp (by simpa [GetBid] using hfound)
  unfold AddOrder
  rw [hbuy]
  simp only [reduceIte]
  rw [hfound, AddLevel_eq_buy o b hbuy hnin]
  rfl

theorem AddOrder_run_sell_add (o : OrderNode) (b : OrderBook)
    (hbuy : o.isBuy = false) (hfound : GetAsk b o.price = none) :
    AddOrder o b = some
      (⟨UpdateType.ADD, orderAdded o (freshLimitLevel o),
        some o.price ==
          (match b.bestAsk with
           | none => some o.price
           | some ap => if o.price < ap then some o.price else some ap)⟩,
       { b with
           asks := updateLevelAt o.price (orderAdded o)
             (insertLevel (freshLimitLevel o) b.asks)
           bestAsk :=
             match b.bestAsk with
             | none => some o.price
             | some ap => if o.price < ap then some o.price else some ap },
       { o with level := some o.price }) := by
  have hnin : o.price ∉ prices b.asks :=
    (find_price_none b.asks o.price).mp (by simpa [GetAsk] using hfound)
  unfold AddOrder
  rw [hbuy]
  simp only [Bool.false_eq_true, reduceIte]
  rw [hfound, AddLevel_eq_sell o b hbuy hnin]
  rfl

theorem DeleteOrder_run_buy_del (o : OrderNode) (b : OrderBook) (lp : Nat) (lvl : Level)
    (hbuy : o.isBuy = true) (hlp : o.level = some lp) (hfound : GetBid b lp = some lvl)
    (hvol : (unlinkOrder o.id (reduceLevel o.quantity o.hidden o.visible lvl)).totalVolume
      = 0) :
    DeleteOrder o b = some
      (⟨UpdateType.DELETE,
        unlinkOrder o.id (reduceLevel o.quantity o.hidden o.visible lvl),
        (none : Option Nat) ==
          (DeleteLevel o lp
            { b with
                bids := updateLevelAt lp
                  (fun _ => unlinkOrder o.id
                    (reduceLevel o.quantity o.hidden o.visible lvl)) b.bids }).bestBid⟩,
       DeleteLevel o lp
         { b with
             bids := updateLevelAt lp
               (fun _ => unlinkOrder o.id
                 (reduceLevel o.quantity o.hidden o.visible lvl)) b.bids },
       { o with level := none }) := by
  have hc : ((unlinkOrder o.id
      (reduceLevel o.quantity o.hidden o.visible lvl)).totalVolume == 0) = true :=
    beq_iff_eq.mpr hvol
  unfold DeleteOrder
  rw [hlp, hbuy]
  dsimp only
  simp only [reduceIte]
  rw [hfound]
  dsimp only
  simp only [hc, reduceIte]
  rfl

theorem DeleteOrder_run_buy_upd (o : OrderNode) (b : OrderBook) (lp : Nat) (lvl : Level)
    (hbuy : o.isBuy = true) (hlp : o.level = some lp) (hfound : GetBid b lp = some lvl)
    (hvol : (unlinkOrder o.id (reduceLevel o.quantity o.hidden o.visible lvl)).totalVolume
      ≠ 0) :
    DeleteOrder o b = some
      (⟨UpdateType.UPDATE,
        unlinkOrder o.id (reduceLevel o.quantity o.hidden o.visible lvl),
        some lp == b.bestBid⟩,
       { b with
           bids := updateLevelAt lp
             (fun _ => unlinkOrder o.id
               (reduceLevel o.quantity o.hidden o.visible lvl)) b.bids },
       o) := by
  have hc : ((unlinkOrder o.id
      (reduceLevel o.quantity o.hidden o.visible lvl)).totalVolume == 0) = false := by
    simpa using hvol
  unfold DeleteOrder
  rw [hlp, hbuy]
  dsimp only
  simp only [reduceIte]
  rw [hfound]
  dsimp only
  simp only [hc, Bool.false_eq_true, reduceIte]
  rfl

theorem DeleteOrder_run_sell_del (o : OrderNode) (b : OrderBook) (lp : Nat) (lvl : Level)
    (hbuy : o.isBuy = false) (hlp : o.level = some lp) (hfound : GetAsk b lp = some lvl)
    (hvol : (unlinkOrder o.id (reduceLevel o.quantity o.hidden o.visible lvl)).totalVolume
      = 0) :
    DeleteOrder o b = some
      (⟨UpdateType.DELETE,
        unlinkOrder o.id (reduceLevel o.quantity o.hidden o.visible lvl),
        (none : Option Nat) ==
          (DeleteLevel o lp
            { b with
                asks := updateLevelAt lp
                  (fun _ => unlinkOrder o.id
                    (reduceLevel o.quantity o.hidden o.visible lvl)) b.asks }).bestAsk⟩,
       DeleteLevel o lp
         { b with
             asks := updateLevelAt lp
               (fun _ => unlinkOrder o.id
                 (reduceLevel o.quantity o.hidden o.visible lvl)) b.asks },
       { o with level := none }) := by
  have hc : ((unlinkOrder o.id
      (reduceLevel o.quantity o.hidden o.visible lvl)).totalVolume == 0) = true :=
    beq_iff_eq.mpr hvol
  unfold DeleteOrder
  rw [hlp, hbuy]
  dsimp only
  simp only [Bool.false_eq_true, reduceIte]
  rw [hfound]
  dsimp only
  simp only [hc, reduceIte]
  rfl

theorem DeleteOrder_run_sell_upd (o : OrderNode) (b : OrderBook) (lp : Nat) (lvl : Level)
    (hbuy : o.isBuy = false) (hlp : o.level = some lp) (hfound : GetAsk b lp = some lvl)
    (hvol : (unlinkOrder o.id (reduceLevel o.quantity o.hidden o.visible lvl)).totalVolume
      ≠ 0) :
    DeleteOrder o b = some
      (⟨UpdateType.UPDATE,
        unlinkOrder o.id (reduceLevel o.quantity o.hidden o.visible lvl),
        some lp == b.bestAsk⟩,
       { b with
           asks := updateLevelAt lp
             (fun _ => unlinkOrder o.id
               (reduceLevel o.quantity o.hidden o.visible lvl)) b.asks },
       o) := by
  have hc : ((unlinkOrder o.id
      (reduceLevel o.quantity o.hidden o.visible lvl)).totalVolume == 0) = false := by
    simpa using hvol
  unfold DeleteOrder
  rw [hlp, hbuy]
  dsimp only
  simp only [Bool.false_eq_true, reduceIte]
  rw [hfound]
  dsimp only
  simp only [hc, Bool.false_eq_true, reduceIte]
  rfl

theorem OrderBook_eq (x y : OrderBook) (h1 : x.bids = y.bids) (h2 : x.asks = y.asks)
    (h3 : x.buyStop = y.buyStop) (h4 : x.sellStop = y.sellStop)
    (h5 : x.bestBid = y.bestBid) (h6 : x.bestAsk = y.bestAsk) : x = y := by
  cases x
  cases y
  dsimp at h1 h2 h3 h4 h5 h6
  rw [h1, h2, h3, h4, h5, h6]

/-- Removing an order immediately after adding it restores the level. -/
theorem roundtrip_level (o : OrderNode) (lvl : Level) (hfresh : o.id ∉ lvl.orderList) :
    unlinkOrder o.id (reduceLevel o.quantity o.hidden o.visible (orderAdded o lvl)) =
      lvl := by
  cases lvl with
  | mk t p tv hv vv n ol =>
      simp only [unlinkOrder, reduceLevel, orderAdded]
      simp only [List.erase_append_right _ (by simpa using hfresh), List.erase_cons_head,
        List.append_nil]
      simp only [Nat.add_sub_cancel]

theorem roundtrip_zero (o : OrderNode) :
    (unlinkOrder o.id (reduceLevel o.quantity o.hidden o.visible
      (orderAdded o (freshLimitLevel o)))).totalVolume = 0 := by
  simp [unlinkOrder, reduceLevel, orderAdded, freshLimitLevel]

theorem roundtrip_dead_price (o : OrderNode) :
    (unlinkOrder o.id (reduceLevel o.quantity o.hidden o.visible
      (orderAdded o (freshLimitLevel o)))).price = o.price := rfl

/-- Erasing the freshly promoted best bid restores the previous best bid. -/
theorem bestBid_restore (b : OrderBook) (p : Nat) (lvl1 : Level) (hlvl1p : lvl1.price = p)
    (hs : sortedLadder b.bids) (hbest : b.bestBid = maxPrice b.bids)
    (hnin : p ∉ prices b.bids) :
    (if (match b.bestBid with
         | none => some p
         | some bp => if bp < p then some p else some bp) == some p then
      nextLowerPrice (insertLevel lvl1 b.bids) p
     else
      (match b.bestBid with
       | none => some p
       | some bp => if bp < p then some p else some bp)) = b.bestBid := by
  have hfi : nextLowerPrice (insertLevel lvl1 b.bids) p = nextLowerPrice b.bids p := by
    unfold nextLowerPrice
    rw [filter_insertLevel lvl1 b.bids _ (by simp [hlvl1p])]
  cases hbb : b.bestBid with
  | none =>
      have hbids : b.bids = [] := by
        rw [hbb] at hbest
        exact (maxPrice_none_iff b.bids).mp hbest.symm
      rw [hbids]
      simp [nextLowerPrice, insertLevel, List.filter, hlvl1p]
  | some m =>
      have hm : maxPrice b.bids = some m := by rw [← hbb, hbest]
      have hm' : (prices b.bids).getLast? = some m := hm
      have hmmem : m ∈ prices b.bids := List.mem_of_mem_getLast? (by simp [hm'])
      have hmne : m ≠ p := fun hc => hnin (hc ▸ hmmem)
      by_cases hmp : m < p
      · have hcond : ((if m < p then some p else some m) == some p) = true := by
          simp [hmp]
        simp only [hcond, reduceIte, hfi]
        have hall : ∀ l ∈ b.bids, l.price < p := by
          intro l hl
          have := sorted_le_getLast (prices b.bids) hs m hm' l.price
            (List.mem_map_of_mem _ hl)
          omega
        unfold nextLowerPrice
        rw [List.filter_eq_self.mpr (fun l hl => by simpa using hall l hl)]
        have hlast : (b.bids.getLast?).map (·.price) = some m := by
          rw [← List.getLast?_map]
          exact hm'
        exact hlast
      · have hcond : ((if m < p then some p else some m) == some p) = false := by
          simp [hmp, hmne]
        simp only [hcond, Bool.false_eq_true, reduceIte]
        simp [hmp]

/-- Erasing the freshly promoted best ask restores the previous best ask. -/
theorem bestAsk_restore (b : OrderBook) (p : Nat) (lvl1 : Level) (hlvl1p : lvl1.price = p)
    (hs : sortedLadder b.asks) (hbest : b.bestAsk = minPrice b.asks)
    (hnin : p ∉ prices b.asks) :
    (if (match b.bestAsk with
         | none => some p
         | some ap => if p < ap then some p else some ap) == some p then
      nextHigherPrice (insertLevel lvl1 b.asks) p
     else
      (match b.bestAsk with
       | none => some p
       | some ap => if p < ap then some p else some ap)) = b.bestAsk := by
  have hfi : nextHigherPrice (insertLevel lvl1 b.asks) p = nextHigherPrice b.asks p := by
    unfold nextHigherPrice
    rw [filter_insertLevel lvl1 b.asks _ (by simp [hlvl1p])]
  cases hbb : b.bestAsk with
  | none =>
      have hasks : b.asks = [] := by
        rw [hbb] at hbest
        exact (minPrice_none_iff b.asks).mp hbest.symm
      rw [hasks]
      simp [nextHigherPrice, insertLevel, List.filter, hlvl1p]
  | some m =>
      have hm : minPrice b.asks = some m := by rw [← hbb, hbest]
      have hm' : (prices b.asks).head? = some m := hm
      have hmmem : m ∈ prices b.asks := List.mem_of_mem_head? (by simp [hm'])
      have hmne : m ≠ p := fun hc => hnin (hc ▸ hmmem)
      by_cases hmp : p < m
      · have hcond : ((if p < m then some p else some m) == some p) = true := by
          simp [hmp]
        simp only [hcond, reduceIte, hfi]
        have hall : ∀ l ∈ b.asks, p < l.price := by
          intro l hl
          have := sorted_ge_head (prices b.asks) hs m hm' l.price
            (List.mem_map_of_mem _ hl)
          omega
        unfold nextHigherPrice
        rw [List.filter_eq_self.mpr (fun l hl => by simpa using hall l hl)]
        have hhead : (b.asks.head?).map (·.price) = some m := by
          rw [← List.head?_map]
          exact hm'
        exact hhead
      · have hcond : ((if p < m then some p else some m) == some p) = false := by
          simp [hmp, hmne]
        simp only [hcond, Bool.false_eq_true, reduceIte]
        simp [hmp]

theorem add_delete_restores (o : OrderNode) (b : OrderBook)
    (hs : BookSorted b) (hbest : BestOK b)
    (hpos : ∀ l, (l ∈ b.bids ∨ l ∈ b.asks) → 0 < l.totalVolume)
    (hfresh : ∀ l, (l ∈ b.bids ∨ l ∈ b.asks) → o.id ∉ l.orderList) :
    ∃ u1 b1 o1 u2 b2 o2,
      AddOrder o b = some (u1, b1, o1) ∧ DeleteOrder o1 b1 = some (u2, b2, o2) ∧
      b2 = b := by
  obtain ⟨hsb, hsa, hsbs, hsss⟩ := hs
  obtain ⟨hmaxb, hmina⟩ := hbest
  cases hbuy : o.isBuy with
  | true =>
      cases hfound : GetBid b o.price with
      | some lvl =>
          have hAdd := AddOrder_run_buy_update o b lvl hbuy hfound
          have hlvlmem : lvl ∈ b.bids := (find_price_some _ _ _ hfound).2
          have hlvlp : lvl.price = o.price := (find_price_some _ _ _ hfound).1
          have hfr : o.id ∉ lvl.orderList := hfresh lvl (Or.inl hlvlmem)
          have hlvl1eq : unlinkOrder o.id
              (reduceLevel o.quantity o.hidden o.visible (orderAdded o lvl)) = lvl :=
            roundtrip_level o lvl hfr
          have hfound1 : GetBid
              { b with bids := updateLevelAt o.price (orderAdded o) b.bids } o.price =
              some (orderAdded o lvl) := by
            show (updateLevelAt o.price (orderAdded o) b.bids).find? (·.price == o.price) =
              some (orderAdded o lvl)
            rw [find_updateLevelAt o.price (orderAdded o) b.bids
              (fun l hl => by rw [orderAdded_price, hl])]
            rw [show b.bids.find? (·.price == o.price) = some lvl from hfound]
            rfl
          have hvol1 : (unlinkOrder o.id (reduceLevel o.quantity o.hidden o.visible
              (orderAdded o lvl))).totalVolume ≠ 0 := by
            rw [hlvl1eq]
            exact (hpos lvl (Or.inl hlvlmem)).ne'
          have hDel := DeleteOrder_run_buy_upd { o with level := some o.price }
            { b with bids := updateLevelAt o.price (orderAdded o) b.bids }
            o.price (orderAdded o lvl) hbuy rfl hfound1 hvol1
          refine ⟨_, _, _, _, _, _, hAdd, hDel, ?_⟩
          dsimp only
          refine OrderBook_eq _ _ ?_ rfl rfl rfl rfl rfl
          dsimp only
          rw [hlvl1eq]
          rw [updateLevelAt_updateLevelAt o.price (orderAdded o) (fun _ => lvl) b.bids
            (fun l hl => by rw [orderAdded_price, hl])]
          exact updateLevelAt_const_self o.price b.bids lvl hfound
      | none =>
          have hAdd := AddOrder_run_buy_add o b hbuy hfound
          have hnin : o.price ∉ prices b.bids :=
            (find_price_none b.bids o.price).mp (by simpa [GetBid] using hfound)
          have hfound1 : GetBid
              { b with
                  bids := updateLevelAt o.price (orderAdded o)
                    (insertLevel (freshLimitLevel o) b.bids)
                  bestBid :=
                    match b.bestBid with
                    | none => some o.price
                    | some bp => if bp < o.price then some o.price else some bp } o.price =
              some (orderAdded o (freshLimitLevel o)) := by
            show (updateLevelAt o.price (orderAdded o)
                (insertLevel (freshLimitLevel o) b.bids)).find? (·.price == o.price) =
              some (orderAdded o (freshLimitLevel o))
            rw [show updateLevelAt o.price (orderAdded o)
                (insertLevel (freshLimitLevel o) b.bids) =
                insertLevel (orderAdded o (freshLimitLevel o)) b.bids from
              updateLevelAt_insertLevel (freshLimitLevel o) b.bids (orderAdded o) hnin rfl]
            exact find_insertLevel (orderAdded o (freshLimitLevel o)) b.bids hnin
          have hvol0 : (unlinkOrder o.id (reduceLevel o.quantity o.hidden o.visible
              (orderAdded o (freshLimitLevel o)))).totalVolume = 0 := roundtrip_zero o
          have hDel := DeleteOrder_run_buy_del { o with level := some o.price }
            { b with
                bids := updateLevelAt o.price (orderAdded o)
                  (insertLevel (freshLimitLevel o) b.bids)
                bestBid :=
                  match b.bestBid with
                  | none => some o.price
                  | some bp => if bp < o.price then some o.price else some bp }
            o.price (orderAdded o (freshLimitLevel o)) hbuy rfl hfound1 hvol0
          refine ⟨_, _, _, _, _, _, hAdd, hDel, ?_⟩
          rw [DeleteLevel_eq_buy { o with level := some o.price } _ _
            (show ({ o with level := some o.price } : OrderNode).isBuy = true from hbuy)]
          dsimp only
          have hbids2 : updateLevelAt o.price
              (fun _ => unlinkOrder o.id (reduceLevel o.quantity o.hidden o.visible
                (orderAdded o (freshLimitLevel o))))
              (updateLevelAt o.price (orderAdded o)
                (insertLevel (freshLimitLevel o) b.bids)) =
              insertLevel (unlinkOrder o.id (reduceLevel o.quantity o.hidden o.visible
                (orderAdded o (freshLimitLevel o)))) b.bids := by
            rw [updateLevelAt_updateLevelAt o.price (orderAdded o) _ _
              (fun l hl => by rw [orderAdded_price, hl])]
            exact updateLevelAt_insertLevel (freshLimitLevel o) b.bids _ hnin
              (roundtrip_dead_price o)
          rw [hbids2]
          refine OrderBook_eq _ _ ?_ rfl rfl rfl ?_ rfl
          · dsimp only
            have := eraseLevel_insertLevel (unlinkOrder o.id
              (reduceLevel o.quantity o.hidden o.visible
                (orderAdded o (freshLimitLevel o)))) b.bids
              (by rw [roundtrip_dead_price]; exact hnin)
            rw [roundtrip_dead_price] at this
            exact this
          · dsimp only
            exact bestBid_restore b o.price _ (roundtrip_dead_price o) hsb hmaxb hnin
  | false =>
      cases hfound : GetAsk b o.price with
      | some lvl =>
          have hAdd := AddOrder_run_sell_update o b lvl hbuy hfound
          have hlvlmem : lvl ∈ b.asks := (find_price_some _ _ _ hfound).2
          have hfr : o.id ∉ lvl.orderList := hfresh lvl (Or.inr hlvlmem)
          have hlvl1eq : unlinkOrder o.id
              (reduceLevel o.quantity o.hidden o.visible (orderAdded o lvl)) = lvl :=
            roundtrip_level o lvl hfr
          have hfound1 : GetAsk
              { b with asks := updateLevelAt o.price (orderAdded o) b.asks } o.price =
              some (orderAdded o lvl) := by
            show (updateLevelAt o.price (orderAdded o) b.asks).find? (·.price == o.price) =
              some (orderAdded o lvl)
            rw [find_updateLevelAt o.price (orderAdded o) b.asks
              (fun l hl => by rw [orderAdded_price, hl])]
            rw [show b.asks.find? (·.price == o.price) = some lvl from hfound]
            rfl
          have hvol1 : (unlinkOrder o.id (reduceLevel o.quantity o.hidden o.visible
              (orderAdded o lvl))).totalVolume ≠ 0 := by
            rw [hlvl1eq]
            exact (hpos lvl (Or.inr hlvlmem)).ne'
          have hDel := DeleteOrder_run_sell_upd { o with level := some o.price }
            { b with asks := updateLevelAt o.price (orderAdded o) b.asks }
            o.price (orderAdded o lvl) hbuy rfl hfound1 hvol1
          refine ⟨_, _, _, _, _, _, hAdd, hDel, ?_⟩
          dsimp only
          refine OrderBook_eq _ _ rfl ?_ rfl rfl rfl rfl
          dsimp only
          rw [hlvl1eq]
          rw [updateLevelAt_updateLevelAt o.price (orderAdded o) (fun _ => lvl) b.asks
            (fun l hl => by rw [orderAdded_price, hl])]
          exact updateLevelAt_const_self o.price b.asks lvl hfound
      | none =>
          have hAdd := AddOrder_run_sell_add o b hbuy hfound
          have hnin : o.price ∉ prices b.asks :=
            (find_price_none b.asks o.price).mp (by simpa [GetAsk] using hfound)
          have hfound1 : GetAsk
              { b with
                  asks := updateLevelAt o.price (orderAdded o)
                    (insertLevel (freshLimitLevel o) b.asks)
                  bestAsk :=
                    match b.bestAsk with
                    | none => some o.price
                    | some ap => if o.price < ap then some o.price else some ap } o.price =
              some (orderAdded o (freshLimitLevel o)) := by
            show (updateLevelAt o.price (orderAdded o)
                (insertLevel (freshLimitLevel o) b.asks)).find? (·.price == o.price) =
              some (orderAdded o (freshLimitLevel o))
            rw [show updateLevelAt o.price (orderAdded o)
                (insertLevel (freshLimitLevel o) b.asks) =
                insertLevel (orderAdded o (freshLimitLevel o)) b.asks from
              updateLevelAt_insertLevel (freshLimitLevel o) b.asks (orderAdded o) hnin rfl]
            exact find_insertLevel (orderAdded o (freshLimitLevel o)) b.asks hnin
          have hvol0 : (unlinkOrder o.id (reduceLevel o.quantity o.hidden o.visible
              (orderAdded o (freshLimitLevel o)))).totalVolume = 0 := roundtrip_zero o
          have hDel := DeleteOrder_run_sell_del { o with level := some o.price }
            { b with
                asks := updateLevelAt o.price (orderAdded o)
                  (insertLevel (freshLimitLevel o) b.asks)
                bestAsk :=
                  match b.bestAsk with
                  | none => some o.price
                  | some ap => if o.price < ap then some o.price else some ap }
            o.price (orderAdded o (freshLimitLevel o)) hbuy rfl hfound1 hvol0
          refine ⟨_, _, _, _, _, _, hAdd, hDel, ?_⟩
          rw [DeleteLevel_eq_sell { o with level := some o.price } _ _
            (show ({ o with level := some o.price } : OrderNode).isBuy = false from hbuy)]
          dsimp only
          have hasks2 : updateLevelAt o.price
              (fun _ => unlinkOrder o.id (reduceLevel o.quantity o.hidden o.visible
                (orderAdded o (freshLimitLevel o))))
              (updateLevelAt o.price (orderAdded o)
                (insertLevel (freshLimitLevel o) b.asks)) =
              insertLevel (unlinkOrder o.id (reduceLevel o.quantity o.hidden o.visible
                (orderAdded o (freshLimitLevel o)))) b.asks := by
            rw [updateLevelAt_updateLevelAt o.price (orderAdded o) _ _
              (fun l hl => by rw [orderAdded_price, hl])]
            exact updateLevelAt_insertLevel (freshLimitLevel o) b.asks _ hnin
              (roundtrip_dead_price o)
          rw [hasks2]
          refine OrderBook_eq _ _ rfl ?_ rfl rfl rfl ?_
          · dsimp only
            have := eraseLevel_insertLevel (unlinkOrder o.id
              (reduceLevel o.quantity o.hidden o.visible
                (orderAdded o (freshLimitLevel o)))) b.asks
              (by rw [roundtrip_dead_price]; exact hnin)
            rw [roundtrip_dead_price] at this
            exact this
          · dsimp only
            exact bestAsk_restore b o.price _ (roundtrip_dead_price o) hsa hmina hnin

theorem beq_none_eq_isNone (x : Option Nat) : ((none : Option Nat) == x) = x.isNone := by
  cases x <;> rfl

theorem nodup_prices (ls : List Level) (hs : sortedLadder ls) : (prices ls).Nodup :=
  hs.imp (fun h => Nat.ne_of_lt h)

theorem find_eraseLevel_none (p : Nat) (ls : List Level)
    (hnd : (prices ls).Nodup) :
    (eraseLevel p ls).find? (·.price == p) = none := by
  apply (find_price_none _ _).mpr
  rw [prices_eraseLevel]
  intro hmem
  exact ((List.Nodup.mem_erase_iff hnd).mp hmem).1 rfl

theorem ReduceStopOrder_some (o : OrderNode) (q hq vq : Nat) (b : OrderBook)
    (b' : OrderBook) (o' : OrderNode)
    (h : ReduceStopOrder o q hq vq b = some (b', o')) :
    ∃ u, ReduceOrder o q hq vq b = some (u, b', o') := by
  rw [ReduceStopOrder_eq] at h
  cases hr : ReduceOrder o q hq vq b with
  | none => rw [hr] at h; exact absurd h (by simp)
  | some r =>
      rw [hr] at h
      obtain ⟨u, bb, oo⟩ := r
      simp only [Option.map_some', Option.some.injEq, Prod.mk.injEq] at h
      obtain ⟨h1, h2⟩ := h
      subst h1; subst h2
      exact ⟨u, rfl⟩

theorem DeleteStopOrder_some (o : OrderNode) (b : OrderBook)
    (b' : OrderBook) (o' : OrderNode)
    (h : DeleteStopOrder o b = some (b', o')) :
    ∃ u, DeleteOrder o b = some (u, b', o') := by
  rw [DeleteStopOrder_eq] at h
  cases hr : DeleteOrder o b with
  | none => rw [hr] at h; exact absurd h (by simp)
  | some r =>
      rw [hr] at h
      obtain ⟨u, bb, oo⟩ := r
      simp only [Option.map_some', Option.some.injEq, Prod.mk.injEq] at h
      obtain ⟨h1, h2⟩ := h
      subst h1; subst h2
      exact ⟨u, rfl⟩

theorem addOrder_find_snapshot (o : OrderNode) (b : OrderBook) (u : LevelUpdate)
    (b' : OrderBook) (o' : OrderNode) (h : AddOrder o b = some (u, b', o')) :
    (if o.isBuy then GetBid b' o.price else GetAsk b' o.price) = some u.snapshot := by
  obtain ⟨ho', htop, hcase⟩ := AddOrder_cases o b u b' o' h
  rcases hcase with ⟨lvl, hfound, hk, hsnap, hb'⟩ | ⟨hfound, hk, hsnap, hbuyimp, hsellimp⟩
  · cases hbuy : o.isBuy with
    | true =>
        rw [hbuy] at hfound hb'
        simp only [reduceIte] at hfound hb' ⊢
        subst hb'
        show (updateLevelAt o.price (orderAdded o) b.bids).find? (·.price == o.price) = _
        rw [find_updateLevelAt o.price (orderAdded o) b.bids
          (fun l hl => by rw [orderAdded_price, hl])]
        rw [show b.bids.find? (·.price == o.price) = some lvl from hfound, hsnap]
        rfl
    | false =>
        rw [hbuy] at hfound hb'
        simp only [Bool.false_eq_true, reduceIte] at hfound hb' ⊢
        subst hb'
        show (updateLevelAt o.price (orderAdded o) b.asks).find? (·.price == o.price) = _
        rw [find_updateLevelAt o.price (orderAdded o) b.asks
          (fun l hl => by rw [orderAdded_price, hl])]
        rw [show b.asks.find? (·.price == o.price) = some lvl from hfound, hsnap]
        rfl
  · cases hbuy : o.isBuy with
    | true =>
        obtain ⟨hnin, hb'⟩ := hbuyimp hbuy
        simp only [reduceIte]
        rw [hb']
        show (updateLevelAt o.price (orderAdded o)
          (insertLevel (freshLimitLevel o) b.bids)).find? (·.price == o.price) = _
        rw [show o.price = (freshLimitLevel o).price from rfl]
        rw [updateLevelAt_insertLevel (freshLimitLevel o) b.bids (orderAdded o) hnin rfl]
        rw [show (freshLimitLevel o).price = (orderAdded o (freshLimitLevel o)).price from rfl]
        rw [find_insertLevel (orderAdded o (freshLimitLevel o)) b.bids hnin, hsnap]
    | false =>
        obtain ⟨hnin, hb'⟩ := hsellimp hbuy
        simp only [Bool.false_eq_true, reduceIte]
        rw [hb']
        show (updateLevelAt o.price (orderAdded o)
          (insertLevel (freshLimitLevel o) b.asks)).find? (·.price == o.price) = _
        rw [show o.price = (freshLimitLevel o).price from rfl]
        rw [updateLevelAt_insertLevel (freshLimitLevel o) b.asks (orderAdded o) hnin rfl]
        rw [show (freshLimitLevel o).price = (orderAdded o (freshLimitLevel o)).price from rfl]
        rw [find_insertLevel (orderAdded o (freshLimitLevel o)) b.asks hnin, hsnap]

/-!
Lookup lemmas after the level rewrite and deletion of `ReduceOrder` /
`DeleteOrder`, shared by the snapshot-timing claim.
-/

theorem find_after_deleteLevel (o : OrderNode) (lp : Nat) (b b1 : OrderBook)
    (lvl2 : Level) (hs : BookSorted b)
    (hb1 : b1 = (if o.isBuy then { b with bids := updateLevelAt lp (fun _ => lvl2) b.bids }
                 else { b with asks := updateLevelAt lp (fun _ => lvl2) b.asks }))
    (hlvl2p : lvl2.price = lp) :
    (if o.isBuy then GetBid (DeleteLevel o lp b1) lp
     else GetAsk (DeleteLevel o lp b1) lp) = none := by
  cases hbuy : o.isBuy with
  | true =>
      rw [hbuy] at hb1
      simp only [reduceIte] at hb1 ⊢
      subst hb1
      rw [DeleteLevel_eq_buy o lp _ hbuy]
      show (eraseLevel lp (updateLevelAt lp (fun _ => lvl2) b.bids)).find?
        (·.price == lp) = none
      apply find_eraseLevel_none
      rw [prices_updateLevelAt lp _ b.bids (fun l _ => hlvl2p)]
      exact nodup_prices b.bids hs.1
  | false =>
      rw [hbuy] at hb1
      simp only [Bool.false_eq_true, reduceIte] at hb1 ⊢
      subst hb1
      rw [DeleteLevel_eq_sell o lp _ hbuy]
      show (eraseLevel lp (updateLevelAt lp (fun _ => lvl2) b.asks)).find?
        (·.price == lp) = none
      apply find_eraseLevel_none
      rw [prices_updateLevelAt lp _ b.asks (fun l _ => hlvl2p)]
      exact nodup_prices b.asks hs.2.1

theorem find_after_levelRewrite (o : OrderNode) (lp : Nat) (b b1 : OrderBook)
    (lvl lvl2 : Level)
    (hfound : (if o.isBuy then GetBid b lp else GetAsk b lp) = some lvl)
    (hb1 : b1 = (if o.isBuy then { b with bids := updateLevelAt lp (fun _ => lvl2) b.bids }
                 else { b with asks := updateLevelAt lp (fun _ => lvl2) b.asks }))
    (hlvl2p : lvl2.price = lp) :
    (if o.isBuy then GetBid b1 lp else GetAsk b1 lp) = some lvl2 := by
  cases hbuy : o.isBuy with
  | true =>
      rw [hbuy] at hb1 hfound
      simp only [reduceIte] at hb1 hfound ⊢
      subst hb1
      show (updateLevelAt lp (fun _ => lvl2) b.bids).find? (·.price == lp) = some lvl2
      rw [find_updateLevelAt lp _ b.bids (fun l _ => hlvl2p)]
      rw [show b.bids.find? (·.price == lp) = some lvl from hfound]
      rfl
  | false =>
      rw [hbuy] at hb1 hfound
      simp only [Bool.false_eq_true, reduceIte] at hb1 hfound ⊢
      subst hb1
      show (updateLevelAt lp (fun _ => lvl2) b.asks).find? (·.price == lp) = some lvl2
      rw [find_updateLevelAt lp _ b.asks (fun l _ => hlvl2p)]
      rw [show b.asks.find? (·.price == lp) = some lvl from hfound]
      rfl
/-!
Claim theorems.
-/

/-- C1: After every limit-side operation (AddOrder, ReduceOrder, DeleteOrder)
on a book whose ladders are sorted and whose best pointers are correct, the
best-bid pointer is again the maximum price of the bids ladder (none when the
ladder is empty) and the best-ask pointer the minimum price of the asks
ladder; and on every AVL-balanced BST shape the source's `left child else
parent` step from the maximum (resp. `right child else parent` step from the
minimum) lands exactly on the in-order predecessor (resp. successor), i.e.
on the next-lower (next-higher) remaining price. -/
theorem limitOps_preserve_best_and_avl_step :
    (∀ (o : OrderNode) (b : OrderBook) (u : LevelUpdate) (b' : OrderBook)
        (o' : OrderNode),
        BookSorted b → BestOK b → AddOrder o b = some (u, b', o') →
        BookSorted b' ∧ BestOK b') ∧
    (∀ (o : OrderNode) (q hq vq : Nat) (b : OrderBook) (u : LevelUpdate)
        (b' : OrderBook) (o' : OrderNode),
        BookSorted b → BestOK b → ReduceOrder o q hq vq b = some (u, b', o') →
        BookSorted b' ∧ BestOK b') ∧
    (∀ (o : OrderNode) (b : OrderBook) (u : LevelUpdate) (b' : OrderBook)
        (o' : OrderNode),
        BookSorted b → BestOK b → DeleteOrder o b = some (u, b', o') →
        BookSorted b' ∧ BestOK b') ∧
    (∀ (t : PriceTree) (m : Nat), t.bst → t.avl = true →
        t.keys.getLast? = some m →
        bestBidStep t = (t.keys.filter (fun x => x < m)).getLast?) ∧
    (∀ (t : PriceTree) (m : Nat), t.bst → t.avl = true →
        t.keys.head? = some m →
        bestAskStep t = (t.keys.filter (fun x => m < x)).head?) :=
  ⟨fun o b u b' o' hs hbest h => addOrder_inv o b u b' o' hs hbest h,
   fun o q hq vq b u b' o' hs hbest h => reduceOrder_inv o q hq vq b u b' o' hs hbest h,
   fun o b u b' o' hs hbest h => deleteOrder_inv o b u b' o' hs hbest h,
   fun t m hb ha hm => bestBidStep_eq t hb ha m hm,
   fun t m hb ha hm => bestAskStep_eq t hb ha m hm⟩

/-- Witness for C1 at concrete inputs: adding a buy order at price 100 to the
empty book preserves sortedness and the best pointers, and on the balanced
three-node tree with keys 3, 5, 7 the successor steps return the next-lower
price below 7 and the next-higher price above 3. -/
theorem limitOps_preserve_best_and_avl_step_w :
    BookSorted emptyBook ∧ BestOK emptyBook ∧
    AddOrder wBuy emptyBook = some (wUpd1, wBook1, wBuyL) ∧
    (BookSorted wBook1 ∧ BestOK wBook1) ∧
    PriceTree.bst wTree ∧ wTree.avl = true ∧
    wTree.keys.getLast? = some 7 ∧
    bestBidStep wTree = (wTree.keys.filter (fun x => x < 7)).getLast? ∧
    wTree.keys.head? = some 3 ∧
    bestAskStep wTree = (wTree.keys.filter (fun x => 3 < x)).head? := by
  have hs : BookSorted emptyBook := by unfold BookSorted sortedLadder; decide
  have hb : BestOK emptyBook := by unfold BestOK maxPrice minPrice; decide
  have h : AddOrder wBuy emptyBook = some (wUpd1, wBook1, wBuyL) := rfl
  have hbst : PriceTree.bst wTree := by unfold PriceTree.bst; decide
  have havl : wTree.avl = true := by decide
  have hlast : wTree.keys.getLast? = some 7 := by decide
  have hhead : wTree.keys.head? = some 3 := by decide
  exact ⟨hs, hb, h,
    limitOps_preserve_best_and_avl_step.1 wBuy emptyBook wUpd1 wBook1 wBuyL hs hb h,
    hbst, havl, hlast,
    limitOps_preserve_best_and_avl_step.2.2.2.1 wTree 7 hbst havl hlast,
    hhead,
    limitOps_preserve_best_and_avl_step.2.2.2.2 wTree 3 hbst havl hhead⟩

/-- C2 is FALSE of the code (code bug): `AddStopOrder` calls `AddLevel`
(`order_book.cpp` line 242) and `DeleteStopOrder` calls `DeleteLevel` (line
304), so stop orders land in the limit ladders and move the best pointers.
Concretely: from the empty book, a buy stop at 110 and a sell stop at 90
leave both stop ladders empty, put the levels into bids/asks, and set
`best_bid = 110`, `best_ask = 90` instead of leaving them null; deleting the
buy stop then resets `best_bid` to none, changing it again. -/
theorem stopOrders_mutate_limit_book :
    AddStopOrder wBuyStop emptyBook =
      some (wStopBook1, { wBuyStop with level := some 110 }) ∧
    AddStopOrder wSellStop wStopBook1 =
      some (wStopBook2, { wSellStop with level := some 90 }) ∧
    wStopBook2.bestBid = some 110 ∧ wStopBook2.bestAsk = some 90 ∧
    wStopBook2.bids = [wStopLvl110] ∧ wStopBook2.asks = [wStopLvl90] ∧
    wStopBook2.buyStop = [] ∧ wStopBook2.sellStop = [] ∧
    DeleteStopOrder { wBuyStop with level := some 110 } wStopBook2 =
      some (wStopBook3, { wBuyStop with level := none }) ∧
    wStopBook3.bestBid = none :=
  ⟨rfl, rfl, rfl, rfl, rfl, rfl, rfl, rfl, rfl, rfl⟩

/-- C3 is FALSE of the code (code bug): because `AddStopOrder` calls
`AddLevel` instead of `AddStopLevel` (`order_book.cpp` line 242), the level
created for a fresh buy stop at 110 is tagged `BID` (not `ASK`), is stored in
the bids ladder (not the buy-stop ladder), and `GetBuyStopLevel(110)` returns
null; symmetrically for a sell stop at 90. -/
theorem buyStop_level_misplaced :
    AddStopOrder wBuyStop emptyBook =
      some (wStopBook1, { wBuyStop with level := some 110 }) ∧
    GetBuyStopLevel wStopBook1 110 = none ∧
    wStopBook1.buyStop = [] ∧
    GetBid wStopBook1 110 = some wStopLvl110 ∧
    wStopLvl110.type = LevelType.BID ∧
    AddStopOrder wSellStop wStopBook1 =
      some (wStopBook2, { wSellStop with level := some 90 }) ∧
    GetSellStopLevel wStopBook2 90 = none ∧
    wStopBook2.sellStop = [] ∧
    GetAsk wStopBook2 90 = some wStopLvl90 ∧
    wStopLvl90.type = LevelType.ASK :=
  ⟨rfl, rfl, rfl, rfl, rfl, rfl, rfl, rfl, rfl, rfl⟩

/-- Counterexample to C4 as stated: replaying the spec's S1/S2 scenario (buy
orders at 100, 101, 99, then delete the order at 101, whose level is the best
bid), `DeleteOrder` returns kind = DELETE but `top = false` — not `top =
true` as the claim asserts — because the source compares the order's already
cleared `Level` pointer with the new best bid (price 100). -/
theorem deleteBest_top_false_cex :
    AddOrder wBuy emptyBook = some (wUpd1, wBook1, wBuyL) ∧
    AddOrder wBuy2 wBook1 = some (wUpd2, wBook12, wBuy2L) ∧
    AddOrder wBuy3 wBook12 = some (wUpd3, wBook123, wBuy3L) ∧
    wBook123.bestBid = some 101 ∧ wBuy2L.level = some 101 ∧
    DeleteOrder wBuy2L wBook123 =
      some (wUpdDel, wBook13, { wBuy2L with level := none }) ∧
    wUpdDel.kind = UpdateType.DELETE ∧ wUpdDel.top = false ∧
    wBook13.bestBid = some 100 :=
  ⟨rfl, rfl, rfl, rfl, rfl, rfl, rfl, rfl, rfl⟩

/-- C4 (amended): for a DELETE update from `DeleteOrder` or `ReduceOrder`,
the `top` flag does not report whether the deleted level was the side's best
at the moment of the operation; it is true exactly when the side's best
pointer is null after the operation (the comparison at `order_book.cpp`
lines 157 and 186 uses the order's `Level`, already cleared to null by
`DeleteLevel`). In the S1/S2 scenario the delete at 101 therefore returns
`top = false` while `best_bid` becomes 100. -/
theorem delete_top_iff_side_emptied :
    (∀ (o : OrderNode) (b : OrderBook) (u : LevelUpdate) (b' : OrderBook)
        (o' : OrderNode),
        DeleteOrder o b = some (u, b', o') → u.kind = UpdateType.DELETE →
        u.top = (bestOf o.isBuy b').isNone) ∧
    (∀ (o : OrderNode) (q hq vq : Nat) (b : OrderBook) (u : LevelUpdate)
        (b' : OrderBook) (o' : OrderNode),
        ReduceOrder o q hq vq b = some (u, b', o') → u.kind = UpdateType.DELETE →
        u.top = (bestOf o.isBuy b').isNone) := by
  constructor
  · intro o b u b' o' h hk
    obtain ⟨lp, lvl, lvl1, b1, hlp, hfound, hlvl1, hb1, hsnap, hcase⟩ :=
      DeleteOrder_cases o b u b' o' h
    rcases hcase with ⟨_, _, _, _, htop⟩ | ⟨_, hk2, _, _, _⟩
    · rw [htop, beq_none_eq_isNone]
    · rw [hk2] at hk
      simp at hk
  · intro o q hq vq b u b' o' h hk
    obtain ⟨lp, lvl, lvl2, b1, hlp, hfound, hlvl2, hb1, hsnap, hcase⟩ :=
      ReduceOrder_cases o q hq vq b u b' o' h
    rcases hcase with ⟨_, _, _, _, htop⟩ | ⟨_, hk2, _, _, _⟩
    · rw [htop, beq_none_eq_isNone]
    · rw [hk2] at hk
      simp at hk

/-- Witness for the amended C4 at the S1/S2 scenario: the DELETE at price 101
carries `top = (best bid after the delete).isNone`, which is false here since
the bid at 100 remains. -/
theorem delete_top_iff_side_emptied_w :
    DeleteOrder wBuy2L wBook123 =
      some (wUpdDel, wBook13, { wBuy2L with level := none }) ∧
    wUpdDel.kind = UpdateType.DELETE ∧
    wUpdDel.top = (bestOf wBuy2L.isBuy wBook13).isNone := by
  have h : DeleteOrder wBuy2L wBook123 =
      some (wUpdDel, wBook13, { wBuy2L with level := none }) := rfl
  exact ⟨h, rfl, delete_top_iff_side_emptied.1 wBuy2L wBook123 wUpdDel wBook13
    { wBuy2L with level := none } h rfl⟩

/-- C5: for every order and book, a successful `AddOrder` returns kind = ADD
exactly when no level existed at the order's price on its side (UPDATE
otherwise), adds the order's quantity, hidden and visible quantities to the
level's counters, appends the order at the tail of the level's FIFO queue,
increments `Orders` by one, caches the level in the order, and sets `top`
exactly when the stored level is the side's best pointer after the
operation. -/
theorem addOrder_contract (o : OrderNode) (b : OrderBook) (u : LevelUpdate)
    (b' : OrderBook) (o' : OrderNode) (h : AddOrder o b = some (u, b', o')) :
    (u.kind = UpdateType.ADD ↔
       (if o.isBuy then GetBid b o.price else GetAsk b o.price) = none) ∧
    (u.kind = UpdateType.UPDATE ↔
       ∃ lvl, (if o.isBuy then GetBid b o.price else GetAsk b o.price) = some lvl) ∧
    (∀ lvl, (if o.isBuy then GetBid b o.price else GetAsk b o.price) = some lvl →
       u.snapshot.totalVolume = lvl.totalVolume + o.quantity ∧
       u.snapshot.hiddenVolume = lvl.hiddenVolume + o.hidden ∧
       u.snapshot.visibleVolume = lvl.visibleVolume + o.visible ∧
       u.snapshot.orderList = lvl.orderList ++ [o.id] ∧
       u.snapshot.orders = lvl.orders + 1) ∧
    ((if o.isBuy then GetBid b o.price else GetAsk b o.price) = none →
       u.snapshot.totalVolume = o.quantity ∧
       u.snapshot.hiddenVolume = o.hidden ∧
       u.snapshot.visibleVolume = o.visible ∧
       u.snapshot.orderList = [o.id] ∧
       u.snapshot.orders = 1) ∧
    (if o.isBuy then GetBid b' o.price else GetAsk b' o.price) = some u.snapshot ∧
    o' = { o with level := some o.price } ∧
    (u.top = true ↔ some o.price = bestOf o.isBuy b') := by
  obtain ⟨ho', htop, hcase⟩ := AddOrder_cases o b u b' o' h
  refine ⟨?_, ?_, ?_, ?_, addOrder_find_snapshot o b u b' o' h, ho', ?_⟩
  · rcases hcase with ⟨lvl, hfound, hk, _, _⟩ | ⟨hfound, hk, _, _, _⟩
    · constructor
      · intro hka
        rw [hk] at hka
        simp at hka
      · intro hnone
        rw [hfound] at hnone
        simp at hnone
    · exact iff_of_true hk hfound
  · rcases hcase with ⟨lvl, hfound, hk, _, _⟩ | ⟨hfound, hk, _, _, _⟩
    · exact iff_of_true hk ⟨lvl, hfound⟩
    · constructor
      · intro hku
        rw [hk] at hku
        simp at hku
      · intro hex
        obtain ⟨lvl, hsome⟩ := hex
        rw [hfound] at hsome
        simp at hsome
  · intro lvl' hfound'
    rcases hcase with ⟨lvl, hfound, hk, hsnap, _⟩ | ⟨hfound, hk, hsnap, _, _⟩
    · rw [hfound] at hfound'
      have heq : lvl = lvl' := by simpa using hfound'
      rw [hsnap, ← heq]
      exact ⟨rfl, rfl, rfl, rfl, rfl⟩
    · rw [hfound] at hfound'
      simp at hfound'
  · intro hnone
    rcases hcase with ⟨lvl, hfound, hk, hsnap, _⟩ | ⟨hfound, hk, hsnap, _, _⟩
    · rw [hfound] at hnone
      simp at hnone
    · rw [hsnap]
      simp [orderAdded, freshLimitLevel]
  · rw [htop]
    exact beq_iff_eq

/-- Witness for C5: adding a buy order at 100 to the empty book yields
kind = ADD (no level existed), the new level is found at the price on the
bid side with the snapshot aggregates, the order caches its level, and
`top = true` since 100 became the best bid. -/
theorem addOrder_contract_w :
    AddOrder wBuy emptyBook = some (wUpd1, wBook1, wBuyL) ∧
    (wUpd1.kind = UpdateType.ADD ↔
      (if wBuy.isBuy then GetBid emptyBook wBuy.price
       else GetAsk emptyBook wBuy.price) = none) ∧
    (if wBuy.isBuy then GetBid wBook1 wBuy.price else GetAsk wBook1 wBuy.price) =
      some wUpd1.snapshot ∧
    wBuyL = { wBuy with level := some wBuy.price } ∧
    (wUpd1.top = true ↔ some wBuy.price = bestOf wBuy.isBuy wBook1) := by
  have h : AddOrder wBuy emptyBook = some (wUpd1, wBook1, wBuyL) := rfl
  have hc := addOrder_contract wBuy emptyBook wUpd1 wBook1 wBuyL h
  exact ⟨h, hc.1, hc.2.2.2.2.1, hc.2.2.2.2.2.1, hc.2.2.2.2.2.2⟩

/-- C6: `DeleteOrder` on an order is observationally equal (same optional
`LevelUpdate` and same final book) to the full `ReduceOrder` with deltas
equal to the order's whole quantity, hidden and visible quantities, applied
under `ReduceOrder`'s precondition that the caller has already zeroed the
order's own quantity. -/
theorem deleteOrder_eq_full_reduce (o : OrderNode) (b : OrderBook) :
    (DeleteOrder o b).map (fun r => (r.1, r.2.1)) =
      (ReduceOrder { o with quantity := 0 } o.quantity o.hidden o.visible b).map
        (fun r => (r.1, r.2.1)) := by
  unfold DeleteOrder ReduceOrder
  dsimp only
  repeat' split
  all_goals first | rfl | simp_all

/-- C7: every public operation, applied under its precondition, preserves the
book-wide volume invariant: each level of the four ladders has
`TotalVolume`, `HiddenVolume`, `VisibleVolume` equal to the sums of its
orders' quantities, `Orders` equal to the queue length,
`TotalVolume = HiddenVolume + VisibleVolume`, and `TotalVolume > 0` (a level
with zero volume never remains in a ladder).  The order environment `env`
maps ids to resting orders and is point-updated with the returned order. -/
theorem ops_preserve_level_aggregates :
    (∀ (env : Nat → OrderNode) (o : OrderNode) (b : OrderBook) (u : LevelUpdate)
        (b' : OrderBook) (o' : OrderNode),
        BookSorted b → VolInv env b →
        (∀ l ∈ allLevels b, o.id ∉ l.orderList) →
        o.quantity = o.hidden + o.visible → 0 < o.quantity →
        AddOrder o b = some (u, b', o') →
        VolInv (Function.update env o.id o') b') ∧
    (∀ (env : Nat → OrderNode) (o : OrderNode) (q hq vq : Nat) (b : OrderBook)
        (u : LevelUpdate) (b' : OrderBook) (o' : OrderNode) (lp : Nat) (lvl : Level),
        BookSorted b → VolInv env b →
        o.level = some lp →
        (if o.isBuy then GetBid b lp else GetAsk b lp) = some lvl →
        o.id ∈ lvl.orderList → lvl.orderList.Nodup →
        (o.isBuy = true →
          (∀ l ∈ b.bids, o.id ∈ l.orderList → l = lvl) ∧
            ∀ l ∈ b.asks, o.id ∉ l.orderList) →
        (o.isBuy = false →
          (∀ l ∈ b.asks, o.id ∈ l.orderList → l = lvl) ∧
            ∀ l ∈ b.bids, o.id ∉ l.orderList) →
        (∀ l, (l ∈ b.buyStop ∨ l ∈ b.sellStop) → o.id ∉ l.orderList) →
        (env o.id).quantity = o.quantity + q →
        (env o.id).hidden = o.hidden + hq →
        (env o.id).visible = o.visible + vq →
        q = hq + vq → o.quantity = o.hidden + o.visible →
        ReduceOrder o q hq vq b = some (u, b', o') →
        VolInv (Function.update env o.id o') b') ∧
    (∀ (env : Nat → OrderNode) (o : OrderNode) (b : OrderBook)
        (u : LevelUpdate) (b' : OrderBook) (o' : OrderNode) (lp : Nat) (lvl : Level),
        BookSorted b → VolInv env b →
        o.level = some lp →
        (if o.isBuy then GetBid b lp else GetAsk b lp) = some lvl →
        o.id ∈ lvl.orderList → lvl.orderList.Nodup →
        (o.isBuy = true →
          (∀ l ∈ b.bids, o.id ∈ l.orderList → l = lvl) ∧
            ∀ l ∈ b.asks, o.id ∉ l.orderList) →
        (o.isBuy = false →
          (∀ l ∈ b.asks, o.id ∈ l.orderList → l = lvl) ∧
            ∀ l ∈ b.bids, o.id ∉ l.orderList) →
        (∀ l, (l ∈ b.buyStop ∨ l ∈ b.sellStop) → o.id ∉ l.orderList) →
        (env o.id).quantity = o.quantity →
        (env o.id).hidden = o.hidden →
        (env o.id).visible = o.visible →
        o.quantity = o.hidden + o.visible →
        DeleteOrder o b = some (u, b', o') →
        VolInv (Function.update env o.id o') b') ∧
    (∀ (env : Nat → OrderNode) (o : OrderNode) (b : OrderBook)
        (b' : OrderBook) (o' : OrderNode),
        BookSorted b → VolInv env b →
        (∀ l ∈ allLevels b, o.id ∉ l.orderList) →
        o.quantity = o.hidden + o.visible → 0 < o.quantity →
        AddStopOrder o b = some (b', o') →
        VolInv (Function.update env o.id o') b') ∧
    (∀ (env : Nat → OrderNode) (o : OrderNode) (q hq vq : Nat) (b : OrderBook)
        (b' : OrderBook) (o' : OrderNode) (lp : Nat) (lvl : Level),
        BookSorted b → VolInv env b →
        o.level = some lp →
        (if o.isBuy then GetBid b lp else GetAsk b lp) = some lvl →
        o.id ∈ lvl.orderList → lvl.orderList.Nodup →
        (o.isBuy = true →
          (∀ l ∈ b.bids, o.id ∈ l.orderList → l = lvl) ∧
            ∀ l ∈ b.asks, o.id ∉ l.orderList) →
        (o.isBuy = false →
          (∀ l ∈ b.asks, o.id ∈ l.orderList → l = lvl) ∧
            ∀ l ∈ b.bids, o.id ∉ l.orderList) →
        (∀ l, (l ∈ b.buyStop ∨ l ∈ b.sellStop) → o.id ∉ l.orderList) →
        (env o.id).quantity = o.quantity + q →
        (env o.id).hidden = o.hidden + hq →
        (env o.id).visible = o.visible + vq →
        q = hq + vq → o.quantity = o.hidden + o.visible →
        ReduceStopOrder o q hq vq b = some (b', o') →
        VolInv (Function.update env o.id o') b') ∧
    (∀ (env : Nat → OrderNode) (o : OrderNode) (b : OrderBook)
        (b' : OrderBook) (o' : OrderNode) (lp : Nat) (lvl : Level),
        BookSorted b → VolInv env b →
        o.level = some lp →
        (if o.isBuy then GetBid b lp else GetAsk b lp) = some lvl →
        o.id ∈ lvl.orderList → lvl.orderList.Nodup →
        (o.isBuy = true →
          (∀ l ∈ b.bids, o.id ∈ l.orderList → l = lvl) ∧
            ∀ l ∈ b.asks, o.id ∉ l.orderList) →
        (o.isBuy = false →
          (∀ l ∈ b.asks, o.id ∈ l.orderList → l = lvl) ∧
            ∀ l ∈ b.bids, o.id ∉ l.orderList) →
        (∀ l, (l ∈ b.buyStop ∨ l ∈ b.sellStop) → o.id ∉ l.orderList) →
        (env o.id).quantity = o.quantity →
        (env o.id).hidden = o.hidden →
        (env o.id).visible = o.visible →
        o.quantity = o.hidden + o.visible →
        DeleteStopOrder o b = some (b', o') →
        VolInv (Function.update env o.id o') b') := by
  refine ⟨?_, ?_, ?_, ?_, ?_, ?_⟩
  · intro env o b u b' o' hs hvol hfresh hqv hpos h
    exact addOrder_volInv env o b u b' o' hs hvol hfresh hqv hpos h
  · intro env o q hq vq b u b' o' lp lvl hs hvol hlp hfound hin hnd hbs hss hnostop
      henvq henvh henvv hqv hoqv h
    exact reduceOrder_volInv env o q hq vq b u b' o' lp lvl hs hvol hlp hfound hin hnd
      hbs hss hnostop henvq henvh henvv hqv hoqv h
  · intro env o b u b' o' lp lvl hs hvol hlp hfound hin hnd hbs hss hnostop
      henvq henvh henvv hoqv h
    exact deleteOrder_volInv env o b u b' o' lp lvl hs hvol hlp hfound hin hnd
      hbs hss hnostop henvq henvh henvv hoqv h
  · intro env o b b' o' hs hvol hfresh hqv hpos h
    exact addStopOrder_volInv env o b b' o' hs hvol hfresh hqv hpos h
  · intro env o q hq vq b b' o' lp lvl hs hvol hlp hfound hin hnd hbs hss hnostop
      henvq henvh henvv hqv hoqv h
    obtain ⟨u, hr⟩ := ReduceStopOrder_some o q hq vq b b' o' h
    exact reduceOrder_volInv env o q hq vq b u b' o' lp lvl hs hvol hlp hfound hin hnd
      hbs hss hnostop henvq henvh henvv hqv hoqv hr
  · intro env o b b' o' lp lvl hs hvol hlp hfound hin hnd hbs hss hnostop
      henvq henvh henvv hoqv h
    obtain ⟨u, hr⟩ := DeleteStopOrder_some o b b' o' h
    exact deleteOrder_volInv env o b u b' o' lp lvl hs hvol hlp hfound hin hnd
      hbs hss hnostop henvq henvh henvv hoqv hr

/-- Witness for C7: adding a fresh buy order at 100 to the empty book under
the trivial environment preserves the volume invariant of the resulting
one-level book. -/
theorem ops_preserve_level_aggregates_w :
    BookSorted emptyBook ∧ VolInv wEnv emptyBook ∧
    (∀ l ∈ allLevels emptyBook, wBuy.id ∉ l.orderList) ∧
    wBuy.quantity = wBuy.hidden + wBuy.visible ∧ 0 < wBuy.quantity ∧
    AddOrder wBuy emptyBook = some (wUpd1, wBook1, wBuyL) ∧
    VolInv (Function.update wEnv wBuy.id wBuyL) wBook1 := by
  have hs : BookSorted emptyBook := by unfold BookSorted sortedLadder; decide
  have hv : VolInv wEnv emptyBook := by unfold VolInv ladderOk levelOk; decide
  have hfr : ∀ l ∈ allLevels emptyBook, wBuy.id ∉ l.orderList := by
    intro l hl
    simp [allLevels, emptyBook] at hl
  have hqv : wBuy.quantity = wBuy.hidden + wBuy.visible := rfl
  have hpos : 0 < wBuy.quantity := by decide
  have h : AddOrder wBuy emptyBook = some (wUpd1, wBook1, wBuyL) := rfl
  exact ⟨hs, hv, hfr, hqv, hpos, h,
    ops_preserve_level_aggregates.1 wEnv wBuy emptyBook wUpd1 wBook1 wBuyL
      hs hv hfr hqv hpos h⟩

/-- C8: adding a fresh order and then deleting it restores the book to its
pre-Add state, level for level, including both best pointers. -/
theorem add_then_delete_roundtrip (o : OrderNode) (b : OrderBook)
    (hs : BookSorted b) (hbest : BestOK b)
    (hpos : ∀ l, (l ∈ b.bids ∨ l ∈ b.asks) → 0 < l.totalVolume)
    (hfresh : ∀ l, (l ∈ b.bids ∨ l ∈ b.asks) → o.id ∉ l.orderList) :
    ∃ u1 b1 o1 u2 b2 o2,
      AddOrder o b = some (u1, b1, o1) ∧ DeleteOrder o1 b1 = some (u2, b2, o2) ∧
      b2 = b :=
  add_delete_restores o b hs hbest hpos hfresh

/-- Witness for C8: adding the fresh buy order at 101 to the one-level book
at 100 and then deleting it restores that book exactly. -/
theorem add_then_delete_roundtrip_w :
    BookSorted wBook1 ∧ BestOK wBook1 ∧
    (∀ l, (l ∈ wBook1.bids ∨ l ∈ wBook1.asks) → 0 < l.totalVolume) ∧
    (∀ l, (l ∈ wBook1.bids ∨ l ∈ wBook1.asks) → wBuy2.id ∉ l.orderList) ∧
    (∃ u1 b1 o1 u2 b2 o2,
      AddOrder wBuy2 wBook1 = some (u1, b1, o1) ∧
      DeleteOrder o1 b1 = some (u2, b2, o2) ∧ b2 = wBook1) := by
  have hs : BookSorted wBook1 := by unfold BookSorted sortedLadder; decide
  have hb : BestOK wBook1 := by unfold BestOK maxPrice minPrice; decide
  have hpos : ∀ l, (l ∈ wBook1.bids ∨ l ∈ wBook1.asks) → 0 < l.totalVolume := by
    intro l hl
    rcases hl with hl | hl
    · have heq : l = wLvl100 := by simpa [wBook1] using hl
      rw [heq]
      decide
    · exact absurd hl (by simp [wBook1])
  have hfr : ∀ l, (l ∈ wBook1.bids ∨ l ∈ wBook1.asks) → wBuy2.id ∉ l.orderList := by
    intro l hl
    rcases hl with hl | hl
    · have heq : l = wLvl100 := by simpa [wBook1] using hl
      rw [heq]
      decide
    · exact absurd hl (by simp [wBook1])
  exact ⟨hs, hb, hpos, hfr, add_then_delete_roundtrip wBuy2 wBook1 hs hb hpos hfr⟩

/-- C9: the snapshot in the `LevelUpdate` returned by `ReduceOrder` and
`DeleteOrder` is taken after the counters are adjusted and the emptied order
(if any) is unlinked, but before the level is erased: its price and type are
the level's, its volumes are the reduced ones, its queue reflects the unlink,
kind = DELETE holds exactly when the snapshot shows `TotalVolume = 0` (and
then the level is gone from the ladder), while for kind = UPDATE (and for
`AddOrder`) the stored level equals the snapshot. -/
theorem update_snapshot_semantics :
    (∀ (o : OrderNode) (q hq vq : Nat) (b : OrderBook) (u : LevelUpdate)
        (b' : OrderBook) (o' : OrderNode) (lp : Nat) (lvl : Level),
        BookSorted b → o.level = some lp →
        (if o.isBuy then GetBid b lp else GetAsk b lp) = some lvl →
        ReduceOrder o q hq vq b = some (u, b', o') →
        u.snapshot.price = lvl.price ∧
        u.snapshot.type = lvl.type ∧
        u.snapshot.totalVolume = lvl.totalVolume - q ∧
        u.snapshot.hiddenVolume = lvl.hiddenVolume - hq ∧
        u.snapshot.visibleVolume = lvl.visibleVolume - vq ∧
        (o.quantity = 0 →
          u.snapshot.orderList = lvl.orderList.erase o.id ∧
          u.snapshot.orders = lvl.orders - 1) ∧
        (o.quantity ≠ 0 →
          u.snapshot.orderList = lvl.orderList ∧ u.snapshot.orders = lvl.orders) ∧
        (u.kind = UpdateType.DELETE ↔ u.snapshot.totalVolume = 0) ∧
        (u.kind = UpdateType.DELETE →
          (if o.isBuy then GetBid b' lp else GetAsk b' lp) = none) ∧
        (u.kind = UpdateType.UPDATE →
          (if o.isBuy then GetBid b' lp else GetAsk b' lp) = some u.snapshot)) ∧
    (∀ (o : OrderNode) (b : OrderBook) (u : LevelUpdate)
        (b' : OrderBook) (o' : OrderNode) (lp : Nat) (lvl : Level),
        BookSorted b → o.level = some lp →
        (if o.isBuy then GetBid b lp else GetAsk b lp) = some lvl →
        DeleteOrder o b = some (u, b', o') →
        u.snapshot.price = lvl.price ∧
        u.snapshot.type = lvl.type ∧
        u.snapshot.totalVolume = lvl.totalVolume - o.quantity ∧
        u.snapshot.hiddenVolume = lvl.hiddenVolume - o.hidden ∧
        u.snapshot.visibleVolume = lvl.visibleVolume - o.visible ∧
        u.snapshot.orderList = lvl.orderList.erase o.id ∧
        u.snapshot.orders = lvl.orders - 1 ∧
        (u.kind = UpdateType.DELETE ↔ u.snapshot.totalVolume = 0) ∧
        (u.kind = UpdateType.DELETE →
          (if o.isBuy then GetBid b' lp else GetAsk b' lp) = none) ∧
        (u.kind = UpdateType.UPDATE →
          (if o.isBuy then GetBid b' lp else GetAsk b' lp) = some u.snapshot)) ∧
    (∀ (o : OrderNode) (b : OrderBook) (u : LevelUpdate) (b' : OrderBook)
        (o' : OrderNode),
        AddOrder o b = some (u, b', o') →
        (if o.isBuy then GetBid b' o.price else GetAsk b' o.price) =
          some u.snapshot) := by
  refine ⟨?_, ?_, fun o b u b' o' h => addOrder_find_snapshot o b u b' o' h⟩
  · intro o q hq vq b u b' o' lp lvl hs hlp hfound h
    obtain ⟨lp', lvl', lvl2, b1, hlp', hfound', hlvl2, hb1, hsnap, hcase⟩ :=
      ReduceOrder_cases o q hq vq b u b' o' h
    rw [hlp] at hlp'
    have hlpeq : lp' = lp := by simpa using hlp'.symm
    rw [hlpeq] at hfound' hb1 hcase
    rw [hfound] at hfound'
    have hlvleq : lvl' = lvl := by simpa using hfound'.symm
    rw [hlvleq] at hlvl2
    have hfields : lvl2.price = lvl.price ∧ lvl2.type = lvl.type ∧
        lvl2.totalVolume = lvl.totalVolume - q ∧
        lvl2.hiddenVolume = lvl.hiddenVolume - hq ∧
        lvl2.visibleVolume = lvl.visibleVolume - vq := by
      by_cases hq0 : (o.quantity == 0) = true
      · rw [hlvl2]
        simp [hq0, unlinkOrder, reduceLevel]
      · have h0 : (o.quantity == 0) = false := by simpa using hq0
        rw [hlvl2]
        simp [h0, reduceLevel]
    have hlvlp : lvl.price = lp := by
      cases hbuy : o.isBuy with
      | true =>
          rw [hbuy] at hfound
          simp only [reduceIte] at hfound
          exact (find_price_some b.bids lp lvl hfound).1
      | false =>
          rw [hbuy] at hfound
          simp only [Bool.false_eq_true, reduceIte] at hfound
          exact (find_price_some b.asks lp lvl hfound).1
    have hlvl2p : lvl2.price = lp := by rw [hfields.1, hlvlp]
    refine ⟨by rw [hsnap]; exact hfields.1, by rw [hsnap]; exact hfields.2.1,
      by rw [hsnap]; exact hfields.2.2.1, by rw [hsnap]; exact hfields.2.2.2.1,
      by rw [hsnap]; exact hfields.2.2.2.2, ?_, ?_, ?_, ?_, ?_⟩
    · intro h0
      have hq0 : (o.quantity == 0) = true := beq_iff_eq.mpr h0
      rw [hsnap, hlvl2]
      simp [hq0, unlinkOrder, reduceLevel]
    · intro h0
      have hq0 : (o.quantity == 0) = false := by simpa using h0
      rw [hsnap, hlvl2]
      simp [hq0, reduceLevel]
    · rcases hcase with ⟨htv0, hk, _, _, _⟩ | ⟨htvne, hk, _, _, _⟩
      · exact iff_of_true hk (by rw [hsnap]; exact htv0)
      · refine iff_of_false ?_ ?_
        · intro hc
          rw [hk] at hc
          simp at hc
        · rw [hsnap]
          exact htvne
    · intro hkd
      rcases hcase with ⟨htv0, hk, hb', _, _⟩ | ⟨htvne, hk, _, _, _⟩
      · rw [hb']
        exact find_after_deleteLevel o lp b b1 lvl2 hs hb1 hlvl2p
      · rw [hk] at hkd
        simp at hkd
    · intro hku
      rcases hcase with ⟨htv0, hk, _, _, _⟩ | ⟨htvne, hk, hb', _, _⟩
      · rw [hk] at hku
        simp at hku
      · rw [hb', hsnap]
        exact find_after_levelRewrite o lp b b1 lvl lvl2 hfound hb1 hlvl2p
  · intro o b u b' o' lp lvl hs hlp hfound h
    obtain ⟨lp', lvl', lvl1, b1, hlp', hfound', hlvl1, hb1, hsnap, hcase⟩ :=
      DeleteOrder_cases o b u b' o' h
    rw [hlp] at hlp'
    have hlpeq : lp' = lp := by simpa using hlp'.symm
    rw [hlpeq] at hfound' hb1 hcase
    rw [hfound] at hfound'
    have hlvleq : lvl' = lvl := by simpa using hfound'.symm
    rw [hlvleq] at hlvl1
    have hlvlp : lvl.price = lp := by
      cases hbuy : o.isBuy with
      | true =>
          rw [hbuy] at hfound
          simp only [reduceIte] at hfound
          exact (find_price_some b.bids lp lvl hfound).1
      | false =>
          rw [hbuy] at hfound
          simp only [Bool.false_eq_true, reduceIte] at hfound
          exact (find_price_some b.asks lp lvl hfound).1
    have hlvl1p : lvl1.price = lp := by
      rw [hlvl1, unlinkOrder_price, reduceLevel_price, hlvlp]
    refine ⟨by rw [hsnap, hlvl1]; rfl, by rw [hsnap, hlvl1]; rfl,
      by rw [hsnap, hlvl1]; rfl, by rw [hsnap, hlvl1]; rfl,
      by rw [hsnap, hlvl1]; rfl, by rw [hsnap, hlvl1]; rfl,
      by rw [hsnap, hlvl1]; rfl, ?_, ?_, ?_⟩
    · rcases hcase with ⟨htv0, hk, _, _, _⟩ | ⟨htvne, hk, _, _, _⟩
      · exact iff_of_true hk (by rw [hsnap]; exact htv0)
      · refine iff_of_false ?_ ?_
        · intro hc
          rw [hk] at hc
          simp at hc
        · rw [hsnap]
          exact htvne
    · intro hkd
      rcases hcase with ⟨htv0, hk, hb', _, _⟩ | ⟨htvne, hk, _, _, _⟩
      · rw [hb']
        exact find_after_deleteLevel o lp b b1 lvl1 hs hb1 hlvl1p
      · rw [hk] at hkd
        simp at hkd
    · intro hku
      rcases hcase with ⟨htv0, hk, _, _, _⟩ | ⟨htvne, hk, hb', _, _⟩
      · rw [hk] at hku
        simp at hku
      · rw [hb', hsnap]
        exact find_after_levelRewrite o lp b b1 lvl lvl1 hfound hb1 hlvl1p

/-- Witness for C9: reducing the resting sell order at 50 by 4 in the
one-level ask book returns an UPDATE whose snapshot carries the reduced
volume 6 and equals the level stored at 50 afterwards. -/
theorem update_snapshot_semantics_w :
    BookSorted wBookS ∧ wSellR.level = some 50 ∧
    (if wSellR.isBuy then GetBid wBookS 50 else GetAsk wBookS 50) = some wAsk50 ∧
    ReduceOrder wSellR 4 0 4 wBookS = some (wUpdR, wBookSr, wSellR) ∧
    wUpdR.snapshot.totalVolume = wAsk50.totalVolume - 4 ∧
    (wUpdR.kind = UpdateType.DELETE ↔ wUpdR.snapshot.totalVolume = 0) ∧
    (wUpdR.kind = UpdateType.UPDATE →
      (if wSellR.isBuy then GetBid wBookSr 50 else GetAsk wBookSr 50) =
        some wUpdR.snapshot) := by
  have hs : BookSorted wBookS := by unfold BookSorted sortedLadder; decide
  have hlp : wSellR.level = some 50 := rfl
  have hfound : (if wSellR.isBuy then GetBid wBookS 50 else GetAsk wBookS 50) =
      some wAsk50 := rfl
  have h : ReduceOrder wSellR 4 0 4 wBookS = some (wUpdR, wBookSr, wSellR) := rfl
  have hc := update_snapshot_semantics.1 wSellR 4 0 4 wBookS wUpdR wBookSr wSellR
    50 wAsk50 hs hlp hfound h
  exact ⟨hs, hlp, hfound, h, hc.2.2.1, hc.2.2.2.2.2.2.2.1, hc.2.2.2.2.2.2.2.2.2⟩

/-- C10: each limit-side operation mutates exactly one ladder and at most
that side's best pointer: for a buy order, `AddOrder`, `ReduceOrder` and
`DeleteOrder` leave the asks ladder, the best ask and both stop ladders
untouched, and symmetrically a sell order's operations leave the bids
ladder, the best bid and both stop ladders untouched. -/
theorem limitOps_frame :
    (∀ (o : OrderNode) (b : OrderBook) (u : LevelUpdate) (b' : OrderBook)
        (o' : OrderNode),
        AddOrder o b = some (u, b', o') →
        (o.isBuy = true → b'.asks = b.asks ∧ b'.bestAsk = b.bestAsk ∧
           b'.buyStop = b.buyStop ∧ b'.sellStop = b.sellStop) ∧
        (o.isBuy = false → b'.bids = b.bids ∧ b'.bestBid = b.bestBid ∧
           b'.buyStop = b.buyStop ∧ b'.sellStop = b.sellStop)) ∧
    (∀ (o : OrderNode) (q hq vq : Nat) (b : OrderBook) (u : LevelUpdate)
        (b' : OrderBook) (o' : OrderNode),
        ReduceOrder o q hq vq b = some (u, b', o') →
        (o.isBuy = true → b'.asks = b.asks ∧ b'.bestAsk = b.bestAsk ∧
           b'.buyStop = b.buyStop ∧ b'.sellStop = b.sellStop) ∧
        (o.isBuy = false → b'.bids = b.bids ∧ b'.bestBid = b.bestBid ∧
           b'.buyStop = b.buyStop ∧ b'.sellStop = b.sellStop)) ∧
    (∀ (o : OrderNode) (b : OrderBook) (u : LevelUpdate) (b' : OrderBook)
        (o' : OrderNode),
        DeleteOrder o b = some (u, b', o') →
        (o.isBuy = true → b'.asks = b.asks ∧ b'.bestAsk = b.bestAsk ∧
           b'.buyStop = b.buyStop ∧ b'.sellStop = b.sellStop) ∧
        (o.isBuy = false → b'.bids = b.bids ∧ b'.bestBid = b.bestBid ∧
           b'.buyStop = b.buyStop ∧ b'.sellStop = b.sellStop)) := by
  refine ⟨?_, ?_, ?_⟩
  · intro o b u b' o' h
    obtain ⟨ho', htop, hcase⟩ := AddOrder_cases o b u b' o' h
    constructor
    · intro hbuy
      rcases hcase with ⟨lvl, hfound, hk, hsnap, hb'⟩ | ⟨hfound, hk, hsnap, hbi, hsi⟩
      · rw [hbuy] at hb'
        simp only [reduceIte] at hb'
        subst hb'
        exact ⟨rfl, rfl, rfl, rfl⟩
      · obtain ⟨hnin, hb'⟩ := hbi hbuy
        subst hb'
        exact ⟨rfl, rfl, rfl, rfl⟩
    · intro hbuy
      rcases hcase with ⟨lvl, hfound, hk, hsnap, hb'⟩ | ⟨hfound, hk, hsnap, hbi, hsi⟩
      · rw [hbuy] at hb'
        simp only [Bool.false_eq_true, reduceIte] at hb'
        subst hb'
        exact ⟨rfl, rfl, rfl, rfl⟩
      · obtain ⟨hnin, hb'⟩ := hsi hbuy
        subst hb'
        exact ⟨rfl, rfl, rfl, rfl⟩
  · intro o q hq vq b u b' o' h
    obtain ⟨lp, lvl, lvl2, b1, hlp, hfound, hlvl2, hb1, hsnap, hcase⟩ :=
      ReduceOrder_cases o q hq vq b u b' o' h
    constructor
    · intro hbuy
      rw [hbuy] at hb1
      simp only [reduceIte] at hb1
      rcases hcase with ⟨_, _, hb', _, _⟩ | ⟨_, _, hb', _, _⟩
      · rw [hb', DeleteLevel_eq_buy o lp b1 hbuy, hb1]
        exact ⟨rfl, rfl, rfl, rfl⟩
      · rw [hb', hb1]
        exact ⟨rfl, rfl, rfl, rfl⟩
    · intro hbuy
      rw [hbuy] at hb1
      simp only [Bool.false_eq_true, reduceIte] at hb1
      rcases hcase with ⟨_, _, hb', _, _⟩ | ⟨_, _, hb', _, _⟩
      · rw [hb', DeleteLevel_eq_sell o lp b1 hbuy, hb1]
        exact ⟨rfl, rfl, rfl, rfl⟩
      · rw [hb', hb1]
        exact ⟨rfl, rfl, rfl, rfl⟩
  · intro o b u b' o' h
    obtain ⟨lp, lvl, lvl1, b1, hlp, hfound, hlvl1, hb1, hsnap, hcase⟩ :=
      DeleteOrder_cases o b u b' o' h
    constructor
    · intro hbuy
      rw [hbuy] at hb1
      simp only [reduceIte] at hb1
      rcases hcase with ⟨_, _, hb', _, _⟩ | ⟨_, _, hb', _, _⟩
      · rw [hb', DeleteLevel_eq_buy o lp b1 hbuy, hb1]
        exact ⟨rfl, rfl, rfl, rfl⟩
      · rw [hb', hb1]
        exact ⟨rfl, rfl, rfl, rfl⟩
    · intro hbuy
      rw [hbuy] at hb1
      simp only [Bool.false_eq_true, reduceIte] at hb1
      rcases hcase with ⟨_, _, hb', _, _⟩ | ⟨_, _, hb', _, _⟩
      · rw [hb', DeleteLevel_eq_sell o lp b1 hbuy, hb1]
        exact ⟨rfl, rfl, rfl, rfl⟩
      · rw [hb', hb1]
        exact ⟨rfl, rfl, rfl, rfl⟩

/-- Witness for C10: the buy add at 100 on the empty book leaves the asks
ladder, the best ask and both stop ladders of the result untouched. -/
theorem limitOps_frame_w :
    AddOrder wBuy emptyBook = some (wUpd1, wBook1, wBuyL) ∧
    ((wBuy.isBuy = true → wBook1.asks = emptyBook.asks ∧
        wBook1.bestAsk = emptyBook.bestAsk ∧
        wBook1.buyStop = emptyBook.buyStop ∧
        wBook1.sellStop = emptyBook.sellStop) ∧
     (wBuy.isBuy = false → wBook1.bids = emptyBook.bids ∧
        wBook1.bestBid = emptyBook.bestBid ∧
        wBook1.buyStop = emptyBook.buyStop ∧
        wBook1.sellStop = emptyBook.sellStop)) := by
  have h : AddOrder wBuy emptyBook = some (wUpd1, wBook1, wBuyL) := rfl
  exact ⟨h, limitOps_frame.1 wBuy emptyBook wUpd1 wBook1 wBuyL h⟩
